import Mathlib

/-!
Verification of the game-journaling synchronization engine.

This file shallowly embeds the TypeScript sources of the repository
(`src/sync/wiki-link.ts`, `src/sync/validators.ts`, `src/sync/csv-parser.ts`,
`src/sync/parser.ts`, `src/sync/sync-engine.ts`, `src/db/schema.ts`) as
executable Lean definitions and proves the frozen claims about them.

Modelling conventions:
- JavaScript strings are Lean `String`s; character-level operations are
  defined by structural recursion over `String.data` so that every
  definition evaluates inside the kernel.
- JavaScript `undefined`/`null` on string-typed data are both `none`.
- The SQLite store is an in-memory record of row lists.  `INSERT` appends,
  `UPDATE ... WHERE slug` maps over the list, `DELETE ... WHERE` filters,
  `SELECT ... .get()` is `List.find?`.  Primary-key violations (which the
  real engine would surface as caught exceptions) are not modelled; the
  theorems that need it carry explicit `Nodup` hypotheses ruling them out.
- `new Date()` is a `Nat` timestamp parameter threaded through the run.
-/

namespace GameJournal

/-! ## Character-level helpers (JS string primitives) -/

/-- JS `\s` test; JavaScript whitespace on the characters appearing in this
corpus coincides with `Char.isWhitespace`. -/
def isWs (c : Char) : Bool := c.isWhitespace

/-- Drop leading whitespace (left part of JS `String.prototype.trim`). -/
def trimLeftChars (cs : List Char) : List Char := cs.dropWhile isWs

/-- Drop trailing whitespace (right part of JS `trim`). -/
def trimRightChars (cs : List Char) : List Char :=
  (cs.reverse.dropWhile isWs).reverse

/-- JS `trim` on a character list. -/
def trimChars (cs : List Char) : List Char := trimRightChars (trimLeftChars cs)

/-- JS `s.trim()`. -/
def jsTrim (s : String) : String := ⟨trimChars s.data⟩

/-- JS `s.toLowerCase()` (ASCII behaviour, which is all the corpus uses). -/
def lowerStr (s : String) : String := ⟨s.data.map Char.toLower⟩

/-- `p` is a prefix of `s` (char lists). -/
def isPrefixCs : List Char → List Char → Bool
  | [], _ => true
  | _ :: _, [] => false
  | p :: ps, c :: cs => p = c && isPrefixCs ps cs

/-- JS `s.startsWith(p)`. -/
def strStartsWith (s p : String) : Bool := isPrefixCs p.data s.data

/-- JS `s.split(sep)` for a one-character separator. -/
def splitOnChar (sep : Char) : List Char → List (List Char)
  | [] => [[]]
  | c :: rest =>
    let r := splitOnChar sep rest
    if c = sep then [] :: r
    else
      match r with
      | [] => [[c]]
      | h :: t => (c :: h) :: t

/-! ## wiki-link.ts -/

/-- `parseWikiLink` (wiki-link.ts): strips the `[[Name]]` marker using the
anchored regex `^\[\[(.+)\]\]$`; with no match the input is returned
unchanged.  `.+` forbids a newline inside the brackets and forces a
non-empty middle. -/
def parseWikiLink (raw : String) : String :=
  let cs := raw.data
  let mid := (cs.drop 2).take (cs.length - 4)
  if 5 ≤ cs.length ∧ cs.take 2 = ['[', '['] ∧
      cs.drop (cs.length - 2) = [']', ']'] ∧ ¬ mid.contains '\n' then
    ⟨mid⟩
  else raw

/-- One step of `replace(/\s+/g, "-")`: the `Bool` records whether the
previous character was part of a whitespace run already replaced. -/
def collapseWsAux : Bool → List Char → List Char
  | _, [] => []
  | afterWs, c :: rest =>
    if isWs c then
      if afterWs then collapseWsAux true rest
      else '-' :: collapseWsAux true rest
    else c :: collapseWsAux false rest

/-- `toSlug` (wiki-link.ts): `name.trim().replace(/\s+/g, "-")`. -/
def toSlug (name : String) : String :=
  ⟨collapseWsAux false (trimChars name.data)⟩

/-- `".md"` suffix strip of `replace(/\.md$/, "")`. -/
def stripMdSuffix (cs : List Char) : List Char :=
  if 3 ≤ cs.length ∧ cs.drop (cs.length - 3) = ['.', 'm', 'd'] then
    cs.take (cs.length - 3)
  else cs

/-- `slugFromPath` (wiki-link.ts): last `/`-separated component with the
`.md` extension removed (`split("/").pop()` on a non-empty split result,
so the `?? filePath` fallback is unreachable). -/
def slugFromPath (filePath : String) : String :=
  let parts := splitOnChar '/' filePath.data
  ⟨stripMdSuffix (parts.getLastD [])⟩

/-! ## validators.ts: scalar transforms -/

/-- The `statusSchema` transform (validators.ts lines 33–46) applied to the
string-or-absent input (`undefined`/`null`/`""` are all falsy and return
`null` before normalization). -/
def statusNormJs (val : Option String) : Option String :=
  match val with
  | none => none
  | some v =>
    if v = "" then none
    else
      let n := lowerStr (jsTrim v)
      if n = "finished" then some "finished"
      else if n = "started" then some "started"
      else if n = "bought" then some "bought"
      else if strStartsWith n "not start" then some "not started"
      else if n = "not finished" then some "started"
      else none

/-- The `platformSchema` transform (validators.ts lines 49–58). -/
def platformNormJs (val : Option String) : Option String :=
  match val with
  | none => none
  | some v =>
    if v = "" then none
    else
      let trimmed := jsTrim v
      if trimmed = "Xbok 360" then some "Xbox 360"
      else if trimmed = "" then none
      else some trimmed

/-- The `v?.trim() || null` transform used for `engine` and CSV `notes`. -/
def optTrimOrNull (val : Option String) : Option String :=
  match val with
  | none => none
  | some v =>
    let t := jsTrim v
    if t = "" then none else some t

/-! ## C4: status normalization -/

/-- Status normalization as the specification words it: after trimming and
lower-casing, `finished`/`started`/`bought` map to themselves, any value
beginning with `not start` maps to `not started`, the literal
`not finished` maps to `started`, and anything else — including the empty
string — is absent. -/
def statusSpec (s : String) : Option String :=
  let n := lowerStr (jsTrim s)
  if n = "finished" then some "finished"
  else if n = "started" then some "started"
  else if n = "bought" then some "bought"
  else if strStartsWith n "not start" then some "not started"
  else if n = "not finished" then some "started"
  else none

/-- **C4.**  Status normalization is case-insensitive after trimming and
agrees everywhere with the specification's case table: `finished`,
`started`, `bought` map to themselves, any value beginning with
`not start` maps to `not started`, the literal `not finished` maps to
`started`, and anything else (including the empty string) is absent.  In
particular `"Finished"`, `" started "`, `"not startedv"`, `"not finished"`
normalize to `finished`, `started`, `not started`, `started`. -/
theorem c4_status_normalization :
    (∀ s : String, statusNormJs (some s) = statusSpec s) ∧
    statusNormJs (some "Finished") = some "finished" ∧
    statusNormJs (some " started ") = some "started" ∧
    statusNormJs (some "not startedv") = some "not started" ∧
    statusNormJs (some "not finished") = some "started" ∧
    statusNormJs (some "") = none ∧
    statusNormJs (some "unrecognized") = none := by
  refine ⟨?_, by decide, by decide, by decide, by decide, by decide, by decide⟩
  intro s
  by_cases h : s = ""
  · subst h; decide
  · simp only [statusNormJs, statusSpec, if_neg h]

/-! ## csv-parser.ts -/

/-- Output of `csvRowSchema` (validators.ts lines 110–119). -/
structure CsvRow where
  name : String
  status : Option String
  platform : Option String
  notes : Option String
deriving DecidableEq, Repr

/-- An entry of `parseCsvFile`'s result (`ParsedCsvGame`). -/
structure ParsedCsvGame where
  slug : String
  row : CsvRow
deriving DecidableEq, Repr

/-- `line.replace(/,\s*$/, "")`: the regex matches iff the line ends in a
comma followed only by whitespace; the replacement removes that comma and
the trailing whitespace, otherwise the line is unchanged. -/
def stripTrailingComma (l : List Char) : List Char :=
  let t := trimRightChars l
  if t.getLast? = some ',' then t.dropLast else l

/-- `splitCsvLine` (csv-parser.ts lines 59–61): split on `,` and trim each
cell. -/
def splitCsvLine (l : List Char) : List String :=
  (splitOnChar ',' l).map (fun v => ⟨trimChars v⟩)

/-- The record built by csv-parser.ts lines 33–36: for each header column
`j`, `record[header[j]] = (values[j] ?? "").trim()`.  A JS object keeps the
*last* assignment for a repeated key; a key absent from the header reads
back as `undefined` (`none`). -/
def recordGet (header values : List String) (key : String) : Option String :=
  match ((List.range header.length).filter
      (fun j => header.getD j "" = key)).getLast? with
  | none => none
  | some j => some (jsTrim (values.getD j ""))

/-- `csvRowSchema.safeParse` on the record: `name` must be a present string
(`undefined` fails `z.string()`); `status`, `platform`, `notes` are
optional and normalized by their transforms. -/
def csvRowSchema (record : String → Option String) : Option CsvRow :=
  match record "name" with
  | none => none
  | some n =>
    some { name := jsTrim n
           status := statusNormJs (record "status")
           platform := platformNormJs (record "platform")
           notes := optTrimOrNull (record "notes") }

/-- Processing of one data line (csv-parser.ts lines 29–50): strip the
trailing comma, split, build the record, skip when `name` is missing or
blank, skip when `csvRowSchema` rejects, otherwise emit the slug/row
pair. -/
def parseCsvLine (header : List String) (l : List Char) : Option ParsedCsvGame :=
  let values := splitCsvLine (stripTrailingComma l)
  let record := recordGet header values
  match record "name" with
  | none => none
  | some n =>
    if n = "" then none
    else
      match csvRowSchema record with
      | none => none
      | some row => some ⟨toSlug row.name, row⟩

/-- The non-blank lines of the raw CSV text (csv-parser.ts line 17). -/
def csvLines (raw : String) : List (List Char) :=
  (splitOnChar '\n' raw.data).filter (fun l => trimChars l ≠ [])

/-- The parsed header row (csv-parser.ts lines 22–25). -/
def headerOf (raw : String) : List String :=
  match csvLines raw with
  | [] => []
  | h :: _ =>
    (splitOnChar ',' (stripTrailingComma h)).map
      (fun c => lowerStr ⟨trimChars c⟩)

/-- The data lines (everything after the header). -/
def dataLinesOf (raw : String) : List (List Char) :=
  match csvLines raw with
  | [] => []
  | _ :: rest => rest

/-- `parseCsvFile` (csv-parser.ts lines 15–53), with the file contents
passed in place of the `fs.readFileSync` result. -/
def parseCsvFile (raw : String) : List ParsedCsvGame :=
  match csvLines raw with
  | [] => []
  | _ :: rest => rest.filterMap (parseCsvLine (headerOf raw))

/-- A data line is kept, per the specified behaviour, iff its `name` cell
exists and is non-blank. -/
def csvLineKeptSpec (header : List String) (l : List Char) : Bool :=
  match recordGet header (splitCsvLine (stripTrailingComma l)) "name" with
  | none => false
  | some n => n ≠ ""

theorem parseCsvLine_isSome (header : List String) (l : List Char) :
    (parseCsvLine header l).isSome = csvLineKeptSpec header l := by
  unfold parseCsvLine csvLineKeptSpec csvRowSchema
  cases h : recordGet header (splitCsvLine (stripTrailingComma l)) "name" with
  | none => simp [h]
  | some n =>
    by_cases hn : n = "" <;> simp [h, hn]

/-- **C10.**  Every catalog data line whose `name` cell is present and
non-empty yields a result entry: `csvRowSchema` validation cannot fail on
the all-string record, so the skip-with-diagnostic branch is unreachable
and the number of results equals the number of data lines with a
non-blank name. -/
theorem c10_csv_validation_total :
    (∀ raw : String,
      (parseCsvFile raw).length =
        (dataLinesOf raw).countP (csvLineKeptSpec (headerOf raw))) ∧
    (∀ (header : List String) (l : List Char) (n : String),
      recordGet header (splitCsvLine (stripTrailingComma l)) "name" = some n →
      n ≠ "" → (parseCsvLine header l).isSome = true) := by
  constructor
  · intro raw
    unfold parseCsvFile dataLinesOf
    cases h : csvLines raw with
    | nil => simp
    | cons hd rest =>
      rw [List.length_filterMap_eq_countP, List.countP_congr]
      intro l _
      simp [parseCsvLine_isSome]
  · intro header l n hrec hn
    rw [parseCsvLine_isSome]
    unfold csvLineKeptSpec
    rw [hrec]
    simpa using hn

/-- **C8 counterexample.**  The claim says a line with fewer columns than
the header is excluded; but the data line `"Foo"` has one column against a
four-column header and is still included — missing cells default to the
empty string, every transform tolerates blanks, and only a blank or
missing `name` skips a line. -/
theorem c8_counterexample_short_line_kept :
    (headerOf "name,status,platform,notes\nFoo").length = 4 ∧
    (splitCsvLine (stripTrailingComma "Foo".data)).length = 1 ∧
    parseCsvFile "name,status,platform,notes\nFoo" =
      [⟨"Foo", ⟨"Foo", none, none, none⟩⟩] := by
  refine ⟨by decide, by decide, by decide⟩

/-- **C8 (amended).**  `parseCsvFile` (a total function — no data line can
make it raise) excludes from its results exactly the lines whose `name`
cell is blank or missing; a line with fewer columns than the header is
excluded only when that makes its `name` cell blank or missing, the
missing cells otherwise being treated as empty strings. -/
theorem c8_amended_csv_exclusion :
    ∀ raw : String,
      parseCsvFile raw =
        (dataLinesOf raw).filterMap (parseCsvLine (headerOf raw)) ∧
      ∀ l : List Char,
        (parseCsvLine (headerOf raw) l = none ↔
          recordGet (headerOf raw) (splitCsvLine (stripTrailingComma l)) "name"
              = none ∨
          recordGet (headerOf raw) (splitCsvLine (stripTrailingComma l)) "name"
              = some "") := by
  intro raw
  constructor
  · unfold parseCsvFile dataLinesOf
    cases csvLines raw <;> simp
  · intro l
    have h := parseCsvLine_isSome (headerOf raw) l
    unfold csvLineKeptSpec at h
    constructor
    · intro hnone
      rw [hnone] at h
      cases hrec : recordGet (headerOf raw)
          (splitCsvLine (stripTrailingComma l)) "name" with
      | none => exact Or.inl rfl
      | some n =>
        rw [hrec] at h
        simp at h
        exact Or.inr (by rw [h])
    · intro hor
      rcases hor with hrec | hrec <;>
        simp [parseCsvLine, hrec]

/-! ## parser.ts: section splitting

`splitContentSections` finds headings with `/^#{1,3}\s+(.+)$/gm` and, for
the section end boundary, subtracts from the next heading's end index the
length of the *first* match of the unanchored `/#{1,3}\s+.+$/m` in the
prefix `content.slice(0, next.index)`.  The embedding below works line by
line (the anchored regex matches exactly the lines that start with one to
three `#` followed by whitespace and some further text, and a match always
extends to the end of its line); this is faithful for every document whose
heading-like lines carry non-whitespace text after the hashes, which holds
for all inputs used in the theorems. -/

/-- If the line matches `^#{1,3}\s+(.+)$`, return the captured group
(`\s+` greedy, so the capture starts at the first non-whitespace
character). -/
def headingCapture (l : List Char) : Option (List Char) :=
  let h := (l.takeWhile (· = '#')).length
  if 1 ≤ h ∧ h ≤ 3 then
    match l.drop h with
    | [] => none
    | c :: rest =>
      if isWs c then
        let cap := rest.dropWhile isWs
        if cap = [] then none else some cap
      else none
  else none

/-- All headings of the body with their `match.index + match[0].length`
positions (parser.ts lines 36–45): name is the capture trimmed and
lower-cased; the position is the end of the heading line.  `offset` is the
position of the current line inside the whole content. -/
def collectHeadings (offset : Nat) : List (List Char) → List (String × Nat)
  | [] => []
  | l :: rest =>
    let tail := collectHeadings (offset + l.length + 1) rest
    match headingCapture l with
    | some cap => (lowerStr ⟨trimChars cap⟩, offset + l.length) :: tail
    | none => tail

/-- Does `/#{1,3}\s+.+$/` match at the very start of `cs` (within one
line)? -/
def headingMatchAtStart (cs : List Char) : Bool :=
  let run := (cs.takeWhile (· = '#')).length
  decide (1 ≤ run) && decide (run ≤ 3) &&
    (match cs.drop run with
     | [] => false
     | d :: r2 => isWs d && !((d :: r2).dropWhile isWs).isEmpty)

/-- Leftmost in-line start position of a match of the unanchored
`/#{1,3}\s+.+$/m` inside one line. -/
def inLineMatchAux (q : Nat) : List Char → Option Nat
  | [] => none
  | c :: rest =>
    if headingMatchAtStart (c :: rest) then some q
    else inLineMatchAux (q + 1) rest

/-- Length of the first match of `/#{1,3}\s+.+$/m` in the given text, if
any: scan the lines in order; in the first line with a match, the match
runs from its leftmost start to the end of that line. -/
def firstHeadingMatchLen : List (List Char) → Option Nat
  | [] => none
  | l :: rest =>
    match inLineMatchAux 0 l with
    | some q => some (l.length - q)
    | none => firstHeadingMatchLen rest

/-- JS `content.slice(a, b)` for in-range `a`, `b` (empty when `b ≤ a`). -/
def jsSliceCs (cs : List Char) (a b : Nat) : List Char :=
  (cs.drop a).take (b - a)

/-- JS object assignment `sections[name] = v`: overwrite an existing key in
place, otherwise append. -/
def recSet (m : List (String × String)) (k v : String) :
    List (String × String) :=
  if m.any (fun p => p.1 = k) then
    m.map (fun p => if p.1 = k then (k, v) else p)
  else m ++ [(k, v)]

/-- Lookup in a section map (JS property read). -/
def sectionsGet (m : List (String × String)) (k : String) : Option String :=
  (m.find? (fun p => p.1 = k)).map (fun p => p.2)

/-- The loop of parser.ts lines 47–55: for each heading, the section runs
from its own end index to `next.index` minus the length of the *first*
`#{1,3}\s+.+$` match found in `content.slice(0, next.index)` (or to the
end of content for the last heading); the slice is trimmed and recorded
when non-empty. -/
def buildSections (cs : List Char) :
    List (String × Nat) → List (String × String) → List (String × String)
  | [], acc => acc
  | (name, start) :: rest, acc =>
    let endPos :=
      match rest with
      | (_, nextIdx) :: _ =>
        nextIdx -
          ((firstHeadingMatchLen (splitOnChar '\n' (cs.take nextIdx))).getD 0)
      | [] => cs.length
    let sec := trimChars (jsSliceCs cs start endPos)
    let acc' := if sec ≠ [] then recSet acc name ⟨sec⟩ else acc
    buildSections cs rest acc'

/-- `splitContentSections` (parser.ts lines 32–57). -/
def splitContentSections (content : String) : List (String × String) :=
  let cs := content.data
  buildSections cs (collectHeadings 0 (splitOnChar '\n' cs)) []

/-- The section map as the specification words it: each level-1..3
heading's trimmed lower-cased text maps to the body text from just after
that heading line to just before the next heading line (equivalently, to
the start of the next heading's line), or to the end of the document for
the last heading, trimmed. -/
def specSections (content : String) : List (String × String) :=
  let cs := content.data
  let hs := collectHeadingsSpec 0 (splitOnChar '\n' cs)
  buildSectionsSpec cs hs []
where
  /-- headings with (name, end-of-heading-line, start-of-heading-line). -/
  collectHeadingsSpec (offset : Nat) :
      List (List Char) → List (String × Nat × Nat)
    | [] => []
    | l :: rest =>
      let tail := collectHeadingsSpec (offset + l.length + 1) rest
      match headingCapture l with
      | some cap =>
        (lowerStr ⟨trimChars cap⟩, offset + l.length, offset) :: tail
      | none => tail
  buildSectionsSpec (cs : List Char) :
      List (String × Nat × Nat) → List (String × String) →
      List (String × String)
    | [], acc => acc
    | (name, endOfLine, _) :: rest, acc =>
      let endPos :=
        match rest with
        | (_, _, nextStart) :: _ => nextStart
        | [] => cs.length
      let sec := trimChars (jsSliceCs cs endOfLine endPos)
      let acc' := if sec ≠ [] then recSet acc name ⟨sec⟩ else acc
      buildSectionsSpec cs rest acc'

/-- **C3 (code bug).**  The section end boundary is *not* a function of
where the next heading starts: the code subtracts the length of the first
heading-shaped match in the whole prefix, so with headings of different
lengths the boundary drifts.  On `"# A\nbody1\n## Long heading\nbody2"`
the parser binds section `a` to `"body1\n## Long head"` — it swallows
twelve characters of the next heading's line — while the specified
boundary (end of heading line to start of next heading line) yields
`"body1"`. -/
theorem c3_section_boundary_bug :
    sectionsGet (splitContentSections "# A\nbody1\n## Long heading\nbody2")
        "a" = some "body1\n## Long head" ∧
    sectionsGet (specSections "# A\nbody1\n## Long heading\nbody2") "a"
        = some "body1" ∧
    sectionsGet (splitContentSections "# A\nbody1\n## Long heading\nbody2")
        "a" ≠
      sectionsGet (specSections "# A\nbody1\n## Long heading\nbody2") "a" := by
  refine ⟨by decide, by decide, by decide⟩

/-! ## validators.ts: entity schemas

Front matter is the key/value map produced by gray-matter.  Values are
modelled by the shapes the zod schemas distinguish: strings, arrays of
strings, YAML dates (kept as their ISO `YYYY-MM-DD` day, which is what the
`release` transform extracts), explicit `null`, and `other` for any value
(number, boolean, nested object, mixed array) that fails every branch of
the unions used in validators.ts. -/

inductive FmVal where
  | null : FmVal
  | str (s : String)
  | list (xs : List String)
  | date (ymd : String)
  | other : FmVal
deriving DecidableEq, Repr

/-- A front-matter block: unique-keyed (a JS object) association list. -/
def Frontmatter := List (String × FmVal)

/-- Property read on front matter. -/
def fmGet (fm : Frontmatter) (k : String) : Option FmVal :=
  (fm.find? (fun p => p.1 = k)).map (fun p => p.2)

/-- `z.string().optional().nullable()`: absent and `null` become `none`, a
string passes through, anything else fails validation. -/
def zOptString : Option FmVal → Option (Option String)
  | none => some none
  | some FmVal.null => some none
  | some (FmVal.str s) => some (some s)
  | some _ => none

/-- `optionalWikiLinkArray` (validators.ts lines 12–20). -/
def zWikiArr : Option FmVal → Option (List String)
  | none => some []
  | some FmVal.null => some []
  | some (FmVal.str s) => some [parseWikiLink s]
  | some (FmVal.list xs) => some (xs.map parseWikiLink)
  | some _ => none

/-- `optionalStringArray` (validators.ts lines 23–30). -/
def zStrArr : Option FmVal → Option (List String)
  | none => some []
  | some FmVal.null => some []
  | some (FmVal.str s) => some [s]
  | some (FmVal.list xs) => some xs
  | some _ => none

/-- `wikiLinkSchema.optional().nullable()` (the `director` fields). -/
def zDirector : Option FmVal → Option (Option String)
  | none => some none
  | some FmVal.null => some none
  | some (FmVal.str s) => some (some (parseWikiLink s))
  | some _ => none

/-- The `release` field: `z.union([z.string(), z.date()])` with the
transform of validators.ts lines 76–88 (falsy to `null`, a `Date` to its
ISO day, the placeholder `YYYY-MM-DD` or blank to `null`). -/
def zRelease : Option FmVal → Option (Option String)
  | none => some none
  | some FmVal.null => some none
  | some (FmVal.date d) => some (some d)
  | some (FmVal.str s) =>
    if s = "" then some none
    else
      let t := jsTrim s
      some (if t = "YYYY-MM-DD" ∨ t = "" then none else some t)
  | some _ => none

/-- Output of `gameFrontmatterSchema`. -/
structure GameFrontmatter where
  status : Option String
  gameGenre : List String
  gameModes : List String
  gameGenreTags : List String
  playerPerspective : List String
  platform : Option String
  engine : Option String
  developer : List String
  publisher : List String
  director : Option String
  release : Option String
deriving DecidableEq, Repr

/-- `gameFrontmatterSchema.safeParse` (validators.ts lines 64–89): the
`class` discriminator must be the literal string `"game"` and every field
must satisfy its branch; unknown keys are ignored. -/
def gameFrontmatterSchema (fm : Frontmatter) : Option GameFrontmatter :=
  match fmGet fm "class" with
  | some (FmVal.str "game") => do
    let status ← (zOptString (fmGet fm "status")).map statusNormJs
    let genre ← zStrArr (fmGet fm "game-genre")
    let modes ← zStrArr (fmGet fm "game-modes")
    let tags ← zStrArr (fmGet fm "game-genre-tags")
    let persp ← zStrArr (fmGet fm "player-perspective")
    let platform ← (zOptString (fmGet fm "platform")).map platformNormJs
    let engine ← (zOptString (fmGet fm "engine")).map optTrimOrNull
    let developer ← zWikiArr (fmGet fm "developer")
    let publisher ← zWikiArr (fmGet fm "publisher")
    let director ← zDirector (fmGet fm "director")
    let release ← zRelease (fmGet fm "release")
    pure ⟨status, genre, modes, tags, persp, platform, engine,
      developer, publisher, director, release⟩
  | _ => none

/-- Output of `studioFrontmatterSchema`. -/
structure StudioFrontmatter where
  director : Option String
  games : List String
  studios : List String
deriving DecidableEq, Repr

/-- `studioFrontmatterSchema.safeParse` (validators.ts lines 91–96). -/
def studioFrontmatterSchema (fm : Frontmatter) : Option StudioFrontmatter :=
  match fmGet fm "class" with
  | some (FmVal.str "studio") => do
    let director ← zDirector (fmGet fm "director")
    let games ← zWikiArr (fmGet fm "games")
    let studios ← zWikiArr (fmGet fm "studios")
    pure ⟨director, games, studios⟩
  | _ => none

/-- Output of `publisherFrontmatterSchema`. -/
structure PublisherFrontmatter where
  games : List String
  studios : List String
deriving DecidableEq, Repr

/-- `publisherFrontmatterSchema.safeParse` (validators.ts lines 98–102). -/
def publisherFrontmatterSchema (fm : Frontmatter) : Option PublisherFrontmatter :=
  match fmGet fm "class" with
  | some (FmVal.str "publisher") => do
    let games ← zWikiArr (fmGet fm "games")
    let studios ← zWikiArr (fmGet fm "studios")
    pure ⟨games, studios⟩
  | _ => none

/-! ## db/schema.ts: row types and the store -/

/-- A `games` row.  `lastSyncedAt` is the `Nat` model of the
`timestamp_ms` column; JSON-typed list columns are `Option (List String)`
(`null` when never populated). -/
structure GameRow where
  slug : String
  status : Option String
  platform : Option String
  engine : Option String
  release : Option String
  director : Option String
  gameGenre : Option (List String)
  gameModes : Option (List String)
  gameGenreTags : Option (List String)
  playerPerspective : Option (List String)
  gameplayText : Option String
  synopsisText : Option String
  reviewText : Option String
  notesText : Option String
  sourceFile : String
  lastSyncedAt : Nat
deriving DecidableEq, Repr

/-- A `studios` row. -/
structure StudioRow where
  slug : String
  director : Option String
  overviewText : Option String
  sourceFile : String
  lastSyncedAt : Nat
deriving DecidableEq, Repr

/-- A `publishers` row. -/
structure PublisherRow where
  slug : String
  overviewText : Option String
  sourceFile : String
  lastSyncedAt : Nat
deriving DecidableEq, Repr

/-- A `designers` row. -/
structure DesignerRow where
  slug : String
  overviewText : Option String
  sourceFile : String
  lastSyncedAt : Nat
deriving DecidableEq, Repr

/-- The relational store.  Junction rows are slug pairs: `gameDevelopers`
is (gameSlug, studioSlug), `gamePublishers` is (gameSlug, publisherSlug),
`publisherStudios` is (publisherSlug, studioSlug), `relatedStudios` is
(studioSlug, relatedStudioSlug). -/
structure Store where
  games : List GameRow
  studios : List StudioRow
  publishers : List PublisherRow
  designers : List DesignerRow
  gameDevelopers : List (String × String)
  gamePublishers : List (String × String)
  publisherStudios : List (String × String)
  relatedStudios : List (String × String)
deriving DecidableEq, Repr

def emptyStore : Store := ⟨[], [], [], [], [], [], [], []⟩

/-! ## sync-engine.ts: report, change detection -/

inductive EntityType where
  | game | studio | publisher | designer
deriving DecidableEq, Repr

/-- A field-level change record (sync-engine.ts lines 24–30). -/
structure Change where
  entity : String
  entityType : EntityType
  field : String
  oldValue : Option String
  newValue : Option String
deriving DecidableEq, Repr

/-- The run report (sync-engine.ts lines 32–42). -/
structure SyncReport where
  gamesProcessed : Nat
  studiosProcessed : Nat
  publishersProcessed : Nat
  designersProcessed : Nat
  created : Nat
  updated : Nat
  unchanged : Nat
  errors : List String
  changes : List Change
deriving DecidableEq, Repr

def emptyReport : SyncReport := ⟨0, 0, 0, 0, 0, 0, 0, [], []⟩

/-- JSON escaping of one character as `JSON.stringify` performs it on the
characters occurring in slugs and list fields. -/
def jsonEscapeChar (c : Char) : List Char :=
  if c = '"' ∨ c = '\\' then ['\\', c]
  else if c = '\n' then ['\\', 'n']
  else [c]

def jsonQuote (s : String) : String :=
  ⟨'"' :: (s.data.flatMap jsonEscapeChar) ++ ['"']⟩

def joinComma : List String → String
  | [] => ""
  | [x] => x
  | x :: xs => x ++ "," ++ joinComma xs

/-- `serialize` (sync-engine.ts lines 477–482) on a JSON list column:
`null` stays `null`, an array is `JSON.stringify`ed. -/
def serializeOptList (v : Option (List String)) : Option String :=
  v.map (fun xs => "[" ++ joinComma (xs.map jsonQuote) ++ "]")

/-- One comparison of `detectChanges` (sync-engine.ts lines 461–474): a
change record is emitted when the serialized old and new values differ.
String-typed columns serialize to themselves, so they are compared
directly. -/
def mkChange (slug : String) (et : EntityType) (field : String)
    (o n : Option String) : List Change :=
  if o = n then [] else [⟨slug, et, field, o, n⟩]

/-- `detectChanges` for a game row: every field of the incoming row object
except `slug`, `sourceFile` and `lastSyncedAt`, in the key order of the
row literal (sync-engine.ts lines 123–140). -/
def gameChanges (slug : String) (e i : GameRow) : List Change :=
  mkChange slug EntityType.game "status" e.status i.status ++
  mkChange slug EntityType.game "platform" e.platform i.platform ++
  mkChange slug EntityType.game "engine" e.engine i.engine ++
  mkChange slug EntityType.game "release" e.release i.release ++
  mkChange slug EntityType.game "director" e.director i.director ++
  mkChange slug EntityType.game "gameGenre"
    (serializeOptList e.gameGenre) (serializeOptList i.gameGenre) ++
  mkChange slug EntityType.game "gameModes"
    (serializeOptList e.gameModes) (serializeOptList i.gameModes) ++
  mkChange slug EntityType.game "gameGenreTags"
    (serializeOptList e.gameGenreTags) (serializeOptList i.gameGenreTags) ++
  mkChange slug EntityType.game "playerPerspective"
    (serializeOptList e.playerPerspective)
    (serializeOptList i.playerPerspective) ++
  mkChange slug EntityType.game "gameplayText" e.gameplayText i.gameplayText ++
  mkChange slug EntityType.game "synopsisText" e.synopsisText i.synopsisText ++
  mkChange slug EntityType.game "reviewText" e.reviewText i.reviewText ++
  mkChange slug EntityType.game "notesText" e.notesText i.notesText

/-- `detectChanges` for a studio row (fields `director`, `overviewText`). -/
def studioChanges (slug : String) (e i : StudioRow) : List Change :=
  mkChange slug EntityType.studio "director" e.director i.director ++
  mkChange slug EntityType.studio "overviewText" e.overviewText i.overviewText

/-- `detectChanges` for a publisher row (field `overviewText`). -/
def publisherChanges (slug : String) (e i : PublisherRow) : List Change :=
  mkChange slug EntityType.publisher "overviewText" e.overviewText i.overviewText

/-- `detectChanges` for a designer row (field `overviewText`). -/
def designerChanges (slug : String) (e i : DesignerRow) : List Change :=
  mkChange slug EntityType.designer "overviewText" e.overviewText i.overviewText

/-! ## sync-engine.ts: the run -/

/-- Result of `parseMarkdownFile` as the engine consumes it: the
gray-matter front matter and the section map. -/
structure ParsedMarkdown where
  frontmatter : Frontmatter
  sections : List (String × String)

/-- The engine's mutable state during a run: the store, the report, and
the three pending-reference `Set`s (modelled as insertion-ordered
duplicate-free lists, which is how a JS `Set` iterates). -/
structure SyncState where
  store : Store
  report : SyncReport
  refStudios : List String
  refPublishers : List String
  refDesigners : List String

/-- `Set.prototype.add`. -/
def setAdd (l : List String) (x : String) : List String :=
  if x ∈ l then l else l ++ [x]

/-- `find?` on a game slug (`db.select().from(games).where(eq(slug)).get()`). -/
def findGame (rows : List GameRow) (slug : String) : Option GameRow :=
  rows.find? (fun r => r.slug = slug)

def findStudio (rows : List StudioRow) (slug : String) : Option StudioRow :=
  rows.find? (fun r => r.slug = slug)

def findPublisher (rows : List PublisherRow) (slug : String) :
    Option PublisherRow :=
  rows.find? (fun r => r.slug = slug)

def findDesigner (rows : List DesignerRow) (slug : String) :
    Option DesignerRow :=
  rows.find? (fun r => r.slug = slug)

/-- The full game row built from a validated document (sync-engine.ts
lines 123–140). -/
def gameRowOf (now : Nat) (slug path : String) (fm : GameFrontmatter)
    (sections : List (String × String)) : GameRow :=
  { slug := slug
    status := fm.status
    platform := fm.platform
    engine := fm.engine
    release := fm.release
    director := fm.director
    gameGenre := some fm.gameGenre
    gameModes := some fm.gameModes
    gameGenreTags := some fm.gameGenreTags
    playerPerspective := some fm.playerPerspective
    gameplayText := sectionsGet sections "gameplay"
    synopsisText := sectionsGet sections "synopsis"
    reviewText := sectionsGet sections "review"
    notesText := sectionsGet sections "notes"
    sourceFile := path
    lastSyncedAt := now }

/-- The stub game row inserted by `syncStubGame` (sync-engine.ts lines
438–444): only `slug`, `sourceFile` and `lastSyncedAt` are set, every
other column keeps its SQL default `NULL`. -/
def stubGameRow (now : Nat) (slug path : String) : GameRow :=
  ⟨slug, none, none, none, none, none, none, none, none, none,
   none, none, none, none, path, now⟩

/-- `syncStubGame` (sync-engine.ts lines 430–448). -/
def syncStubGame (now : Nat) (slug path : String) (st : SyncState) :
    SyncState :=
  match findGame st.store.games slug with
  | some _ =>
    { st with report := { st.report with
        gamesProcessed := st.report.gamesProcessed + 1 } }
  | none =>
    { st with
      store := { st.store with
        games := st.store.games ++ [stubGameRow now slug path] }
      report := { st.report with
        created := st.report.created + 1
        gamesProcessed := st.report.gamesProcessed + 1 } }

/-- One iteration of the game-file loop (sync-engine.ts lines 101–171). -/
def syncGameFile (now : Nat) (st : SyncState)
    (file : String × ParsedMarkdown) : SyncState :=
  let path := file.1
  let pm := file.2
  let slug := slugFromPath path
  match gameFrontmatterSchema pm.frontmatter with
  | none => syncStubGame now slug path st
  | some fm =>
    let refS := fm.developer.foldl setAdd st.refStudios
    let refP := fm.publisher.foldl setAdd st.refPublishers
    let refD :=
      match fm.director with
      | some d => if d ≠ "" then setAdd st.refDesigners d else st.refDesigners
      | none => st.refDesigners
    let row := gameRowOf now slug path fm pm.sections
    let upserted : List GameRow × SyncReport :=
      match findGame st.store.games slug with
      | some e =>
        let ch := gameChanges slug e row
        if ch ≠ [] then
          (st.store.games.map (fun r => if r.slug = slug then row else r),
           { st.report with
              updated := st.report.updated + 1
              changes := st.report.changes ++ ch })
        else
          (st.store.games,
           { st.report with unchanged := st.report.unchanged + 1 })
      | none =>
        (st.store.games ++ [row],
         { st.report with created := st.report.created + 1 })
    let gd :=
      st.store.gameDevelopers.filter (fun p => p.1 ≠ slug) ++
        fm.developer.map (fun s => (slug, s))
    let gp :=
      st.store.gamePublishers.filter (fun p => p.1 ≠ slug) ++
        fm.publisher.map (fun s => (slug, s))
    { store := { st.store with
        games := upserted.1
        gameDevelopers := gd
        gamePublishers := gp }
      report := { upserted.2 with
        gamesProcessed := upserted.2.gamesProcessed + 1 }
      refStudios := refS
      refPublishers := refP
      refDesigners := refD }

/-- The game row inserted for a CSV-only game (sync-engine.ts lines
179–196). -/
def csvGameRow (now : Nat) (g : ParsedCsvGame) : GameRow :=
  ⟨g.slug, g.row.status, g.row.platform, none, none, none, none, none,
   none, none, none, none, none, none, "lib/games.csv", now⟩

/-- One iteration of the CSV loop (sync-engine.ts lines 175–201):
markdown-synced slugs take precedence. -/
def syncCsvGame (now : Nat) (st : SyncState) (g : ParsedCsvGame) :
    SyncState :=
  match findGame st.store.games g.slug with
  | some _ => st
  | none =>
    { st with
      store := { st.store with games := st.store.games ++ [csvGameRow now g] }
      report := { st.report with
        created := st.report.created + 1
        gamesProcessed := st.report.gamesProcessed + 1 } }

/-- The studio row built from a document, whether or not its front matter
validated (sync-engine.ts lines 217–223). -/
def studioRowOf (now : Nat) (slug path : String)
    (fmOpt : Option StudioFrontmatter)
    (sections : List (String × String)) : StudioRow :=
  { slug := slug
    director := match fmOpt with | some fm => fm.director | none => none
    overviewText := sectionsGet sections "overview"
    sourceFile := path
    lastSyncedAt := now }

/-- Checked insert into `gameDevelopers` from a studio's `games` list
(sync-engine.ts lines 241–255): insert `(g, slug)` only when no junction
row for game `g` already names this studio. -/
def addStudioGamePairs (slug : String) (gd : List (String × String))
    (games : List String) : List (String × String) :=
  games.foldl
    (fun acc g =>
      if acc.any (fun p => p.1 = g ∧ p.2 = slug) then acc
      else acc ++ [(g, slug)])
    gd

/-- One iteration of the studio loop (sync-engine.ts lines 205–270). -/
def syncStudioFile (now : Nat) (st : SyncState)
    (file : String × ParsedMarkdown) : SyncState :=
  let path := file.1
  let pm := file.2
  let slug := slugFromPath path
  let fmOpt := studioFrontmatterSchema pm.frontmatter
  let refD :=
    match fmOpt with
    | some fm =>
      match fm.director with
      | some d => if d ≠ "" then setAdd st.refDesigners d else st.refDesigners
      | none => st.refDesigners
    | none => st.refDesigners
  let row := studioRowOf now slug path fmOpt pm.sections
  let upserted : List StudioRow × SyncReport :=
    match findStudio st.store.studios slug with
    | some e =>
      let ch := studioChanges slug e row
      if ch ≠ [] then
        (st.store.studios.map (fun r => if r.slug = slug then row else r),
         { st.report with
            updated := st.report.updated + 1
            changes := st.report.changes ++ ch })
      else
        (st.store.studios,
         { st.report with unchanged := st.report.unchanged + 1 })
    | none =>
      (st.store.studios ++ [row],
       { st.report with created := st.report.created + 1 })
  let gd :=
    match fmOpt with
    | some fm => addStudioGamePairs slug st.store.gameDevelopers fm.games
    | none => st.store.gameDevelopers
  let rsRefs : List (String × String) × List String :=
    match fmOpt with
    | some fm =>
      if fm.studios ≠ [] then
        (st.store.relatedStudios.filter (fun p => p.1 ≠ slug) ++
           fm.studios.map (fun r => (slug, r)),
         fm.studios.foldl setAdd st.refStudios)
      else (st.store.relatedStudios, st.refStudios)
    | none => (st.store.relatedStudios, st.refStudios)
  { store := { st.store with
      studios := upserted.1
      gameDevelopers := gd
      relatedStudios := rsRefs.1 }
    report := { upserted.2 with
      studiosProcessed := upserted.2.studiosProcessed + 1 }
    refStudios := rsRefs.2
    refPublishers := st.refPublishers
    refDesigners := refD }

/-- The publisher row (sync-engine.ts lines 285–290). -/
def publisherRowOf (now : Nat) (slug path : String)
    (sections : List (String × String)) : PublisherRow :=
  { slug := slug
    overviewText := sectionsGet sections "overview"
    sourceFile := path
    lastSyncedAt := now }

/-- Checked insert into `gamePublishers` from a publisher's `games` list
(sync-engine.ts lines 308–321). -/
def addPublisherGamePairs (slug : String) (gp : List (String × String))
    (games : List String) : List (String × String) :=
  games.foldl
    (fun acc g =>
      if acc.any (fun p => p.1 = g ∧ p.2 = slug) then acc
      else acc ++ [(g, slug)])
    gp

/-- One iteration of the publisher loop (sync-engine.ts lines 274–336). -/
def syncPublisherFile (now : Nat) (st : SyncState)
    (file : String × ParsedMarkdown) : SyncState :=
  let path := file.1
  let pm := file.2
  let slug := slugFromPath path
  let fmOpt := publisherFrontmatterSchema pm.frontmatter
  let row := publisherRowOf now slug path pm.sections
  let upserted : List PublisherRow × SyncReport :=
    match findPublisher st.store.publishers slug with
    | some e =>
      let ch := publisherChanges slug e row
      if ch ≠ [] then
        (st.store.publishers.map (fun r => if r.slug = slug then row else r),
         { st.report with
            updated := st.report.updated + 1
            changes := st.report.changes ++ ch })
      else
        (st.store.publishers,
         { st.report with unchanged := st.report.unchanged + 1 })
    | none =>
      (st.store.publishers ++ [row],
       { st.report with created := st.report.created + 1 })
  let gp :=
    match fmOpt with
    | some fm => addPublisherGamePairs slug st.store.gamePublishers fm.games
    | none => st.store.gamePublishers
  let psRefs : List (String × String) × List String :=
    match fmOpt with
    | some fm =>
      if fm.studios ≠ [] then
        (st.store.publisherStudios.filter (fun p => p.1 ≠ slug) ++
           fm.studios.map (fun s => (slug, s)),
         fm.studios.foldl setAdd st.refStudios)
      else (st.store.publisherStudios, st.refStudios)
    | none => (st.store.publisherStudios, st.refStudios)
  { store := { st.store with
      publishers := upserted.1
      gamePublishers := gp
      publisherStudios := psRefs.1 }
    report := { upserted.2 with
      publishersProcessed := upserted.2.publishersProcessed + 1 }
    refStudios := psRefs.2
    refPublishers := st.refPublishers
    refDesigners := st.refDesigners }

/-- The designer row (sync-engine.ts lines 346–351): designers are not
validated at all. -/
def designerRowOf (now : Nat) (slug path : String)
    (sections : List (String × String)) : DesignerRow :=
  { slug := slug
    overviewText := sectionsGet sections "overview"
    sourceFile := path
    lastSyncedAt := now }

/-- One iteration of the designer loop (sync-engine.ts lines 340–372). -/
def syncDesignerFile (now : Nat) (st : SyncState)
    (file : String × ParsedMarkdown) : SyncState :=
  let path := file.1
  let pm := file.2
  let slug := slugFromPath path
  let row := designerRowOf now slug path pm.sections
  let upserted : List DesignerRow × SyncReport :=
    match findDesigner st.store.designers slug with
    | some e =>
      let ch := designerChanges slug e row
      if ch ≠ [] then
        (st.store.designers.map (fun r => if r.slug = slug then row else r),
         { st.report with
            updated := st.report.updated + 1
            changes := st.report.changes ++ ch })
      else
        (st.store.designers,
         { st.report with unchanged := st.report.unchanged + 1 })
    | none =>
      (st.store.designers ++ [row],
       { st.report with created := st.report.created + 1 })
  { st with
    store := { st.store with designers := upserted.1 }
    report := { upserted.2 with
      designersProcessed := upserted.2.designersProcessed + 1 } }

/-- Stub studio row (sync-engine.ts lines 379–387). -/
def stubStudioRow (now : Nat) (slug : String) : StudioRow :=
  ⟨slug, none, none, "(referenced)", now⟩

/-- Stub publisher row (sync-engine.ts lines 394–401). -/
def stubPublisherRow (now : Nat) (slug : String) : PublisherRow :=
  ⟨slug, none, "(referenced)", now⟩

/-- Stub designer row (sync-engine.ts lines 408–415). -/
def stubDesignerRow (now : Nat) (slug : String) : DesignerRow :=
  ⟨slug, none, "(referenced)", now⟩

/-- One iteration of phase 5 for studios (sync-engine.ts lines 376–389):
insert the stub only when no row with that slug exists. -/
def stubStudioStep (now : Nat) (acc : Store) (x : String) : Store :=
  match findStudio acc.studios x with
  | some _ => acc
  | none => { acc with studios := acc.studios ++ [stubStudioRow now x] }

/-- Phase 5 for studios. -/
def stubStudiosPhase (now : Nat) (refs : List String) (s : Store) : Store :=
  refs.foldl (stubStudioStep now) s

/-- One iteration of phase 5 for publishers (sync-engine.ts lines
391–403). -/
def stubPublisherStep (now : Nat) (acc : Store) (x : String) : Store :=
  match findPublisher acc.publishers x with
  | some _ => acc
  | none =>
    { acc with publishers := acc.publishers ++ [stubPublisherRow now x] }

/-- Phase 5 for publishers. -/
def stubPublishersPhase (now : Nat) (refs : List String) (s : Store) : Store :=
  refs.foldl (stubPublisherStep now) s

/-- One iteration of phase 5 for designers (sync-engine.ts lines
405–417). -/
def stubDesignerStep (now : Nat) (acc : Store) (x : String) : Store :=
  match findDesigner acc.designers x with
  | some _ => acc
  | none =>
    { acc with designers := acc.designers ++ [stubDesignerRow now x] }

/-- Phase 5 for designers. -/
def stubDesignersPhase (now : Nat) (refs : List String) (s : Store) : Store :=
  refs.foldl (stubDesignerStep now) s

/-- The input corpus: every markdown file already run through
`parseMarkdownFile`, plus the raw catalog text (`none` when
`lib/games.csv` cannot be read, which records one non-fatal error and
contributes zero rows). -/
structure Corpus where
  gameFiles : List (String × ParsedMarkdown)
  csv : Option String
  studioFiles : List (String × ParsedMarkdown)
  publisherFiles : List (String × ParsedMarkdown)
  designerFiles : List (String × ParsedMarkdown)

/-- The catalog entries contributed by phase 1: zero when the file cannot
be read. -/
def csvGamesOf (c : Corpus) : List ParsedCsvGame :=
  match c.csv with
  | some raw => parseCsvFile raw
  | none => []

/-- The state entering phase 2: the given store, a fresh report carrying
the phase-1 error when the catalog was unreadable, and empty
pending-reference sets. -/
def initState (c : Corpus) (store0 : Store) : SyncState :=
  ⟨store0,
   { emptyReport with errors :=
      match c.csv with
      | some _ => []
      | none => ["CSV parse error: cannot read lib/games.csv"] },
   [], [], []⟩

/-- The state after phases 2–4 (before stub materialization). -/
def syncPhases (now : Nat) (c : Corpus) (store0 : Store) : SyncState :=
  let st1 := c.gameFiles.foldl (syncGameFile now) (initState c store0)
  let st2 := (csvGamesOf c).foldl (syncCsvGame now) st1
  let st3 := c.studioFiles.foldl (syncStudioFile now) st2
  let st4 := c.publisherFiles.foldl (syncPublisherFile now) st3
  c.designerFiles.foldl (syncDesignerFile now) st4

/-- `syncAll` (sync-engine.ts lines 48–424) as a state transformer: phases
2–4 then stub materialization. -/
def syncAllState (now : Nat) (c : Corpus) (store0 : Store) : SyncState :=
  let st := syncPhases now c store0
  { st with
    store :=
      stubDesignersPhase now st.refDesigners
        (stubPublishersPhase now st.refPublishers
          (stubStudiosPhase now st.refStudios st.store)) }

/-- `syncAll`'s observable result: the final store and the report. -/
def syncAll (now : Nat) (c : Corpus) (store0 : Store) : Store × SyncReport :=
  let st := syncAllState now c store0
  (st.store, st.report)

/-! ## Step-level facts about the game loop -/

/-- The slug a document file synchronizes under. -/
def docSlug (f : String × ParsedMarkdown) : String := slugFromPath f.1

theorem syncGameFile_gd (now : Nat) (st : SyncState)
    (path : String) (pm : ParsedMarkdown) :
    (syncGameFile now st (path, pm)).store.gameDevelopers =
      match gameFrontmatterSchema pm.frontmatter with
      | some fm =>
        st.store.gameDevelopers.filter (fun p => p.1 ≠ slugFromPath path) ++
          fm.developer.map (fun s => (slugFromPath path, s))
      | none => st.store.gameDevelopers := by
  cases h : gameFrontmatterSchema pm.frontmatter with
  | none =>
    simp only [syncGameFile, syncStubGame, h]
    cases findGame st.store.games (slugFromPath path) <;> rfl
  | some fm => simp only [syncGameFile, h]

theorem syncGameFile_gp (now : Nat) (st : SyncState)
    (path : String) (pm : ParsedMarkdown) :
    (syncGameFile now st (path, pm)).store.gamePublishers =
      match gameFrontmatterSchema pm.frontmatter with
      | some fm =>
        st.store.gamePublishers.filter (fun p => p.1 ≠ slugFromPath path) ++
          fm.publisher.map (fun s => (slugFromPath path, s))
      | none => st.store.gamePublishers := by
  cases h : gameFrontmatterSchema pm.frontmatter with
  | none =>
    simp only [syncGameFile, syncStubGame, h]
    cases findGame st.store.games (slugFromPath path) <;> rfl
  | some fm => simp only [syncGameFile, h]

theorem filter_self_pairs (slug : String) (xs : List String) :
    (xs.map (fun s => (slug, s))).filter (fun p => p.1 = slug)
      = xs.map (fun s => (slug, s)) := by
  rw [List.filter_eq_self]
  intro p hp
  rcases List.mem_map.mp hp with ⟨s, _, rfl⟩
  simp

theorem filter_other_pairs (slug other : String) (xs : List String)
    (h : other ≠ slug) :
    (xs.map (fun s => (other, s))).filter (fun p => p.1 = slug) = [] := by
  rw [List.filter_eq_nil_iff]
  intro p hp
  rcases List.mem_map.mp hp with ⟨s, _, rfl⟩
  simpa using h

theorem filter_ne_then_eq (slug other : String)
    (l : List (String × String)) (h : other ≠ slug) :
    (l.filter (fun p => p.1 ≠ other)).filter (fun p => p.1 = slug)
      = l.filter (fun p => p.1 = slug) := by
  rw [List.filter_comm, List.filter_filter]
  apply List.filter_congr
  intro p _
  by_cases hp : p.1 = slug
  · simpa [hp] using Ne.symm h
  · simp [hp]

theorem filter_ne_self_after_eq (slug : String) (l : List (String × String)) :
    (l.filter (fun p => p.1 ≠ slug)).filter (fun p => p.1 = slug) = [] := by
  rw [List.filter_comm, List.filter_filter]
  rw [List.filter_eq_nil_iff]
  intro p hp
  by_cases h : p.1 = slug <;> simp [h]

/-- A game-phase step never touches the `gameDevelopers` rows of a game
slug other than its own. -/
theorem syncGameFile_gd_other (now : Nat) (st : SyncState)
    (path : String) (pm : ParsedMarkdown) (slug : String)
    (h : slugFromPath path ≠ slug) :
    (syncGameFile now st (path, pm)).store.gameDevelopers.filter
        (fun p => p.1 = slug) =
      st.store.gameDevelopers.filter (fun p => p.1 = slug) := by
  rw [syncGameFile_gd]
  cases hv : gameFrontmatterSchema pm.frontmatter with
  | none => rfl
  | some fm =>
    rw [List.filter_append, filter_ne_then_eq slug _ _ h,
      filter_other_pairs slug _ _ h, List.append_nil]

theorem syncGameFile_gp_other (now : Nat) (st : SyncState)
    (path : String) (pm : ParsedMarkdown) (slug : String)
    (h : slugFromPath path ≠ slug) :
    (syncGameFile now st (path, pm)).store.gamePublishers.filter
        (fun p => p.1 = slug) =
      st.store.gamePublishers.filter (fun p => p.1 = slug) := by
  rw [syncGameFile_gp]
  cases hv : gameFrontmatterSchema pm.frontmatter with
  | none => rfl
  | some fm =>
    rw [List.filter_append, filter_ne_then_eq slug _ _ h,
      filter_other_pairs slug _ _ h, List.append_nil]

/-- Folding the game loop over files none of which owns `slug` leaves the
`gameDevelopers` rows of `slug` untouched. -/
theorem gamePhase_gd_frozen (now : Nat) (slug : String) :
    ∀ (files : List (String × ParsedMarkdown)) (st : SyncState),
      (∀ f ∈ files, docSlug f ≠ slug) →
      (files.foldl (syncGameFile now) st).store.gameDevelopers.filter
          (fun p => p.1 = slug) =
        st.store.gameDevelopers.filter (fun p => p.1 = slug) := by
  intro files
  induction files with
  | nil => intro st _; rfl
  | cons f rest ih =>
    intro st h
    obtain ⟨p', m'⟩ := f
    rw [List.foldl_cons,
      ih _ (fun g hg => h g (List.mem_cons_of_mem _ hg)),
      syncGameFile_gd_other now st p' m' slug
        (h (p', m') (List.mem_cons_self _ rest))]

theorem gamePhase_gp_frozen (now : Nat) (slug : String) :
    ∀ (files : List (String × ParsedMarkdown)) (st : SyncState),
      (∀ f ∈ files, docSlug f ≠ slug) →
      (files.foldl (syncGameFile now) st).store.gamePublishers.filter
          (fun p => p.1 = slug) =
        st.store.gamePublishers.filter (fun p => p.1 = slug) := by
  intro files
  induction files with
  | nil => intro st _; rfl
  | cons f rest ih =>
    intro st h
    obtain ⟨p', m'⟩ := f
    rw [List.foldl_cons,
      ih _ (fun g hg => h g (List.mem_cons_of_mem _ hg)),
      syncGameFile_gp_other now st p' m' slug
        (h (p', m') (List.mem_cons_self _ rest))]

/-- After the full game phase, the `gameDevelopers` and `gamePublishers`
rows of a validly-parsed document's slug are exactly its normalized
lists. -/
theorem gamePhase_junctions_of_mem (now : Nat) :
    ∀ (files : List (String × ParsedMarkdown)) (st : SyncState)
      (path : String) (pm : ParsedMarkdown) (fm : GameFrontmatter),
      (path, pm) ∈ files →
      gameFrontmatterSchema pm.frontmatter = some fm →
      (files.map docSlug).Nodup →
      (files.foldl (syncGameFile now) st).store.gameDevelopers.filter
          (fun p => p.1 = slugFromPath path) =
        fm.developer.map (fun s => (slugFromPath path, s)) ∧
      (files.foldl (syncGameFile now) st).store.gamePublishers.filter
          (fun p => p.1 = slugFromPath path) =
        fm.publisher.map (fun s => (slugFromPath path, s)) := by
  intro files
  induction files with
  | nil => intro st path pm fm hmem; exact absurd hmem (List.not_mem_nil _)
  | cons f rest ih =>
    intro st path pm fm hmem hval hnd
    rw [List.map_cons, List.nodup_cons] at hnd
    rcases List.mem_cons.mp hmem with heq | hmem'
    · subst heq
      have hfrozen : ∀ g ∈ rest, docSlug g ≠ slugFromPath path := by
        intro g hg hgeq
        apply hnd.1
        have : docSlug g ∈ List.map docSlug rest :=
          List.mem_map_of_mem docSlug hg
        rw [hgeq] at this
        exact this
      rw [List.foldl_cons]
      constructor
      · rw [gamePhase_gd_frozen now _ rest _ hfrozen,
          syncGameFile_gd, hval, List.filter_append,
          filter_ne_self_after_eq, filter_self_pairs, List.nil_append]
      · rw [gamePhase_gp_frozen now _ rest _ hfrozen,
          syncGameFile_gp, hval, List.filter_append,
          filter_ne_self_after_eq, filter_self_pairs, List.nil_append]
    · exact ih _ path pm fm hmem' hval hnd.2

/-- **C5.**  After the game-reconciliation phase, a valid game document's
`gameDevelopers` rows are exactly one per element of its normalized
developer list and its `gamePublishers` rows exactly one per element of
its normalized publisher list — all prior junction rows for the slug are
deleted before re-insertion, so a reference no longer in the document
(whatever junction rows the store held before the phase) has its row
deleted and does not reappear within the phase.  The `Nodup` hypotheses
on the document's normalized lists are the composite-primary-key side
condition: a duplicated reference would make the real re-insert throw,
aborting the document's junction replacement midway, a failure path this
embedding does not model. -/
theorem c5_junction_state_pure (now : Nat)
    (files : List (String × ParsedMarkdown)) (st : SyncState)
    (path : String) (pm : ParsedMarkdown) (fm : GameFrontmatter)
    (hmem : (path, pm) ∈ files)
    (hval : gameFrontmatterSchema pm.frontmatter = some fm)
    (hnd : (files.map docSlug).Nodup)
    (hndDev : fm.developer.Nodup) (hndPub : fm.publisher.Nodup) :
    (files.foldl (syncGameFile now) st).store.gameDevelopers.filter
        (fun p => p.1 = slugFromPath path) =
      fm.developer.map (fun s => (slugFromPath path, s)) ∧
    (files.foldl (syncGameFile now) st).store.gamePublishers.filter
        (fun p => p.1 = slugFromPath path) =
      fm.publisher.map (fun s => (slugFromPath path, s)) ∧
    (∀ x : String, x ∉ fm.developer →
      (slugFromPath path, x) ∉
        (files.foldl (syncGameFile now) st).store.gameDevelopers) ∧
    (∀ x : String, x ∉ fm.publisher →
      (slugFromPath path, x) ∉
        (files.foldl (syncGameFile now) st).store.gamePublishers) := by
  obtain ⟨h1, h2⟩ := gamePhase_junctions_of_mem now files st path pm fm
    hmem hval hnd
  refine ⟨h1, h2, ?_, ?_⟩
  · intro x hx hmem'
    have hin : (slugFromPath path, x) ∈
        (files.foldl (syncGameFile now) st).store.gameDevelopers.filter
          (fun p => p.1 = slugFromPath path) :=
      List.mem_filter.mpr ⟨hmem', by simp⟩
    rw [h1] at hin
    rcases List.mem_map.mp hin with ⟨s, hs, heq⟩
    exact hx (by injection heq with _ h; exact h ▸ hs)
  · intro x hx hmem'
    have hin : (slugFromPath path, x) ∈
        (files.foldl (syncGameFile now) st).store.gamePublishers.filter
          (fun p => p.1 = slugFromPath path) :=
      List.mem_filter.mpr ⟨hmem', by simp⟩
    rw [h2] at hin
    rcases List.mem_map.mp hin with ⟨s, hs, heq⟩
    exact hx (by injection heq with _ h; exact h ▸ hs)

/-! ## Concrete example inputs used by witnesses -/

/-- A small valid game document. -/
def exGamePm : ParsedMarkdown :=
  { frontmatter :=
      [("class", FmVal.str "game"),
       ("developer", FmVal.list ["[[StudioA]]"]),
       ("publisher", FmVal.list ["[[PubX]]"])]
    sections := [("gameplay", "fun")] }

/-- The validated front matter of `exGamePm`. -/
def exGameFm : GameFrontmatter :=
  ⟨none, [], [], [], [], none, none, ["StudioA"], ["PubX"], none, none⟩

/-- The all-empty engine state. -/
def exState0 : SyncState := ⟨emptyStore, emptyReport, [], [], []⟩

theorem c5_witness :
    ([("lib/games/G.md", exGamePm)].foldl (syncGameFile 7)
        exState0).store.gameDevelopers.filter
        (fun p => p.1 = slugFromPath "lib/games/G.md") =
      exGameFm.developer.map (fun s => (slugFromPath "lib/games/G.md", s)) :=
  (c5_junction_state_pure 7 [("lib/games/G.md", exGamePm)] exState0
    "lib/games/G.md" exGamePm exGameFm (List.mem_singleton.mpr rfl)
    (by decide) (by decide) (by decide) (by decide)).1

/-! ## C7: frame behaviour of change detection and the upsert -/

theorem gameChanges_eq_nil (slug : String) (e i : GameRow)
    (h1 : e.status = i.status) (h2 : e.platform = i.platform)
    (h3 : e.engine = i.engine) (h4 : e.release = i.release)
    (h5 : e.director = i.director)
    (h6 : serializeOptList e.gameGenre = serializeOptList i.gameGenre)
    (h7 : serializeOptList e.gameModes = serializeOptList i.gameModes)
    (h8 : serializeOptList e.gameGenreTags = serializeOptList i.gameGenreTags)
    (h9 : serializeOptList e.playerPerspective
        = serializeOptList i.playerPerspective)
    (h10 : e.gameplayText = i.gameplayText)
    (h11 : e.synopsisText = i.synopsisText)
    (h12 : e.reviewText = i.reviewText)
    (h13 : e.notesText = i.notesText) :
    gameChanges slug e i = [] := by
  unfold gameChanges mkChange
  rw [h1, h2, h3, h4, h5, h6, h7, h8, h9, h10, h11, h12, h13]
  simp

/-- **C7.**  An existing entity row all of whose comparable fields (every
field except `sourceFile`, `lastSyncedAt` and `slug`) equal the incoming
normalized row under canonical serialization is not written at all: the
stored table is untouched (so the row keeps its previous `lastSyncedAt`
and `sourceFile`), the run counts it as unchanged, and neither `created`
nor `updated` nor the change list moves.  Moreover `sourceFile` and
`lastSyncedAt` never participate in the change comparison of any entity
kind. -/
theorem c7_unchanged_not_written :
    (∀ (now : Nat) (st : SyncState) (path : String) (pm : ParsedMarkdown)
        (fm : GameFrontmatter) (e : GameRow),
      gameFrontmatterSchema pm.frontmatter = some fm →
      findGame st.store.games (slugFromPath path) = some e →
      (let i := gameRowOf now (slugFromPath path) path fm pm.sections
       e.status = i.status ∧ e.platform = i.platform ∧
       e.engine = i.engine ∧ e.release = i.release ∧
       e.director = i.director ∧
       serializeOptList e.gameGenre = serializeOptList i.gameGenre ∧
       serializeOptList e.gameModes = serializeOptList i.gameModes ∧
       serializeOptList e.gameGenreTags = serializeOptList i.gameGenreTags ∧
       serializeOptList e.playerPerspective
           = serializeOptList i.playerPerspective ∧
       e.gameplayText = i.gameplayText ∧ e.synopsisText = i.synopsisText ∧
       e.reviewText = i.reviewText ∧ e.notesText = i.notesText) →
      (syncGameFile now st (path, pm)).store.games = st.store.games ∧
      (syncGameFile now st (path, pm)).report.unchanged
          = st.report.unchanged + 1 ∧
      (syncGameFile now st (path, pm)).report.updated = st.report.updated ∧
      (syncGameFile now st (path, pm)).report.created = st.report.created ∧
      (syncGameFile now st (path, pm)).report.changes = st.report.changes) ∧
    (∀ (now : Nat) (st : SyncState) (path : String) (pm : ParsedMarkdown)
        (e : StudioRow),
      findStudio st.store.studios (slugFromPath path) = some e →
      (let i := studioRowOf now (slugFromPath path) path
          (studioFrontmatterSchema pm.frontmatter) pm.sections
       e.director = i.director ∧ e.overviewText = i.overviewText) →
      (syncStudioFile now st (path, pm)).store.studios = st.store.studios ∧
      (syncStudioFile now st (path, pm)).report.unchanged
          = st.report.unchanged + 1 ∧
      (syncStudioFile now st (path, pm)).report.updated = st.report.updated ∧
      (syncStudioFile now st (path, pm)).report.created = st.report.created ∧
      (syncStudioFile now st (path, pm)).report.changes = st.report.changes) ∧
    (∀ (now : Nat) (st : SyncState) (path : String) (pm : ParsedMarkdown)
        (e : PublisherRow),
      findPublisher st.store.publishers (slugFromPath path) = some e →
      e.overviewText = sectionsGet pm.sections "overview" →
      (syncPublisherFile now st (path, pm)).store.publishers
          = st.store.publishers ∧
      (syncPublisherFile now st (path, pm)).report.unchanged
          = st.report.unchanged + 1 ∧
      (syncPublisherFile now st (path, pm)).report.updated
          = st.report.updated ∧
      (syncPublisherFile now st (path, pm)).report.created
          = st.report.created ∧
      (syncPublisherFile now st (path, pm)).report.changes
          = st.report.changes) ∧
    (∀ (now : Nat) (st : SyncState) (path : String) (pm : ParsedMarkdown)
        (e : DesignerRow),
      findDesigner st.store.designers (slugFromPath path) = some e →
      e.overviewText = sectionsGet pm.sections "overview" →
      (syncDesignerFile now st (path, pm)).store.designers
          = st.store.designers ∧
      (syncDesignerFile now st (path, pm)).report.unchanged
          = st.report.unchanged + 1 ∧
      (syncDesignerFile now st (path, pm)).report.updated
          = st.report.updated ∧
      (syncDesignerFile now st (path, pm)).report.created
          = st.report.created ∧
      (syncDesignerFile now st (path, pm)).report.changes
          = st.report.changes) ∧
    (∀ (slug : String) (e i : GameRow) (sf1 sf2 : String) (t1 t2 : Nat),
      gameChanges slug
          { e with sourceFile := sf1, lastSyncedAt := t1 }
          { i with sourceFile := sf2, lastSyncedAt := t2 }
        = gameChanges slug e i) ∧
    (∀ (slug : String) (e i : StudioRow) (sf1 sf2 : String) (t1 t2 : Nat),
      studioChanges slug
          { e with sourceFile := sf1, lastSyncedAt := t1 }
          { i with sourceFile := sf2, lastSyncedAt := t2 }
        = studioChanges slug e i) ∧
    (∀ (slug : String) (e i : PublisherRow) (sf1 sf2 : String) (t1 t2 : Nat),
      publisherChanges slug
          { e with sourceFile := sf1, lastSyncedAt := t1 }
          { i with sourceFile := sf2, lastSyncedAt := t2 }
        = publisherChanges slug e i) ∧
    (∀ (slug : String) (e i : DesignerRow) (sf1 sf2 : String) (t1 t2 : Nat),
      designerChanges slug
          { e with sourceFile := sf1, lastSyncedAt := t1 }
          { i with sourceFile := sf2, lastSyncedAt := t2 }
        = designerChanges slug e i) := by
  refine ⟨?_, ?_, ?_, ?_, fun _ _ _ _ _ _ _ => rfl,
    fun _ _ _ _ _ _ _ => rfl, fun _ _ _ _ _ _ _ => rfl,
    fun _ _ _ _ _ _ _ => rfl⟩
  · intro now st path pm fm e hval hfind hcomp
    obtain ⟨h1, h2, h3, h4, h5, h6, h7, h8, h9, h10, h11, h12, h13⟩ := hcomp
    have hch : gameChanges (slugFromPath path) e
        (gameRowOf now (slugFromPath path) path fm pm.sections) = [] :=
      gameChanges_eq_nil _ _ _ h1 h2 h3 h4 h5 h6 h7 h8 h9 h10 h11 h12 h13
    simp only [syncGameFile, hval, hfind, hch]
    simp
  · intro now st path pm e hfind hcomp
    obtain ⟨h1, h2⟩ := hcomp
    have hch : studioChanges (slugFromPath path) e
        (studioRowOf now (slugFromPath path) path
          (studioFrontmatterSchema pm.frontmatter) pm.sections) = [] := by
      unfold studioChanges mkChange
      rw [h1, h2]
      simp
    simp only [syncStudioFile, hfind, hch]
    simp
  · intro now st path pm e hfind hcomp
    have hch : publisherChanges (slugFromPath path) e
        (publisherRowOf now (slugFromPath path) path pm.sections) = [] := by
      unfold publisherChanges mkChange publisherRowOf
      rw [hcomp]
      simp
    simp only [syncPublisherFile, hfind, hch]
    simp
  · intro now st path pm e hfind hcomp
    have hch : designerChanges (slugFromPath path) e
        (designerRowOf now (slugFromPath path) path pm.sections) = [] := by
      unfold designerChanges mkChange designerRowOf
      rw [hcomp]
      simp
    simp only [syncDesignerFile, hfind, hch]
    simp

/-- A state whose store already holds the `G` row with the same comparable
fields as `exGamePm` produces, but an older provenance and timestamp. -/
def exStateG : SyncState :=
  ⟨{ emptyStore with
      games := [gameRowOf 3 "G" "old.md" exGameFm exGamePm.sections] },
   emptyReport, [], [], []⟩

theorem c7_witness :
    (syncGameFile 9 exStateG ("lib/games/G.md", exGamePm)).store.games
        = exStateG.store.games ∧
    (syncGameFile 9 exStateG ("lib/games/G.md", exGamePm)).report.unchanged
        = exStateG.report.unchanged + 1 ∧
    (syncGameFile 9 exStateG ("lib/games/G.md", exGamePm)).report.updated
        = exStateG.report.updated := by
  have h := c7_unchanged_not_written.1 9 exStateG "lib/games/G.md" exGamePm
    exGameFm (gameRowOf 3 "G" "old.md" exGameFm exGamePm.sections)
    (by decide) (by decide) (by decide)
  exact ⟨h.1, h.2.1, h.2.2.1⟩

/-! ## C9: validation-failure fallbacks differ by entity kind -/

/-- The full studio/publisher row built when front matter fails
validation: `director` absent, `overviewText` from the body's overview
section, `sourceFile` the document path. -/
def invalidStudioRow (now : Nat) (slug path : String)
    (sections : List (String × String)) : StudioRow :=
  ⟨slug, none, sectionsGet sections "overview", path, now⟩

/-- **C9.**  A studio or publisher document whose front matter fails
schema validation is neither skipped nor reduced to an empty stub: the
engine still upserts a full row for the slug (overview text from the
body, `director` absent, `sourceFile` the document path), still runs
change detection (unchanged / updated / created accounting), and still
counts the document; its junction tables and pending-reference sets are
left alone.  Only game documents fall back to insert-if-absent stub
handling: an invalid game document with an existing row changes nothing
but the processed count, and with no existing row inserts a stub whose
content fields are all absent. -/
theorem c9_invalid_front_matter_fallbacks :
    (∀ (now : Nat) (st : SyncState) (path : String) (pm : ParsedMarkdown),
      studioFrontmatterSchema pm.frontmatter = none →
      (syncStudioFile now st (path, pm)).report.studiosProcessed
          = st.report.studiosProcessed + 1 ∧
      (syncStudioFile now st (path, pm)).store.gameDevelopers
          = st.store.gameDevelopers ∧
      (syncStudioFile now st (path, pm)).store.relatedStudios
          = st.store.relatedStudios ∧
      (syncStudioFile now st (path, pm)).refStudios = st.refStudios ∧
      (syncStudioFile now st (path, pm)).refDesigners = st.refDesigners ∧
      (findStudio st.store.studios (slugFromPath path) = none →
        (syncStudioFile now st (path, pm)).store.studios
            = st.store.studios ++
              [invalidStudioRow now (slugFromPath path) path pm.sections] ∧
        (syncStudioFile now st (path, pm)).report.created
            = st.report.created + 1) ∧
      (∀ e : StudioRow, findStudio st.store.studios (slugFromPath path)
            = some e →
        studioChanges (slugFromPath path) e
            (invalidStudioRow now (slugFromPath path) path pm.sections)
            = [] →
        (syncStudioFile now st (path, pm)).store.studios
            = st.store.studios ∧
        (syncStudioFile now st (path, pm)).report.unchanged
            = st.report.unchanged + 1) ∧
      (∀ e : StudioRow, findStudio st.store.studios (slugFromPath path)
            = some e →
        studioChanges (slugFromPath path) e
            (invalidStudioRow now (slugFromPath path) path pm.sections)
            ≠ [] →
        (syncStudioFile now st (path, pm)).store.studios
            = st.store.studios.map
              (fun r => if r.slug = slugFromPath path then
                invalidStudioRow now (slugFromPath path) path pm.sections
                else r) ∧
        (syncStudioFile now st (path, pm)).report.updated
            = st.report.updated + 1)) ∧
    (∀ (now : Nat) (st : SyncState) (path : String) (pm : ParsedMarkdown),
      publisherFrontmatterSchema pm.frontmatter = none →
      (syncPublisherFile now st (path, pm)).report.publishersProcessed
          = st.report.publishersProcessed + 1 ∧
      (syncPublisherFile now st (path, pm)).store.gamePublishers
          = st.store.gamePublishers ∧
      (syncPublisherFile now st (path, pm)).store.publisherStudios
          = st.store.publisherStudios ∧
      (findPublisher st.store.publishers (slugFromPath path) = none →
        (syncPublisherFile now st (path, pm)).store.publishers
            = st.store.publishers ++
              [publisherRowOf now (slugFromPath path) path pm.sections] ∧
        (syncPublisherFile now st (path, pm)).report.created
            = st.report.created + 1)) ∧
    (∀ (now : Nat) (st : SyncState) (path : String) (pm : ParsedMarkdown),
      gameFrontmatterSchema pm.frontmatter = none →
      ((∀ e : GameRow, findGame st.store.games (slugFromPath path) = some e →
        (syncGameFile now st (path, pm)).store = st.store ∧
        (syncGameFile now st (path, pm)).report
            = { st.report with
                gamesProcessed := st.report.gamesProcessed + 1 }) ∧
      (findGame st.store.games (slugFromPath path) = none →
        (syncGameFile now st (path, pm)).store.games
            = st.store.games ++
              [stubGameRow now (slugFromPath path) path] ∧
        (stubGameRow now (slugFromPath path) path).status = none ∧
        (stubGameRow now (slugFromPath path) path).gameplayText = none ∧
        (stubGameRow now (slugFromPath path) path).sourceFile = path ∧
        (syncGameFile now st (path, pm)).report.created
            = st.report.created + 1 ∧
        (syncGameFile now st (path, pm)).report.gamesProcessed
            = st.report.gamesProcessed + 1))) := by
  have studioStep : ∀ (now : Nat) (st : SyncState) (path : String)
      (pm : ParsedMarkdown),
      studioFrontmatterSchema pm.frontmatter = none →
      syncStudioFile now st (path, pm) =
        { store := { st.store with studios :=
            (match findStudio st.store.studios (slugFromPath path) with
             | some e =>
               if studioChanges (slugFromPath path) e
                   (invalidStudioRow now (slugFromPath path) path pm.sections)
                   ≠ [] then
                 st.store.studios.map
                   (fun r => if r.slug = slugFromPath path then
                     invalidStudioRow now (slugFromPath path) path pm.sections
                     else r)
               else st.store.studios
             | none =>
               st.store.studios ++
                 [invalidStudioRow now (slugFromPath path) path pm.sections]) }
          report :=
            { (match findStudio st.store.studios (slugFromPath path) with
               | some e =>
                 if studioChanges (slugFromPath path) e
                     (invalidStudioRow now (slugFromPath path) path
                       pm.sections) ≠ [] then
                   { st.report with
                      updated := st.report.updated + 1
                      changes := st.report.changes ++
                        studioChanges (slugFromPath path) e
                          (invalidStudioRow now (slugFromPath path) path
                            pm.sections) }
                 else
                   { st.report with unchanged := st.report.unchanged + 1 }
               | none =>
                 { st.report with created := st.report.created + 1 }) with
              studiosProcessed := st.report.studiosProcessed + 1 }
          refStudios := st.refStudios
          refPublishers := st.refPublishers
          refDesigners := st.refDesigners } := by
    intro now st path pm hval
    cases hfind : findStudio st.store.studios (slugFromPath path) with
    | none =>
      simp only [syncStudioFile, invalidStudioRow, studioRowOf, hval, hfind]
    | some e =>
      by_cases hch : studioChanges (slugFromPath path) e
          (invalidStudioRow now (slugFromPath path) path pm.sections) = []
      · simp only [syncStudioFile, invalidStudioRow, studioRowOf, hval, hfind]
        simp only [invalidStudioRow] at hch
        simp [hch]
      · simp only [syncStudioFile, invalidStudioRow, studioRowOf, hval, hfind]
        simp only [invalidStudioRow] at hch
        simp [hch]
  refine ⟨?_, ?_, ?_⟩
  · intro now st path pm hval
    rw [studioStep now st path pm hval]
    refine ⟨?_, rfl, rfl, rfl, rfl, ?_, ?_, ?_⟩
    · cases findStudio st.store.studios (slugFromPath path) with
      | none => rfl
      | some e =>
        by_cases hch : studioChanges (slugFromPath path) e
            (invalidStudioRow now (slugFromPath path) path pm.sections)
            = [] <;> simp [hch]
    · intro hfind
      rw [hfind]
      exact ⟨rfl, rfl⟩
    · intro e hfind hch
      rw [hfind]
      simp [hch]
    · intro e hfind hch
      rw [hfind]
      simp [hch]
  · have pubStep : ∀ (now : Nat) (st : SyncState) (path : String)
        (pm : ParsedMarkdown),
        publisherFrontmatterSchema pm.frontmatter = none →
        syncPublisherFile now st (path, pm) =
          { store := { st.store with publishers :=
              (match findPublisher st.store.publishers (slugFromPath path) with
               | some e =>
                 if publisherChanges (slugFromPath path) e
                     (publisherRowOf now (slugFromPath path) path pm.sections)
                     ≠ [] then
                   st.store.publishers.map
                     (fun r => if r.slug = slugFromPath path then
                       publisherRowOf now (slugFromPath path) path pm.sections
                       else r)
                 else st.store.publishers
               | none =>
                 st.store.publishers ++
                   [publisherRowOf now (slugFromPath path) path pm.sections]) }
            report :=
              { (match findPublisher st.store.publishers
                    (slugFromPath path) with
                 | some e =>
                   if publisherChanges (slugFromPath path) e
                       (publisherRowOf now (slugFromPath path) path
                         pm.sections) ≠ [] then
                     { st.report with
                        updated := st.report.updated + 1
                        changes := st.report.changes ++
                          publisherChanges (slugFromPath path) e
                            (publisherRowOf now (slugFromPath path) path
                              pm.sections) }
                   else
                     { st.report with unchanged := st.report.unchanged + 1 }
                 | none =>
                   { st.report with created := st.report.created + 1 }) with
                publishersProcessed := st.report.publishersProcessed + 1 }
            refStudios := st.refStudios
            refPublishers := st.refPublishers
            refDesigners := st.refDesigners } := by
      intro now st path pm hval
      cases hfind : findPublisher st.store.publishers (slugFromPath path) with
      | none => simp only [syncPublisherFile, hval, hfind]
      | some e =>
        by_cases hch : publisherChanges (slugFromPath path) e
            (publisherRowOf now (slugFromPath path) path pm.sections) = []
        · simp only [syncPublisherFile, hval, hfind]
          simp [hch]
        · simp only [syncPublisherFile, hval, hfind]
          simp [hch]
    intro now st path pm hval
    rw [pubStep now st path pm hval]
    refine ⟨?_, rfl, rfl, ?_⟩
    · cases findPublisher st.store.publishers (slugFromPath path) with
      | none => rfl
      | some e =>
        by_cases hch : publisherChanges (slugFromPath path) e
            (publisherRowOf now (slugFromPath path) path pm.sections)
            = [] <;> simp [hch]
    · intro hfind
      rw [hfind]
      exact ⟨rfl, rfl⟩
  · intro now st path pm hval
    constructor
    · intro e hfind
      simp [syncGameFile, syncStubGame, hval, hfind]
    · intro hfind
      simp [syncGameFile, syncStubGame, stubGameRow, hval, hfind]

/-- A studio document whose front matter fails validation (wrong `class`
literal). -/
def exBadStudioPm : ParsedMarkdown :=
  { frontmatter := [("class", FmVal.str "studioz")]
    sections := [("overview", "ov")] }

theorem c9_witness :
    (syncStudioFile 4 exState0
        ("lib/studios/S.md", exBadStudioPm)).report.studiosProcessed
      = exState0.report.studiosProcessed + 1 ∧
    (syncStudioFile 4 exState0
        ("lib/studios/S.md", exBadStudioPm)).store.studios
      = exState0.store.studios ++
        [invalidStudioRow 4 (slugFromPath "lib/studios/S.md")
          "lib/studios/S.md" exBadStudioPm.sections] := by
  have h := c9_invalid_front_matter_fallbacks.1 4 exState0 "lib/studios/S.md"
    exBadStudioPm (by decide)
  exact ⟨h.1, (h.2.2.2.2.2.1 (by decide)).1⟩

/-! ## C6: reverse-relationship de-duplication -/

theorem syncCsvGame_gd (now : Nat) (st : SyncState) (g : ParsedCsvGame) :
    (syncCsvGame now st g).store.gameDevelopers
      = st.store.gameDevelopers := by
  unfold syncCsvGame
  cases findGame st.store.games g.slug <;> rfl

theorem csvPhase_gd (now : Nat) :
    ∀ (gs : List ParsedCsvGame) (st : SyncState),
      (gs.foldl (syncCsvGame now) st).store.gameDevelopers
        = st.store.gameDevelopers := by
  intro gs
  induction gs with
  | nil => intro st; rfl
  | cons g rest ih =>
    intro st
    rw [List.foldl_cons, ih, syncCsvGame_gd]

theorem syncStudioFile_gd (now : Nat) (st : SyncState)
    (path : String) (pm : ParsedMarkdown) :
    (syncStudioFile now st (path, pm)).store.gameDevelopers =
      match studioFrontmatterSchema pm.frontmatter with
      | some fm =>
        addStudioGamePairs (slugFromPath path) st.store.gameDevelopers
          fm.games
      | none => st.store.gameDevelopers := by
  cases h : studioFrontmatterSchema pm.frontmatter <;>
    simp only [syncStudioFile, h]

theorem syncPublisherFile_gd (now : Nat) (st : SyncState)
    (f : String × ParsedMarkdown) :
    (syncPublisherFile now st f).store.gameDevelopers
      = st.store.gameDevelopers := rfl

theorem pubPhase_gd (now : Nat) :
    ∀ (files : List (String × ParsedMarkdown)) (st : SyncState),
      (files.foldl (syncPublisherFile now) st).store.gameDevelopers
        = st.store.gameDevelopers := by
  intro files
  induction files with
  | nil => intro st; rfl
  | cons f rest ih =>
    intro st
    rw [List.foldl_cons, ih, syncPublisherFile_gd]

theorem syncDesignerFile_gd (now : Nat) (st : SyncState)
    (f : String × ParsedMarkdown) :
    (syncDesignerFile now st f).store.gameDevelopers
      = st.store.gameDevelopers := rfl

theorem designerPhase_gd (now : Nat) :
    ∀ (files : List (String × ParsedMarkdown)) (st : SyncState),
      (files.foldl (syncDesignerFile now) st).store.gameDevelopers
        = st.store.gameDevelopers := by
  intro files
  induction files with
  | nil => intro st; rfl
  | cons f rest ih =>
    intro st
    rw [List.foldl_cons, ih, syncDesignerFile_gd]

theorem stubStudioStep_gd (now : Nat) (s : Store) (x : String) :
    (stubStudioStep now s x).gameDevelopers = s.gameDevelopers := by
  unfold stubStudioStep
  cases findStudio s.studios x <;> rfl

theorem stubStudiosPhase_gd (now : Nat) :
    ∀ (refs : List String) (s : Store),
      (stubStudiosPhase now refs s).gameDevelopers = s.gameDevelopers := by
  intro refs
  induction refs with
  | nil => intro s; rfl
  | cons x rest ih =>
    intro s
    unfold stubStudiosPhase
    rw [List.foldl_cons]
    have h := ih (stubStudioStep now s x)
    unfold stubStudiosPhase at h
    rw [h, stubStudioStep_gd]

theorem stubPublisherStep_gd (now : Nat) (s : Store) (x : String) :
    (stubPublisherStep now s x).gameDevelopers = s.gameDevelopers := by
  unfold stubPublisherStep
  cases findPublisher s.publishers x <;> rfl

theorem stubPublishersPhase_gd (now : Nat) :
    ∀ (refs : List String) (s : Store),
      (stubPublishersPhase now refs s).gameDevelopers
        = s.gameDevelopers := by
  intro refs
  induction refs with
  | nil => intro s; rfl
  | cons x rest ih =>
    intro s
    unfold stubPublishersPhase
    rw [List.foldl_cons]
    have h := ih (stubPublisherStep now s x)
    unfold stubPublishersPhase at h
    rw [h, stubPublisherStep_gd]

theorem stubDesignerStep_gd (now : Nat) (s : Store) (x : String) :
    (stubDesignerStep now s x).gameDevelopers = s.gameDevelopers := by
  unfold stubDesignerStep
  cases findDesigner s.designers x <;> rfl

theorem stubDesignersPhase_gd (now : Nat) :
    ∀ (refs : List String) (s : Store),
      (stubDesignersPhase now refs s).gameDevelopers
        = s.gameDevelopers := by
  intro refs
  induction refs with
  | nil => intro s; rfl
  | cons x rest ih =>
    intro s
    unfold stubDesignersPhase
    rw [List.foldl_cons]
    have h := ih (stubDesignerStep now s x)
    unfold stubDesignersPhase at h
    rw [h, stubDesignerStep_gd]


theorem addStudioGamePairs_count (slug : String) (pair : String × String) :
    ∀ (games : List String) (acc : List (String × String)), pair ∈ acc →
      ((addStudioGamePairs slug acc games).filter
          (fun q => q = pair)).length
        = (acc.filter (fun q => q = pair)).length ∧
      pair ∈ addStudioGamePairs slug acc games := by
  intro games
  induction games with
  | nil => intro acc h; exact ⟨rfl, h⟩
  | cons g rest ih =>
    intro acc h
    by_cases hany : acc.any (fun p => p.1 = g ∧ p.2 = slug)
    · have hstep : addStudioGamePairs slug acc (g :: rest)
          = addStudioGamePairs slug acc rest := by
        unfold addStudioGamePairs
        rw [List.foldl_cons, if_pos hany]
      rw [hstep]
      exact ih acc h
    · have hne : (g, slug) ≠ pair := by
        intro heq
        apply hany
        rw [List.any_eq_true]
        refine ⟨pair, h, ?_⟩
        rw [← heq]
        simp
      have hstep : addStudioGamePairs slug acc (g :: rest)
          = addStudioGamePairs slug (acc ++ [(g, slug)]) rest := by
        unfold addStudioGamePairs
        rw [List.foldl_cons, if_neg hany]
      rw [hstep]
      obtain ⟨hlen, hm⟩ :=
        ih (acc ++ [(g, slug)]) (List.mem_append_left _ h)
      refine ⟨?_, hm⟩
      rw [hlen, List.filter_append]
      have hnil : ([(g, slug)].filter (fun q => q = pair)) = [] := by
        simp [hne]
      rw [hnil, List.append_nil]

/-- Folding the studio loop preserves the occurrence count of a
`gameDevelopers` pair that is already present (the reverse-direction
insert is existence-checked). -/
theorem studioPhase_gd_count (now : Nat) (pair : String × String) :
    ∀ (files : List (String × ParsedMarkdown)) (st : SyncState),
      pair ∈ st.store.gameDevelopers →
      ((files.foldl (syncStudioFile now) st).store.gameDevelopers.filter
          (fun q => q = pair)).length
        = (st.store.gameDevelopers.filter (fun q => q = pair)).length ∧
      pair ∈ (files.foldl
          (syncStudioFile now) st).store.gameDevelopers := by
  intro files
  induction files with
  | nil => intro st h; exact ⟨rfl, h⟩
  | cons f rest ih =>
    intro st h
    obtain ⟨path, pm⟩ := f
    rw [List.foldl_cons]
    have hgd := syncStudioFile_gd now st path pm
    cases hv : studioFrontmatterSchema pm.frontmatter with
    | none =>
      rw [hv] at hgd
      have := ih (syncStudioFile now st (path, pm)) (hgd ▸ h)
      rw [hgd] at this
      exact this
    | some fm =>
      rw [hv] at hgd
      obtain ⟨hlen, hm⟩ :=
        addStudioGamePairs_count (slugFromPath path) pair fm.games
          st.store.gameDevelopers h
      have := ih (syncStudioFile now st (path, pm)) (by rw [hgd]; exact hm)
      rw [hgd] at this
      obtain ⟨hlen2, hm2⟩ := this
      exact ⟨hlen2.trans hlen, hm2⟩

/-- Restricting to the pair's own game slug first does not change the
occurrences of the pair itself. -/
theorem filter_pair_restrict (pair : String × String)
    (l : List (String × String)) :
    l.filter (fun q => q = pair)
      = (l.filter (fun p => p.1 = pair.1)).filter (fun q => q = pair) := by
  rw [List.filter_comm, List.filter_filter]
  apply (List.filter_congr ?_).symm
  intro q _
  by_cases hq : q = pair
  · simp [hq]
  · simp [hq]

/-- In a duplicate-free list containing `S`, exactly one element equals
`S`. -/
theorem filter_eq_length_one (S : String) :
    ∀ (xs : List String), xs.Nodup → S ∈ xs →
      (xs.filter (fun s => s = S)).length = 1 := by
  intro xs
  induction xs with
  | nil => intro _ h; exact absurd h (List.not_mem_nil _)
  | cons x rest ih =>
    intro hnd hm
    rw [List.nodup_cons] at hnd
    by_cases hx : x = S
    · subst hx
      rw [List.filter_cons_of_pos (by simp)]
      have : rest.filter (fun s => s = x) = [] := by
        rw [List.filter_eq_nil_iff]
        intro s hs heq
        exact hnd.1 ((by simpa using heq) ▸ hs)
      rw [this]
      rfl
    · rw [List.filter_cons_of_neg (by simp [hx])]
      exact ih hnd.2 (by
        rcases List.mem_cons.mp hm with h | h
        · exact absurd h.symm hx
        · exact h)

/-- Restricting first to the pair's game slug, with the components
explicit. -/
theorem filter_pair_restrict2 (a b : String) (l : List (String × String)) :
    l.filter (fun q => q = (a, b))
      = (l.filter (fun p => p.1 = a)).filter (fun q => q = (a, b)) := by
  rw [List.filter_comm, List.filter_filter]
  apply (List.filter_congr ?_).symm
  intro q _
  by_cases hq : q = (a, b)
  · simp [hq]
  · simp [hq]

theorem filter_pair_on_map (a S : String) :
    ∀ xs : List String,
      (xs.map (fun s => (a, s))).filter (fun q => q = (a, S))
        = (xs.filter (fun s => s = S)).map (fun s => (a, s)) := by
  intro xs
  induction xs with
  | nil => rfl
  | cons x rest ih =>
    by_cases hx : x = S
    · subst hx
      rw [List.map_cons, List.filter_cons_of_pos (by simp),
        List.filter_cons_of_pos (by simp), List.map_cons, ih]
    · rw [List.map_cons, List.filter_cons_of_neg (by simp [hx]),
        List.filter_cons_of_neg (by simp [hx]), ih]

theorem length_filter_pos_mem (pair : String × String)
    (l : List (String × String))
    (h : 0 < (l.filter (fun q => q = pair)).length) : pair ∈ l := by
  rcases List.exists_mem_of_length_pos h with ⟨q, hq⟩
  have := List.mem_filter.mp hq
  have heq : q = pair := by simpa using this.2
  exact heq ▸ this.1

/-- **C6.**  When a game document lists studio `S` among its developers
and `S`'s own document lists the game back, the store after the full run
holds exactly one `gameDevelopers` row for the pair: the game phase makes
the pair's count exactly one, and the studio phase checks the existing
junction rows for that game slug and inserts only when the pair is
absent. -/
theorem c6_reverse_relationship_dedup (now : Nat) (c : Corpus)
    (store0 : Store) (pathG : String) (pmG : ParsedMarkdown)
    (fmG : GameFrontmatter) (pathS : String) (pmS : ParsedMarkdown)
    (fmS : StudioFrontmatter)
    (hmemG : (pathG, pmG) ∈ c.gameFiles)
    (hvalG : gameFrontmatterSchema pmG.frontmatter = some fmG)
    (hndG : (c.gameFiles.map docSlug).Nodup)
    (hdevNd : fmG.developer.Nodup)
    (hS : slugFromPath pathS ∈ fmG.developer)
    (hmemS : (pathS, pmS) ∈ c.studioFiles)
    (hvalS : studioFrontmatterSchema pmS.frontmatter = some fmS)
    (hback : slugFromPath pathG ∈ fmS.games) :
    ((syncAllState now c store0).store.gameDevelopers.filter
        (fun q => q = (slugFromPath pathG, slugFromPath pathS))).length
      = 1 := by
  simp only [syncAllState, syncPhases]
  rw [stubDesignersPhase_gd, stubPublishersPhase_gd, stubStudiosPhase_gd,
    designerPhase_gd, pubPhase_gd]
  have hgame : ((c.gameFiles.foldl (syncGameFile now)
      (initState c store0)).store.gameDevelopers.filter
      (fun q => q = (slugFromPath pathG, slugFromPath pathS))).length
      = 1 := by
    rw [filter_pair_restrict2,
      (gamePhase_junctions_of_mem now c.gameFiles (initState c store0)
        pathG pmG fmG hmemG hvalG hndG).1,
      filter_pair_on_map, List.length_map]
    exact filter_eq_length_one _ _ hdevNd hS
  have hmem : (slugFromPath pathG, slugFromPath pathS) ∈
      ((csvGamesOf c).foldl (syncCsvGame now)
        (c.gameFiles.foldl (syncGameFile now)
          (initState c store0))).store.gameDevelopers := by
    rw [csvPhase_gd]
    exact length_filter_pos_mem _ _ (by rw [hgame]; exact Nat.one_pos)
  obtain ⟨hlen, _⟩ := studioPhase_gd_count now
    (slugFromPath pathG, slugFromPath pathS) c.studioFiles _ hmem
  rw [hlen, csvPhase_gd, hgame]

/-- A studio document declaring the game back. -/
def exStudioPm : ParsedMarkdown :=
  { frontmatter :=
      [("class", FmVal.str "studio"), ("games", FmVal.list ["[[G]]"])]
    sections := [("overview", "o")] }

/-- A corpus where game `G` declares `StudioA` and `StudioA` declares `G`
back. -/
def c6Corpus : Corpus :=
  { gameFiles := [("lib/games/G.md", exGamePm)]
    csv := some ""
    studioFiles := [("lib/studios/StudioA.md", exStudioPm)]
    publisherFiles := []
    designerFiles := [] }

theorem c6_witness :
    ((syncAllState 5 c6Corpus emptyStore).store.gameDevelopers.filter
        (fun q => q = (slugFromPath "lib/games/G.md",
          slugFromPath "lib/studios/StudioA.md"))).length = 1 :=
  c6_reverse_relationship_dedup 5 c6Corpus emptyStore "lib/games/G.md"
    exGamePm exGameFm "lib/studios/StudioA.md" exStudioPm ⟨none, ["G"], []⟩
    (List.mem_singleton.mpr rfl) (by decide) (by decide) (by decide)
    (by decide) (List.mem_singleton.mpr rfl) (by decide) (by decide)

/-! ## C1: referential completeness and stub materialization -/

theorem mem_setAdd_iff (l : List String) (x y : String) :
    y ∈ setAdd l x ↔ y ∈ l ∨ y = x := by
  unfold setAdd
  by_cases h : x ∈ l
  · rw [if_pos h]
    constructor
    · exact Or.inl
    · rintro (hy | rfl)
      · exact hy
      · exact h
  · rw [if_neg h]
    simp [List.mem_append]

theorem mem_foldl_setAdd_left (xs : List String) :
    ∀ (init : List String) (y : String), y ∈ init →
      y ∈ xs.foldl setAdd init := by
  induction xs with
  | nil => intro init y h; exact h
  | cons x rest ih =>
    intro init y h
    exact ih (setAdd init x) y ((mem_setAdd_iff init x y).mpr (Or.inl h))

theorem mem_foldl_setAdd_right (xs : List String) :
    ∀ (init : List String) (y : String), y ∈ xs →
      y ∈ xs.foldl setAdd init := by
  induction xs with
  | nil => intro init y h; exact absurd h (List.not_mem_nil _)
  | cons x rest ih =>
    intro init y h
    rcases List.mem_cons.mp h with rfl | h
    · exact mem_foldl_setAdd_left rest (setAdd init y) y
        ((mem_setAdd_iff init y y).mpr (Or.inr rfl))
    · exact ih (setAdd init x) y h

/-- A slug has a row in a studio table. -/
def studioSlugExists (rows : List StudioRow) (slug : String) : Prop :=
  ∃ r ∈ rows, r.slug = slug

def pubSlugExists (rows : List PublisherRow) (slug : String) : Prop :=
  ∃ r ∈ rows, r.slug = slug

def designerSlugExists (rows : List DesignerRow) (slug : String) : Prop :=
  ∃ r ∈ rows, r.slug = slug

def gameSlugExists (rows : List GameRow) (slug : String) : Prop :=
  ∃ r ∈ rows, r.slug = slug

/-- The run-long referential invariant: every junction row's target slug
is either already materialized as an entity row or recorded in the
matching pending-reference set (and every truthy director likewise); the
slug of the entity owning a `publisherStudios`/`relatedStudios` row is
always materialized (the owner was upserted in the same step). -/
def RefInv (st : SyncState) : Prop :=
  (∀ p ∈ st.store.gameDevelopers,
    p.2 ∈ st.refStudios ∨ studioSlugExists st.store.studios p.2) ∧
  (∀ p ∈ st.store.gamePublishers,
    p.2 ∈ st.refPublishers ∨ pubSlugExists st.store.publishers p.2) ∧
  (∀ p ∈ st.store.publisherStudios,
    pubSlugExists st.store.publishers p.1 ∧
      (p.2 ∈ st.refStudios ∨ studioSlugExists st.store.studios p.2)) ∧
  (∀ p ∈ st.store.relatedStudios,
    studioSlugExists st.store.studios p.1 ∧
      (p.2 ∈ st.refStudios ∨ studioSlugExists st.store.studios p.2)) ∧
  (∀ g ∈ st.store.games, ∀ d, g.director = some d → d ≠ "" →
    d ∈ st.refDesigners ∨ designerSlugExists st.store.designers d) ∧
  (∀ r ∈ st.store.studios, ∀ d, r.director = some d → d ≠ "" →
    d ∈ st.refDesigners ∨ designerSlugExists st.store.designers d)

/-! ### Component equations for the game step -/

theorem syncGameFile_studios (now : Nat) (st : SyncState)
    (path : String) (pm : ParsedMarkdown) :
    (syncGameFile now st (path, pm)).store.studios = st.store.studios := by
  cases h : gameFrontmatterSchema pm.frontmatter <;>
    simp only [syncGameFile, syncStubGame, h]
  cases findGame st.store.games (slugFromPath path) <;> rfl

theorem syncGameFile_publishers (now : Nat) (st : SyncState)
    (path : String) (pm : ParsedMarkdown) :
    (syncGameFile now st (path, pm)).store.publishers
      = st.store.publishers := by
  cases h : gameFrontmatterSchema pm.frontmatter <;>
    simp only [syncGameFile, syncStubGame, h]
  cases findGame st.store.games (slugFromPath path) <;> rfl

theorem syncGameFile_designers (now : Nat) (st : SyncState)
    (path : String) (pm : ParsedMarkdown) :
    (syncGameFile now st (path, pm)).store.designers
      = st.store.designers := by
  cases h : gameFrontmatterSchema pm.frontmatter <;>
    simp only [syncGameFile, syncStubGame, h]
  cases findGame st.store.games (slugFromPath path) <;> rfl

theorem syncGameFile_ps (now : Nat) (st : SyncState)
    (path : String) (pm : ParsedMarkdown) :
    (syncGameFile now st (path, pm)).store.publisherStudios
      = st.store.publisherStudios := by
  cases h : gameFrontmatterSchema pm.frontmatter <;>
    simp only [syncGameFile, syncStubGame, h]
  cases findGame st.store.games (slugFromPath path) <;> rfl

theorem syncGameFile_rs (now : Nat) (st : SyncState)
    (path : String) (pm : ParsedMarkdown) :
    (syncGameFile now st (path, pm)).store.relatedStudios
      = st.store.relatedStudios := by
  cases h : gameFrontmatterSchema pm.frontmatter <;>
    simp only [syncGameFile, syncStubGame, h]
  cases findGame st.store.games (slugFromPath path) <;> rfl

theorem syncGameFile_refStudios (now : Nat) (st : SyncState)
    (path : String) (pm : ParsedMarkdown) :
    (syncGameFile now st (path, pm)).refStudios =
      match gameFrontmatterSchema pm.frontmatter with
      | some fm => fm.developer.foldl setAdd st.refStudios
      | none => st.refStudios := by
  cases h : gameFrontmatterSchema pm.frontmatter <;>
    simp only [syncGameFile, syncStubGame, h]
  cases findGame st.store.games (slugFromPath path) <;> rfl

theorem syncGameFile_refPublishers (now : Nat) (st : SyncState)
    (path : String) (pm : ParsedMarkdown) :
    (syncGameFile now st (path, pm)).refPublishers =
      match gameFrontmatterSchema pm.frontmatter with
      | some fm => fm.publisher.foldl setAdd st.refPublishers
      | none => st.refPublishers := by
  cases h : gameFrontmatterSchema pm.frontmatter <;>
    simp only [syncGameFile, syncStubGame, h]
  cases findGame st.store.games (slugFromPath path) <;> rfl

theorem syncGameFile_refDesigners (now : Nat) (st : SyncState)
    (path : String) (pm : ParsedMarkdown) :
    (syncGameFile now st (path, pm)).refDesigners =
      match gameFrontmatterSchema pm.frontmatter with
      | some fm =>
        match fm.director with
        | some d =>
          if d ≠ "" then setAdd st.refDesigners d else st.refDesigners
        | none => st.refDesigners
      | none => st.refDesigners := by
  cases h : gameFrontmatterSchema pm.frontmatter <;>
    simp only [syncGameFile, syncStubGame, h]
  cases findGame st.store.games (slugFromPath path) <;> rfl

/-- Every game row after a game step is an old row, the document's full
row, or the stub row. -/
theorem syncGameFile_games_sub (now : Nat) (st : SyncState)
    (path : String) (pm : ParsedMarkdown) :
    ∀ g ∈ (syncGameFile now st (path, pm)).store.games,
      g ∈ st.store.games ∨
      (∃ fm, gameFrontmatterSchema pm.frontmatter = some fm ∧
        g = gameRowOf now (slugFromPath path) path fm pm.sections) ∨
      g = stubGameRow now (slugFromPath path) path := by
  intro g hg
  cases h : gameFrontmatterSchema pm.frontmatter
  case none =>
    simp only [syncGameFile, syncStubGame, h] at hg
    cases hfind : findGame st.store.games (slugFromPath path) with
    | none =>
      rw [hfind] at hg
      dsimp only at hg
      rcases List.mem_append.mp hg with hg | hg
      · exact Or.inl hg
      · exact Or.inr (Or.inr (List.mem_singleton.mp hg))
    | some e =>
      rw [hfind] at hg
      dsimp only at hg
      exact Or.inl hg
  case some fm =>
    simp only [syncGameFile, h] at hg
    cases hfind : findGame st.store.games (slugFromPath path) with
    | none =>
      rw [hfind] at hg
      dsimp only at hg
      rcases List.mem_append.mp hg with hg | hg
      · exact Or.inl hg
      · exact Or.inr (Or.inl ⟨fm, rfl, List.mem_singleton.mp hg⟩)
    | some e =>
      rw [hfind] at hg
      dsimp only at hg
      by_cases hch : gameChanges (slugFromPath path) e
          (gameRowOf now (slugFromPath path) path fm pm.sections) ≠ []
      · rw [if_pos hch] at hg
        dsimp only at hg
        rcases List.mem_map.mp hg with ⟨r, hr, hrg⟩
        by_cases hrs : r.slug = slugFromPath path
        · rw [if_pos hrs] at hrg
          exact Or.inr (Or.inl ⟨fm, rfl, hrg.symm⟩)
        · rw [if_neg hrs] at hrg
          exact Or.inl (hrg ▸ hr)
      · rw [if_neg hch] at hg
        dsimp only at hg
        exact Or.inl hg

theorem syncGameFile_refInv (now : Nat) (st : SyncState)
    (path : String) (pm : ParsedMarkdown) (h : RefInv st) :
    RefInv (syncGameFile now st (path, pm)) := by
  obtain ⟨h1, h2, h3, h4, h5, h6⟩ := h
  have hrefS : ∀ y ∈ st.refStudios,
      y ∈ (syncGameFile now st (path, pm)).refStudios := by
    rw [syncGameFile_refStudios]
    cases gameFrontmatterSchema pm.frontmatter with
    | none => exact fun y hy => hy
    | some fm => exact fun y hy => mem_foldl_setAdd_left _ _ _ hy
  have hrefP : ∀ y ∈ st.refPublishers,
      y ∈ (syncGameFile now st (path, pm)).refPublishers := by
    rw [syncGameFile_refPublishers]
    cases gameFrontmatterSchema pm.frontmatter with
    | none => exact fun y hy => hy
    | some fm => exact fun y hy => mem_foldl_setAdd_left _ _ _ hy
  have hrefD : ∀ y ∈ st.refDesigners,
      y ∈ (syncGameFile now st (path, pm)).refDesigners := by
    rw [syncGameFile_refDesigners]
    cases hv : gameFrontmatterSchema pm.frontmatter with
    | none => exact fun y hy => hy
    | some fm =>
      dsimp only
      cases hdir : fm.director with
      | none => exact fun y hy => hy
      | some d =>
        dsimp only
        by_cases hd : d ≠ ""
        · rw [if_pos hd]
          exact fun y hy => (mem_setAdd_iff _ _ _).mpr (Or.inl hy)
        · rw [if_neg hd]
          exact fun y hy => hy
  unfold RefInv
  rw [syncGameFile_gd, syncGameFile_gp, syncGameFile_studios,
    syncGameFile_publishers, syncGameFile_designers, syncGameFile_ps,
    syncGameFile_rs]
  refine ⟨?_, ?_, ?_, ?_, ?_, ?_⟩
  · cases hv : gameFrontmatterSchema pm.frontmatter with
    | none =>
      intro p hp
      rcases h1 p hp with hr | hr
      · exact Or.inl (hrefS _ hr)
      · exact Or.inr hr
    | some fm =>
      intro p hp
      rcases List.mem_append.mp hp with hp | hp
      · rcases h1 p (List.mem_filter.mp hp).1 with hr | hr
        · exact Or.inl (hrefS _ hr)
        · exact Or.inr hr
      · rcases List.mem_map.mp hp with ⟨s, hs, rfl⟩
        refine Or.inl ?_
        rw [syncGameFile_refStudios, hv]
        exact mem_foldl_setAdd_right _ _ _ hs
  · cases hv : gameFrontmatterSchema pm.frontmatter with
    | none =>
      intro p hp
      rcases h2 p hp with hr | hr
      · exact Or.inl (hrefP _ hr)
      · exact Or.inr hr
    | some fm =>
      intro p hp
      rcases List.mem_append.mp hp with hp | hp
      · rcases h2 p (List.mem_filter.mp hp).1 with hr | hr
        · exact Or.inl (hrefP _ hr)
        · exact Or.inr hr
      · rcases List.mem_map.mp hp with ⟨s, hs, rfl⟩
        refine Or.inl ?_
        rw [syncGameFile_refPublishers, hv]
        exact mem_foldl_setAdd_right _ _ _ hs
  · intro p hp
    obtain ⟨hpe, hse⟩ := h3 p hp
    refine ⟨hpe, ?_⟩
    rcases hse with hr | hr
    · exact Or.inl (hrefS _ hr)
    · exact Or.inr hr
  · intro p hp
    obtain ⟨hpe, hse⟩ := h4 p hp
    refine ⟨hpe, ?_⟩
    rcases hse with hr | hr
    · exact Or.inl (hrefS _ hr)
    · exact Or.inr hr
  · intro g hg d hd hne
    rcases syncGameFile_games_sub now st path pm g hg with hold | hnew | hstub
    · rcases h5 g hold d hd hne with hr | hr
      · exact Or.inl (hrefD _ hr)
      · exact Or.inr hr
    · obtain ⟨fm, hv, rfl⟩ := hnew
      refine Or.inl ?_
      rw [syncGameFile_refDesigners, hv]
      dsimp only
      have hdir : fm.director = some d := hd
      rw [hdir]
      dsimp only
      rw [if_pos hne]
      exact (mem_setAdd_iff _ _ _).mpr (Or.inr rfl)
    · subst hstub
      exact absurd hd (by simp [stubGameRow])
  · intro r hr d hd hne
    rcases h6 r hr d hd hne with h | h
    · exact Or.inl (hrefD _ h)
    · exact Or.inr h

/-! ### Component equations for the csv, studio, publisher and designer
steps -/

theorem syncCsvGame_store_rest (now : Nat) (st : SyncState)
    (g : ParsedCsvGame) :
    (syncCsvGame now st g).store.studios = st.store.studios ∧
    (syncCsvGame now st g).store.publishers = st.store.publishers ∧
    (syncCsvGame now st g).store.designers = st.store.designers ∧
    (syncCsvGame now st g).store.gamePublishers = st.store.gamePublishers ∧
    (syncCsvGame now st g).store.publisherStudios
      = st.store.publisherStudios ∧
    (syncCsvGame now st g).store.relatedStudios = st.store.relatedStudios ∧
    (syncCsvGame now st g).refStudios = st.refStudios ∧
    (syncCsvGame now st g).refPublishers = st.refPublishers ∧
    (syncCsvGame now st g).refDesigners = st.refDesigners := by
  unfold syncCsvGame
  cases findGame st.store.games g.slug <;>
    exact ⟨rfl, rfl, rfl, rfl, rfl, rfl, rfl, rfl, rfl⟩

theorem syncCsvGame_games_sub (now : Nat) (st : SyncState)
    (g : ParsedCsvGame) :
    ∀ r ∈ (syncCsvGame now st g).store.games,
      r ∈ st.store.games ∨ r = csvGameRow now g := by
  intro r hr
  unfold syncCsvGame at hr
  cases hfind : findGame st.store.games g.slug <;> rw [hfind] at hr
  · rcases List.mem_append.mp hr with hr | hr
    · exact Or.inl hr
    · exact Or.inr (List.mem_singleton.mp hr)
  · exact Or.inl hr

theorem syncCsvGame_refInv (now : Nat) (st : SyncState) (g : ParsedCsvGame)
    (h : RefInv st) : RefInv (syncCsvGame now st g) := by
  obtain ⟨h1, h2, h3, h4, h5, h6⟩ := h
  obtain ⟨e1, e2, e3, e4, e5, e6, e7, e8, e9⟩ :=
    syncCsvGame_store_rest now st g
  unfold RefInv
  rw [syncCsvGame_gd, e1, e2, e3, e4, e5, e6, e7, e8, e9]
  refine ⟨h1, h2, h3, h4, ?_, h6⟩
  intro r hr d hd hne
  rcases syncCsvGame_games_sub now st g r hr with hold | hnew
  · exact h5 r hold d hd hne
  · subst hnew
    exact absurd hd (by simp [csvGameRow])

theorem syncStudioFile_rest (now : Nat) (st : SyncState)
    (path : String) (pm : ParsedMarkdown) :
    (syncStudioFile now st (path, pm)).store.games = st.store.games ∧
    (syncStudioFile now st (path, pm)).store.publishers
      = st.store.publishers ∧
    (syncStudioFile now st (path, pm)).store.designers
      = st.store.designers ∧
    (syncStudioFile now st (path, pm)).store.gamePublishers
      = st.store.gamePublishers ∧
    (syncStudioFile now st (path, pm)).store.publisherStudios
      = st.store.publisherStudios ∧
    (syncStudioFile now st (path, pm)).refPublishers
      = st.refPublishers := by
  exact ⟨rfl, rfl, rfl, rfl, rfl, rfl⟩

theorem syncStudioFile_rs (now : Nat) (st : SyncState)
    (path : String) (pm : ParsedMarkdown) :
    (syncStudioFile now st (path, pm)).store.relatedStudios =
      match studioFrontmatterSchema pm.frontmatter with
      | some fm =>
        if fm.studios ≠ [] then
          st.store.relatedStudios.filter
              (fun p => p.1 ≠ slugFromPath path) ++
            fm.studios.map (fun r => (slugFromPath path, r))
        else st.store.relatedStudios
      | none => st.store.relatedStudios := by
  cases h : studioFrontmatterSchema pm.frontmatter <;>
    simp only [syncStudioFile, h]
  split <;> rfl

theorem syncStudioFile_refStudios (now : Nat) (st : SyncState)
    (path : String) (pm : ParsedMarkdown) :
    (syncStudioFile now st (path, pm)).refStudios =
      match studioFrontmatterSchema pm.frontmatter with
      | some fm =>
        if fm.studios ≠ [] then fm.studios.foldl setAdd st.refStudios
        else st.refStudios
      | none => st.refStudios := by
  cases h : studioFrontmatterSchema pm.frontmatter <;>
    simp only [syncStudioFile, h]
  split <;> rfl

theorem syncStudioFile_refDesigners (now : Nat) (st : SyncState)
    (path : String) (pm : ParsedMarkdown) :
    (syncStudioFile now st (path, pm)).refDesigners =
      match studioFrontmatterSchema pm.frontmatter with
      | some fm =>
        match fm.director with
        | some d =>
          if d ≠ "" then setAdd st.refDesigners d else st.refDesigners
        | none => st.refDesigners
      | none => st.refDesigners := by
  cases h : studioFrontmatterSchema pm.frontmatter <;>
    simp only [syncStudioFile, h]

/-- The studio upsert only replaces the document's own slug or appends
its row: membership-wise every row is an old row or the document's row. -/
theorem syncStudioFile_studios_sub (now : Nat) (st : SyncState)
    (path : String) (pm : ParsedMarkdown) :
    ∀ r ∈ (syncStudioFile now st (path, pm)).store.studios,
      r ∈ st.store.studios ∨
      r = studioRowOf now (slugFromPath path) path
        (studioFrontmatterSchema pm.frontmatter) pm.sections := by
  intro r hr
  simp only [syncStudioFile] at hr
  cases hfind : findStudio st.store.studios (slugFromPath path) with
  | none =>
    rw [hfind] at hr
    dsimp only at hr
    rcases List.mem_append.mp hr with hr | hr
    · exact Or.inl hr
    · exact Or.inr (List.mem_singleton.mp hr)
  | some e =>
    rw [hfind] at hr
    dsimp only at hr
    by_cases hch : studioChanges (slugFromPath path) e
        (studioRowOf now (slugFromPath path) path
          (studioFrontmatterSchema pm.frontmatter) pm.sections) ≠ []
    · rw [if_pos hch] at hr
      dsimp only at hr
      rcases List.mem_map.mp hr with ⟨r0, hr0, hrr⟩
      by_cases hrs : r0.slug = slugFromPath path
      · rw [if_pos hrs] at hrr
        exact Or.inr hrr.symm
      · rw [if_neg hrs] at hrr
        exact Or.inl (hrr ▸ hr0)
    · rw [if_neg hch] at hr
      dsimp only at hr
      exact Or.inl hr

/-- The upsert always leaves a row under the document's slug. -/
theorem syncStudioFile_slug_exists (now : Nat) (st : SyncState)
    (path : String) (pm : ParsedMarkdown) :
    studioSlugExists (syncStudioFile now st (path, pm)).store.studios
      (slugFromPath path) := by
  simp only [syncStudioFile]
  cases hfind : findStudio st.store.studios (slugFromPath path) with
  | none =>
    dsimp only
    exact ⟨_, List.mem_append_right _ (List.mem_singleton_self _), rfl⟩
  | some e =>
    dsimp only
    have hmem := List.mem_of_find?_eq_some hfind
    have hslug : e.slug = slugFromPath path := by
      have := List.find?_some hfind
      simpa using this
    by_cases hch : studioChanges (slugFromPath path) e
        (studioRowOf now (slugFromPath path) path
          (studioFrontmatterSchema pm.frontmatter) pm.sections) ≠ []
    · rw [if_pos hch]
      dsimp only
      refine ⟨_, List.mem_map_of_mem _ hmem, ?_⟩
      rw [if_pos hslug]
      rfl
    · rw [if_neg hch]
      dsimp only
      exact ⟨e, hmem, hslug⟩

/-- Studio-slug existence is monotone across the studio upsert. -/
theorem syncStudioFile_exists_mono (now : Nat) (st : SyncState)
    (path : String) (pm : ParsedMarkdown) (slug : String)
    (h : studioSlugExists st.store.studios slug) :
    studioSlugExists (syncStudioFile now st (path, pm)).store.studios
      slug := by
  obtain ⟨r, hr, hslug⟩ := h
  by_cases hrs : r.slug = slugFromPath path
  · rw [← hslug, hrs]
    exact syncStudioFile_slug_exists now st path pm
  · simp only [syncStudioFile]
    cases hfind : findStudio st.store.studios (slugFromPath path) with
    | none =>
      dsimp only
      exact ⟨r, List.mem_append_left _ hr, hslug⟩
    | some e =>
      dsimp only
      by_cases hch : studioChanges (slugFromPath path) e
          (studioRowOf now (slugFromPath path) path
            (studioFrontmatterSchema pm.frontmatter) pm.sections) ≠ []
      · rw [if_pos hch]
        dsimp only
        refine ⟨_, List.mem_map_of_mem _ hr, ?_⟩
        rw [if_neg hrs]
        exact hslug
      · rw [if_neg hch]
        dsimp only
        exact ⟨r, hr, hslug⟩

/-- Every pair after a checked insert run is an old pair or names the
inserting studio. -/
theorem addStudioGamePairs_sub (slug : String) :
    ∀ (games : List String) (acc : List (String × String)),
      ∀ p ∈ addStudioGamePairs slug acc games, p ∈ acc ∨ p.2 = slug := by
  intro games
  induction games with
  | nil => intro acc p hp; exact Or.inl hp
  | cons g rest ih =>
    intro acc p hp
    by_cases hany : acc.any (fun q => q.1 = g ∧ q.2 = slug)
    · have hstep : addStudioGamePairs slug acc (g :: rest)
          = addStudioGamePairs slug acc rest := by
        unfold addStudioGamePairs
        rw [List.foldl_cons, if_pos hany]
      rw [hstep] at hp
      exact ih acc p hp
    · have hstep : addStudioGamePairs slug acc (g :: rest)
          = addStudioGamePairs slug (acc ++ [(g, slug)]) rest := by
        unfold addStudioGamePairs
        rw [List.foldl_cons, if_neg hany]
      rw [hstep] at hp
      rcases ih _ p hp with hp' | hp'
      · rcases List.mem_append.mp hp' with hp'' | hp''
        · exact Or.inl hp''
        · right
          rw [List.mem_singleton.mp hp'']
      · exact Or.inr hp'

theorem syncStudioFile_refInv (now : Nat) (st : SyncState)
    (path : String) (pm : ParsedMarkdown) (h : RefInv st) :
    RefInv (syncStudioFile now st (path, pm)) := by
  obtain ⟨h1, h2, h3, h4, h5, h6⟩ := h
  obtain ⟨e1, e2, e3, e4, e5, e6⟩ := syncStudioFile_rest now st path pm
  have hrefS : ∀ y ∈ st.refStudios,
      y ∈ (syncStudioFile now st (path, pm)).refStudios := by
    rw [syncStudioFile_refStudios]
    cases hv : studioFrontmatterSchema pm.frontmatter with
    | none => exact fun y hy => hy
    | some fm =>
      dsimp only
      by_cases hs : fm.studios ≠ []
      · rw [if_pos hs]
        exact fun y hy => mem_foldl_setAdd_left _ _ _ hy
      · rw [if_neg hs]
        exact fun y hy => hy
  have hrefD : ∀ y ∈ st.refDesigners,
      y ∈ (syncStudioFile now st (path, pm)).refDesigners := by
    rw [syncStudioFile_refDesigners]
    cases hv : studioFrontmatterSchema pm.frontmatter with
    | none => exact fun y hy => hy
    | some fm =>
      dsimp only
      cases hdir : fm.director with
      | none => exact fun y hy => hy
      | some d =>
        dsimp only
        by_cases hd : d ≠ ""
        · rw [if_pos hd]
          exact fun y hy => (mem_setAdd_iff _ _ _).mpr (Or.inl hy)
        · rw [if_neg hd]
          exact fun y hy => hy
  have hmono := syncStudioFile_exists_mono now st path pm
  have hdes : ∀ d, designerSlugExists st.store.designers d →
      designerSlugExists
        (syncStudioFile now st (path, pm)).store.designers d := by
    rw [e3]
    exact fun d hd => hd
  refine ⟨?_, ?_, ?_, ?_, ?_, ?_⟩
  · rw [syncStudioFile_gd]
    cases hv : studioFrontmatterSchema pm.frontmatter with
    | none =>
      intro p hp
      rcases h1 p hp with hr | hr
      · exact Or.inl (hrefS _ hr)
      · exact Or.inr (hmono _ hr)
    | some fm =>
      intro p hp
      rcases addStudioGamePairs_sub (slugFromPath path) fm.games
          st.store.gameDevelopers p hp with hold | hslug
      · rcases h1 p hold with hr | hr
        · exact Or.inl (hrefS _ hr)
        · exact Or.inr (hmono _ hr)
      · right
        rw [hslug]
        exact syncStudioFile_slug_exists now st path pm
  · rw [e4, e2, e6]
    exact h2
  · rw [e5, e2]
    intro p hp
    obtain ⟨hpe, hse⟩ := h3 p hp
    refine ⟨hpe, ?_⟩
    rcases hse with hr | hr
    · exact Or.inl (hrefS _ hr)
    · exact Or.inr (hmono _ hr)
  · rw [syncStudioFile_rs]
    cases hv : studioFrontmatterSchema pm.frontmatter with
    | none =>
      intro p hp
      obtain ⟨hpe, hse⟩ := h4 p hp
      refine ⟨hmono _ hpe, ?_⟩
      rcases hse with hr | hr
      · exact Or.inl (hrefS _ hr)
      · exact Or.inr (hmono _ hr)
    | some fm =>
      dsimp only
      by_cases hs : fm.studios ≠ []
      · rw [if_pos hs]
        intro p hp
        rcases List.mem_append.mp hp with hp | hp
        · obtain ⟨hpe, hse⟩ := h4 p (List.mem_filter.mp hp).1
          refine ⟨hmono _ hpe, ?_⟩
          rcases hse with hr | hr
          · exact Or.inl (hrefS _ hr)
          · exact Or.inr (hmono _ hr)
        · rcases List.mem_map.mp hp with ⟨s, hs', rfl⟩
          refine ⟨syncStudioFile_slug_exists now st path pm, Or.inl ?_⟩
          rw [syncStudioFile_refStudios, hv]
          dsimp only
          rw [if_pos hs]
          exact mem_foldl_setAdd_right _ _ _ hs'
      · rw [if_neg hs]
        intro p hp
        obtain ⟨hpe, hse⟩ := h4 p hp
        refine ⟨hmono _ hpe, ?_⟩
        rcases hse with hr | hr
        · exact Or.inl (hrefS _ hr)
        · exact Or.inr (hmono _ hr)
  · rw [e1]
    intro g hg d hd hne
    rcases h5 g hg d hd hne with hr | hr
    · exact Or.inl (hrefD _ hr)
    · exact Or.inr (hdes _ hr)
  · intro r hr d hd hne
    rcases syncStudioFile_studios_sub now st path pm r hr with hold | hnew
    · rcases h6 r hold d hd hne with hr' | hr'
      · exact Or.inl (hrefD _ hr')
      · exact Or.inr (hdes _ hr')
    · subst hnew
      cases hv : studioFrontmatterSchema pm.frontmatter with
      | none =>
        rw [hv] at hd
        exact absurd hd (by simp [studioRowOf])
      | some fm =>
        rw [hv] at hd
        have hdir : fm.director = some d := hd
        refine Or.inl ?_
        rw [syncStudioFile_refDesigners, hv]
        dsimp only
        rw [hdir]
        dsimp only
        rw [if_pos hne]
        exact (mem_setAdd_iff _ _ _).mpr (Or.inr rfl)

theorem syncPublisherFile_rest (now : Nat) (st : SyncState)
    (path : String) (pm : ParsedMarkdown) :
    (syncPublisherFile now st (path, pm)).store.games = st.store.games ∧
    (syncPublisherFile now st (path, pm)).store.studios
      = st.store.studios ∧
    (syncPublisherFile now st (path, pm)).store.designers
      = st.store.designers ∧
    (syncPublisherFile now st (path, pm)).store.gameDevelopers
      = st.store.gameDevelopers ∧
    (syncPublisherFile now st (path, pm)).store.relatedStudios
      = st.store.relatedStudios ∧
    (syncPublisherFile now st (path, pm)).refPublishers
      = st.refPublishers ∧
    (syncPublisherFile now st (path, pm)).refDesigners
      = st.refDesigners := by
  exact ⟨rfl, rfl, rfl, rfl, rfl, rfl, rfl⟩

theorem syncPublisherFile_gp (now : Nat) (st : SyncState)
    (path : String) (pm : ParsedMarkdown) :
    (syncPublisherFile now st (path, pm)).store.gamePublishers =
      match publisherFrontmatterSchema pm.frontmatter with
      | some fm =>
        addPublisherGamePairs (slugFromPath path) st.store.gamePublishers
          fm.games
      | none => st.store.gamePublishers := by
  cases h : publisherFrontmatterSchema pm.frontmatter <;>
    simp only [syncPublisherFile, h]

theorem syncPublisherFile_ps (now : Nat) (st : SyncState)
    (path : String) (pm : ParsedMarkdown) :
    (syncPublisherFile now st (path, pm)).store.publisherStudios =
      match publisherFrontmatterSchema pm.frontmatter with
      | some fm =>
        if fm.studios ≠ [] then
          st.store.publisherStudios.filter
              (fun p => p.1 ≠ slugFromPath path) ++
            fm.studios.map (fun s => (slugFromPath path, s))
        else st.store.publisherStudios
      | none => st.store.publisherStudios := by
  cases h : publisherFrontmatterSchema pm.frontmatter <;>
    simp only [syncPublisherFile, h]
  split <;> rfl

theorem syncPublisherFile_refStudios (now : Nat) (st : SyncState)
    (path : String) (pm : ParsedMarkdown) :
    (syncPublisherFile now st (path, pm)).refStudios =
      match publisherFrontmatterSchema pm.frontmatter with
      | some fm =>
        if fm.studios ≠ [] then fm.studios.foldl setAdd st.refStudios
        else st.refStudios
      | none => st.refStudios := by
  cases h : publisherFrontmatterSchema pm.frontmatter <;>
    simp only [syncPublisherFile, h]
  split <;> rfl

theorem syncPublisherFile_slug_exists (now : Nat) (st : SyncState)
    (path : String) (pm : ParsedMarkdown) :
    pubSlugExists (syncPublisherFile now st (path, pm)).store.publishers
      (slugFromPath path) := by
  simp only [syncPublisherFile]
  cases hfind : findPublisher st.store.publishers (slugFromPath path) with
  | none =>
    dsimp only
    exact ⟨_, List.mem_append_right _ (List.mem_singleton_self _), rfl⟩
  | some e =>
    dsimp only
    have hmem := List.mem_of_find?_eq_some hfind
    have hslug : e.slug = slugFromPath path := by
      have := List.find?_some hfind
      simpa using this
    by_cases hch : publisherChanges (slugFromPath path) e
        (publisherRowOf now (slugFromPath path) path pm.sections) ≠ []
    · rw [if_pos hch]
      dsimp only
      refine ⟨_, List.mem_map_of_mem _ hmem, ?_⟩
      rw [if_pos hslug]
      rfl
    · rw [if_neg hch]
      dsimp only
      exact ⟨e, hmem, hslug⟩

theorem syncPublisherFile_exists_mono (now : Nat) (st : SyncState)
    (path : String) (pm : ParsedMarkdown) (slug : String)
    (h : pubSlugExists st.store.publishers slug) :
    pubSlugExists (syncPublisherFile now st (path, pm)).store.publishers
      slug := by
  obtain ⟨r, hr, hslug⟩ := h
  by_cases hrs : r.slug = slugFromPath path
  · rw [← hslug, hrs]
    exact syncPublisherFile_slug_exists now st path pm
  · simp only [syncPublisherFile]
    cases hfind : findPublisher st.store.publishers (slugFromPath path) with
    | none =>
      dsimp only
      exact ⟨r, List.mem_append_left _ hr, hslug⟩
    | some e =>
      dsimp only
      by_cases hch : publisherChanges (slugFromPath path) e
          (publisherRowOf now (slugFromPath path) path pm.sections) ≠ []
      · rw [if_pos hch]
        dsimp only
        refine ⟨_, List.mem_map_of_mem _ hr, ?_⟩
        rw [if_neg hrs]
        exact hslug
      · rw [if_neg hch]
        dsimp only
        exact ⟨r, hr, hslug⟩

theorem addPublisherGamePairs_sub (slug : String) :
    ∀ (games : List String) (acc : List (String × String)),
      ∀ p ∈ addPublisherGamePairs slug acc games, p ∈ acc ∨ p.2 = slug := by
  intro games
  induction games with
  | nil => intro acc p hp; exact Or.inl hp
  | cons g rest ih =>
    intro acc p hp
    by_cases hany : acc.any (fun q => q.1 = g ∧ q.2 = slug)
    · have hstep : addPublisherGamePairs slug acc (g :: rest)
          = addPublisherGamePairs slug acc rest := by
        unfold addPublisherGamePairs
        rw [List.foldl_cons, if_pos hany]
      rw [hstep] at hp
      exact ih acc p hp
    · have hstep : addPublisherGamePairs slug acc (g :: rest)
          = addPublisherGamePairs slug (acc ++ [(g, slug)]) rest := by
        unfold addPublisherGamePairs
        rw [List.foldl_cons, if_neg hany]
      rw [hstep] at hp
      rcases ih _ p hp with hp' | hp'
      · rcases List.mem_append.mp hp' with hp'' | hp''
        · exact Or.inl hp''
        · right
          rw [List.mem_singleton.mp hp'']
      · exact Or.inr hp'

theorem syncPublisherFile_refInv (now : Nat) (st : SyncState)
    (path : String) (pm : ParsedMarkdown) (h : RefInv st) :
    RefInv (syncPublisherFile now st (path, pm)) := by
  obtain ⟨h1, h2, h3, h4, h5, h6⟩ := h
  obtain ⟨e1, e2, e3, e4, e5, e6, e7⟩ := syncPublisherFile_rest now st path pm
  have hrefS : ∀ y ∈ st.refStudios,
      y ∈ (syncPublisherFile now st (path, pm)).refStudios := by
    rw [syncPublisherFile_refStudios]
    cases hv : publisherFrontmatterSchema pm.frontmatter with
    | none => exact fun y hy => hy
    | some fm =>
      dsimp only
      by_cases hs : fm.studios ≠ []
      · rw [if_pos hs]
        exact fun y hy => mem_foldl_setAdd_left _ _ _ hy
      · rw [if_neg hs]
        exact fun y hy => hy
  have hmono := syncPublisherFile_exists_mono now st path pm
  refine ⟨?_, ?_, ?_, ?_, ?_, ?_⟩
  · rw [e4, e2]
    intro p hp
    rcases h1 p hp with hr | hr
    · exact Or.inl (hrefS _ hr)
    · exact Or.inr hr
  · rw [syncPublisherFile_gp, e6]
    cases hv : publisherFrontmatterSchema pm.frontmatter with
    | none =>
      intro p hp
      rcases h2 p hp with hr | hr
      · exact Or.inl hr
      · exact Or.inr (hmono _ hr)
    | some fm =>
      intro p hp
      rcases addPublisherGamePairs_sub (slugFromPath path) fm.games
          st.store.gamePublishers p hp with hold | hslug
      · rcases h2 p hold with hr | hr
        · exact Or.inl hr
        · exact Or.inr (hmono _ hr)
      · right
        rw [hslug]
        exact syncPublisherFile_slug_exists now st path pm
  · rw [syncPublisherFile_ps, e2]
    cases hv : publisherFrontmatterSchema pm.frontmatter with
    | none =>
      intro p hp
      obtain ⟨hpe, hse⟩ := h3 p hp
      refine ⟨hmono _ hpe, ?_⟩
      rcases hse with hr | hr
      · exact Or.inl (hrefS _ hr)
      · exact Or.inr hr
    | some fm =>
      dsimp only
      by_cases hs : fm.studios ≠ []
      · rw [if_pos hs]
        intro p hp
        rcases List.mem_append.mp hp with hp | hp
        · obtain ⟨hpe, hse⟩ := h3 p (List.mem_filter.mp hp).1
          refine ⟨hmono _ hpe, ?_⟩
          rcases hse with hr | hr
          · exact Or.inl (hrefS _ hr)
          · exact Or.inr hr
        · rcases List.mem_map.mp hp with ⟨s, hs', rfl⟩
          refine ⟨syncPublisherFile_slug_exists now st path pm, Or.inl ?_⟩
          rw [syncPublisherFile_refStudios, hv]
          dsimp only
          rw [if_pos hs]
          exact mem_foldl_setAdd_right _ _ _ hs'
      · rw [if_neg hs]
        intro p hp
        obtain ⟨hpe, hse⟩ := h3 p hp
        refine ⟨hmono _ hpe, ?_⟩
        rcases hse with hr | hr
        · exact Or.inl (hrefS _ hr)
        · exact Or.inr hr
  · rw [e5, e2]
    intro p hp
    obtain ⟨hpe, hse⟩ := h4 p hp
    refine ⟨hpe, ?_⟩
    rcases hse with hr | hr
    · exact Or.inl (hrefS _ hr)
    · exact Or.inr hr
  · rw [e1, e7, e3]
    exact h5
  · rw [e2, e7, e3]
    exact h6

theorem syncDesignerFile_rest (now : Nat) (st : SyncState)
    (path : String) (pm : ParsedMarkdown) :
    (syncDesignerFile now st (path, pm)).store.games = st.store.games ∧
    (syncDesignerFile now st (path, pm)).store.studios
      = st.store.studios ∧
    (syncDesignerFile now st (path, pm)).store.publishers
      = st.store.publishers ∧
    (syncDesignerFile now st (path, pm)).store.gameDevelopers
      = st.store.gameDevelopers ∧
    (syncDesignerFile now st (path, pm)).store.gamePublishers
      = st.store.gamePublishers ∧
    (syncDesignerFile now st (path, pm)).store.publisherStudios
      = st.store.publisherStudios ∧
    (syncDesignerFile now st (path, pm)).store.relatedStudios
      = st.store.relatedStudios ∧
    (syncDesignerFile now st (path, pm)).refStudios = st.refStudios ∧
    (syncDesignerFile now st (path, pm)).refPublishers
      = st.refPublishers ∧
    (syncDesignerFile now st (path, pm)).refDesigners
      = st.refDesigners := by
  exact ⟨rfl, rfl, rfl, rfl, rfl, rfl, rfl, rfl, rfl, rfl⟩

theorem syncDesignerFile_exists_mono (now : Nat) (st : SyncState)
    (path : String) (pm : ParsedMarkdown) (slug : String)
    (h : designerSlugExists st.store.designers slug) :
    designerSlugExists
      (syncDesignerFile now st (path, pm)).store.designers slug := by
  obtain ⟨r, hr, hslug⟩ := h
  simp only [syncDesignerFile]
  cases hfind : findDesigner st.store.designers (slugFromPath path) with
  | none =>
    dsimp only
    exact ⟨r, List.mem_append_left _ hr, hslug⟩
  | some e =>
    dsimp only
    by_cases hch : designerChanges (slugFromPath path) e
        (designerRowOf now (slugFromPath path) path pm.sections) ≠ []
    · rw [if_pos hch]
      dsimp only
      by_cases hrs : r.slug = slugFromPath path
      · refine ⟨_, List.mem_map_of_mem _ hr, ?_⟩
        rw [if_pos hrs, ← hslug, hrs]
        rfl
      · refine ⟨_, List.mem_map_of_mem _ hr, ?_⟩
        rw [if_neg hrs]
        exact hslug
    · rw [if_neg hch]
      dsimp only
      exact ⟨r, hr, hslug⟩

theorem syncDesignerFile_refInv (now : Nat) (st : SyncState)
    (path : String) (pm : ParsedMarkdown) (h : RefInv st) :
    RefInv (syncDesignerFile now st (path, pm)) := by
  obtain ⟨h1, h2, h3, h4, h5, h6⟩ := h
  obtain ⟨e1, e2, e3, e4, e5, e6, e7, e8, e9, e10⟩ :=
    syncDesignerFile_rest now st path pm
  have hmono := syncDesignerFile_exists_mono now st path pm
  unfold RefInv
  rw [e1, e2, e3, e4, e5, e6, e7, e8, e9, e10]
  refine ⟨h1, h2, h3, h4, ?_, ?_⟩
  · intro g hg d hd hne
    rcases h5 g hg d hd hne with hr | hr
    · exact Or.inl hr
    · exact Or.inr (hmono _ hr)
  · intro r hr d hd hne
    rcases h6 r hr d hd hne with hr' | hr'
    · exact Or.inl hr'
    · exact Or.inr (hmono _ hr')

/-! ### Stub materialization: completion and preservation -/

theorem stubStudioStep_rest (now : Nat) (s : Store) (x : String) :
    (stubStudioStep now s x).games = s.games ∧
    (stubStudioStep now s x).publishers = s.publishers ∧
    (stubStudioStep now s x).designers = s.designers ∧
    (stubStudioStep now s x).gamePublishers = s.gamePublishers ∧
    (stubStudioStep now s x).publisherStudios = s.publisherStudios ∧
    (stubStudioStep now s x).relatedStudios = s.relatedStudios := by
  unfold stubStudioStep
  cases findStudio s.studios x <;> exact ⟨rfl, rfl, rfl, rfl, rfl, rfl⟩

theorem stubStudioStep_studios_mono (now : Nat) (s : Store) (x : String)
    (r : StudioRow) (h : r ∈ s.studios) :
    r ∈ (stubStudioStep now s x).studios := by
  unfold stubStudioStep
  cases findStudio s.studios x with
  | some _ => exact h
  | none => exact List.mem_append_left _ h

theorem stubStudiosPhase_studios_mono (now : Nat) :
    ∀ (refs : List String) (s : Store) (r : StudioRow),
      r ∈ s.studios → r ∈ (stubStudiosPhase now refs s).studios := by
  intro refs
  induction refs with
  | nil => intro s r h; exact h
  | cons x rest ih =>
    intro s r h
    exact ih (stubStudioStep now s x) r
      (stubStudioStep_studios_mono now s x r h)

/-- After the studio stub phase every pending studio slug has a row. -/
theorem stubStudiosPhase_complete (now : Nat) :
    ∀ (refs : List String) (s : Store), ∀ x ∈ refs,
      studioSlugExists (stubStudiosPhase now refs s).studios x := by
  intro refs
  induction refs with
  | nil => intro s x h; exact absurd h (List.not_mem_nil _)
  | cons y rest ih =>
    intro s x h
    rcases List.mem_cons.mp h with rfl | h
    · have hstep : studioSlugExists (stubStudioStep now s x).studios x := by
        unfold stubStudioStep
        cases hfind : findStudio s.studios x with
        | some e =>
          have hmem := List.mem_of_find?_eq_some hfind
          have hslug : e.slug = x := by
            have := List.find?_some hfind
            simpa using this
          exact ⟨e, hmem, hslug⟩
        | none =>
          exact ⟨_, List.mem_append_right _ (List.mem_singleton_self _), rfl⟩
      obtain ⟨r, hr, hslug⟩ := hstep
      exact ⟨r, stubStudiosPhase_studios_mono now rest _ r hr, hslug⟩
    · exact ih (stubStudioStep now s y) x h

/-- Rows survive the stub phase, so existence is monotone. -/
theorem stubStudiosPhase_exists_mono (now : Nat) (refs : List String)
    (s : Store) (slug : String) (h : studioSlugExists s.studios slug) :
    studioSlugExists (stubStudiosPhase now refs s).studios slug := by
  obtain ⟨r, hr, hslug⟩ := h
  exact ⟨r, stubStudiosPhase_studios_mono now refs s r hr, hslug⟩

theorem stubPublisherStep_rest (now : Nat) (s : Store) (x : String) :
    (stubPublisherStep now s x).games = s.games ∧
    (stubPublisherStep now s x).studios = s.studios ∧
    (stubPublisherStep now s x).designers = s.designers ∧
    (stubPublisherStep now s x).gamePublishers = s.gamePublishers ∧
    (stubPublisherStep now s x).publisherStudios = s.publisherStudios ∧
    (stubPublisherStep now s x).relatedStudios = s.relatedStudios := by
  unfold stubPublisherStep
  cases findPublisher s.publishers x <;> exact ⟨rfl, rfl, rfl, rfl, rfl, rfl⟩

theorem stubPublisherStep_pubs_mono (now : Nat) (s : Store) (x : String)
    (r : PublisherRow) (h : r ∈ s.publishers) :
    r ∈ (stubPublisherStep now s x).publishers := by
  unfold stubPublisherStep
  cases findPublisher s.publishers x with
  | some _ => exact h
  | none => exact List.mem_append_left _ h

theorem stubPublishersPhase_pubs_mono (now : Nat) :
    ∀ (refs : List String) (s : Store) (r : PublisherRow),
      r ∈ s.publishers → r ∈ (stubPublishersPhase now refs s).publishers := by
  intro refs
  induction refs with
  | nil => intro s r h; exact h
  | cons x rest ih =>
    intro s r h
    exact ih (stubPublisherStep now s x) r
      (stubPublisherStep_pubs_mono now s x r h)

theorem stubPublishersPhase_complete (now : Nat) :
    ∀ (refs : List String) (s : Store), ∀ x ∈ refs,
      pubSlugExists (stubPublishersPhase now refs s).publishers x := by
  intro refs
  induction refs with
  | nil => intro s x h; exact absurd h (List.not_mem_nil _)
  | cons y rest ih =>
    intro s x h
    rcases List.mem_cons.mp h with rfl | h
    · have hstep : pubSlugExists (stubPublisherStep now s x).publishers x := by
        unfold stubPublisherStep
        cases hfind : findPublisher s.publishers x with
        | some e =>
          have hmem := List.mem_of_find?_eq_some hfind
          have hslug : e.slug = x := by
            have := List.find?_some hfind
            simpa using this
          exact ⟨e, hmem, hslug⟩
        | none =>
          exact ⟨_, List.mem_append_right _ (List.mem_singleton_self _), rfl⟩
      obtain ⟨r, hr, hslug⟩ := hstep
      exact ⟨r, stubPublishersPhase_pubs_mono now rest _ r hr, hslug⟩
    · exact ih (stubPublisherStep now s y) x h

theorem stubPublishersPhase_exists_mono (now : Nat) (refs : List String)
    (s : Store) (slug : String) (h : pubSlugExists s.publishers slug) :
    pubSlugExists (stubPublishersPhase now refs s).publishers slug := by
  obtain ⟨r, hr, hslug⟩ := h
  exact ⟨r, stubPublishersPhase_pubs_mono now refs s r hr, hslug⟩

theorem stubDesignerStep_rest (now : Nat) (s : Store) (x : String) :
    (stubDesignerStep now s x).games = s.games ∧
    (stubDesignerStep now s x).studios = s.studios ∧
    (stubDesignerStep now s x).publishers = s.publishers ∧
    (stubDesignerStep now s x).gamePublishers = s.gamePublishers ∧
    (stubDesignerStep now s x).publisherStudios = s.publisherStudios ∧
    (stubDesignerStep now s x).relatedStudios = s.relatedStudios := by
  unfold stubDesignerStep
  cases findDesigner s.designers x <;> exact ⟨rfl, rfl, rfl, rfl, rfl, rfl⟩

theorem stubDesignerStep_des_mono (now : Nat) (s : Store) (x : String)
    (r : DesignerRow) (h : r ∈ s.designers) :
    r ∈ (stubDesignerStep now s x).designers := by
  unfold stubDesignerStep
  cases findDesigner s.designers x with
  | some _ => exact h
  | none => exact List.mem_append_left _ h

theorem stubDesignersPhase_des_mono (now : Nat) :
    ∀ (refs : List String) (s : Store) (r : DesignerRow),
      r ∈ s.designers → r ∈ (stubDesignersPhase now refs s).designers := by
  intro refs
  induction refs with
  | nil => intro s r h; exact h
  | cons x rest ih =>
    intro s r h
    exact ih (stubDesignerStep now s x) r
      (stubDesignerStep_des_mono now s x r h)

theorem stubDesignersPhase_complete (now : Nat) :
    ∀ (refs : List String) (s : Store), ∀ x ∈ refs,
      designerSlugExists (stubDesignersPhase now refs s).designers x := by
  intro refs
  induction refs with
  | nil => intro s x h; exact absurd h (List.not_mem_nil _)
  | cons y rest ih =>
    intro s x h
    rcases List.mem_cons.mp h with rfl | h
    · have hstep : designerSlugExists
          (stubDesignerStep now s x).designers x := by
        unfold stubDesignerStep
        cases hfind : findDesigner s.designers x with
        | some e =>
          have hmem := List.mem_of_find?_eq_some hfind
          have hslug : e.slug = x := by
            have := List.find?_some hfind
            simpa using this
          exact ⟨e, hmem, hslug⟩
        | none =>
          exact ⟨_, List.mem_append_right _ (List.mem_singleton_self _), rfl⟩
      obtain ⟨r, hr, hslug⟩ := hstep
      exact ⟨r, stubDesignersPhase_des_mono now rest _ r hr, hslug⟩
    · exact ih (stubDesignerStep now s y) x h

theorem stubDesignersPhase_exists_mono (now : Nat) (refs : List String)
    (s : Store) (slug : String) (h : designerSlugExists s.designers slug) :
    designerSlugExists (stubDesignersPhase now refs s).designers slug := by
  obtain ⟨r, hr, hslug⟩ := h
  exact ⟨r, stubDesignersPhase_des_mono now refs s r hr, hslug⟩

/-! ### Phase-level preservation of the referential invariant -/

theorem gamePhase_refInv (now : Nat) :
    ∀ (files : List (String × ParsedMarkdown)) (st : SyncState),
      RefInv st → RefInv (files.foldl (syncGameFile now) st) := by
  intro files
  induction files with
  | nil => intro st h; exact h
  | cons f rest ih =>
    intro st h
    obtain ⟨path, pm⟩ := f
    rw [List.foldl_cons]
    exact ih _ (syncGameFile_refInv now st path pm h)

theorem csvPhase_refInv (now : Nat) :
    ∀ (gs : List ParsedCsvGame) (st : SyncState),
      RefInv st → RefInv (gs.foldl (syncCsvGame now) st) := by
  intro gs
  induction gs with
  | nil => intro st h; exact h
  | cons g rest ih =>
    intro st h
    rw [List.foldl_cons]
    exact ih _ (syncCsvGame_refInv now st g h)

theorem studioPhase_refInv (now : Nat) :
    ∀ (files : List (String × ParsedMarkdown)) (st : SyncState),
      RefInv st → RefInv (files.foldl (syncStudioFile now) st) := by
  intro files
  induction files with
  | nil => intro st h; exact h
  | cons f rest ih =>
    intro st h
    obtain ⟨path, pm⟩ := f
    rw [List.foldl_cons]
    exact ih _ (syncStudioFile_refInv now st path pm h)

theorem pubPhase_refInv (now : Nat) :
    ∀ (files : List (String × ParsedMarkdown)) (st : SyncState),
      RefInv st → RefInv (files.foldl (syncPublisherFile now) st) := by
  intro files
  induction files with
  | nil => intro st h; exact h
  | cons f rest ih =>
    intro st h
    obtain ⟨path, pm⟩ := f
    rw [List.foldl_cons]
    exact ih _ (syncPublisherFile_refInv now st path pm h)

theorem designerPhase_refInv (now : Nat) :
    ∀ (files : List (String × ParsedMarkdown)) (st : SyncState),
      RefInv st → RefInv (files.foldl (syncDesignerFile now) st) := by
  intro files
  induction files with
  | nil => intro st h; exact h
  | cons f rest ih =>
    intro st h
    obtain ⟨path, pm⟩ := f
    rw [List.foldl_cons]
    exact ih _ (syncDesignerFile_refInv now st path pm h)

theorem refInv_initState_empty (c : Corpus) :
    RefInv (initState c emptyStore) := by
  refine ⟨?_, ?_, ?_, ?_, ?_, ?_⟩ <;>
    intro p hp <;> exact absurd hp (List.not_mem_nil _)

theorem syncPhases_refInv (now : Nat) (c : Corpus) :
    RefInv (syncPhases now c emptyStore) := by
  unfold syncPhases
  exact designerPhase_refInv now _ _ (pubPhase_refInv now _ _
    (studioPhase_refInv now _ _ (csvPhase_refInv now _ _
      (gamePhase_refInv now _ _ (refInv_initState_empty c)))))

/-! ### Remaining component equalities of the stub phases -/

theorem stubStudiosPhase_rest (now : Nat) :
    ∀ (refs : List String) (s : Store),
      (stubStudiosPhase now refs s).games = s.games ∧
      (stubStudiosPhase now refs s).publishers = s.publishers ∧
      (stubStudiosPhase now refs s).designers = s.designers ∧
      (stubStudiosPhase now refs s).gamePublishers = s.gamePublishers ∧
      (stubStudiosPhase now refs s).publisherStudios
        = s.publisherStudios ∧
      (stubStudiosPhase now refs s).relatedStudios = s.relatedStudios := by
  intro refs
  induction refs with
  | nil => intro s; exact ⟨rfl, rfl, rfl, rfl, rfl, rfl⟩
  | cons x rest ih =>
    intro s
    obtain ⟨g1, p1, d1, gp1, ps1, rs1⟩ := stubStudioStep_rest now s x
    have h := ih (stubStudioStep now s x)
    unfold stubStudiosPhase at h ⊢
    rw [List.foldl_cons]
    exact ⟨h.1.trans g1, h.2.1.trans p1, h.2.2.1.trans d1,
      h.2.2.2.1.trans gp1, h.2.2.2.2.1.trans ps1, h.2.2.2.2.2.trans rs1⟩

theorem stubPublishersPhase_rest (now : Nat) :
    ∀ (refs : List String) (s : Store),
      (stubPublishersPhase now refs s).games = s.games ∧
      (stubPublishersPhase now refs s).studios = s.studios ∧
      (stubPublishersPhase now refs s).designers = s.designers ∧
      (stubPublishersPhase now refs s).gamePublishers
        = s.gamePublishers ∧
      (stubPublishersPhase now refs s).publisherStudios
        = s.publisherStudios ∧
      (stubPublishersPhase now refs s).relatedStudios
        = s.relatedStudios := by
  intro refs
  induction refs with
  | nil => intro s; exact ⟨rfl, rfl, rfl, rfl, rfl, rfl⟩
  | cons x rest ih =>
    intro s
    obtain ⟨g1, p1, d1, gp1, ps1, rs1⟩ := stubPublisherStep_rest now s x
    have h := ih (stubPublisherStep now s x)
    unfold stubPublishersPhase at h ⊢
    rw [List.foldl_cons]
    exact ⟨h.1.trans g1, h.2.1.trans p1, h.2.2.1.trans d1,
      h.2.2.2.1.trans gp1, h.2.2.2.2.1.trans ps1, h.2.2.2.2.2.trans rs1⟩

theorem stubDesignersPhase_rest (now : Nat) :
    ∀ (refs : List String) (s : Store),
      (stubDesignersPhase now refs s).games = s.games ∧
      (stubDesignersPhase now refs s).studios = s.studios ∧
      (stubDesignersPhase now refs s).publishers = s.publishers ∧
      (stubDesignersPhase now refs s).gamePublishers
        = s.gamePublishers ∧
      (stubDesignersPhase now refs s).publisherStudios
        = s.publisherStudios ∧
      (stubDesignersPhase now refs s).relatedStudios
        = s.relatedStudios := by
  intro refs
  induction refs with
  | nil => intro s; exact ⟨rfl, rfl, rfl, rfl, rfl, rfl⟩
  | cons x rest ih =>
    intro s
    obtain ⟨g1, p1, d1, gp1, ps1, rs1⟩ := stubDesignerStep_rest now s x
    have h := ih (stubDesignerStep now s x)
    unfold stubDesignersPhase at h ⊢
    rw [List.foldl_cons]
    exact ⟨h.1.trans g1, h.2.1.trans p1, h.2.2.1.trans d1,
      h.2.2.2.1.trans gp1, h.2.2.2.2.1.trans ps1, h.2.2.2.2.2.trans rs1⟩

/-- A pending studio slug with no row yet gets exactly the minimal stub
row. -/
theorem stubStudiosPhase_stub_mem (now : Nat) :
    ∀ (refs : List String) (s : Store) (x : String), x ∈ refs →
      ¬ studioSlugExists s.studios x →
      stubStudioRow now x ∈ (stubStudiosPhase now refs s).studios := by
  intro refs
  induction refs with
  | nil => intro s x h; exact absurd h (List.not_mem_nil _)
  | cons y rest ih =>
    intro s x hmem hnone
    have hins : ¬ studioSlugExists s.studios x →
        stubStudioRow now x ∈ (stubStudioStep now s x).studios := by
      intro hn
      unfold stubStudioStep
      have hfind : findStudio s.studios x = none := by
        unfold findStudio
        rw [List.find?_eq_none]
        intro r hr
        simp only [decide_eq_true_eq]
        exact fun hslug => hn ⟨r, hr, hslug⟩
      rw [hfind]
      exact List.mem_append_right _ (List.mem_singleton_self _)
    rcases List.mem_cons.mp hmem with rfl | hmem'
    · exact stubStudiosPhase_studios_mono now rest _ _ (hins hnone)
    · by_cases hxy : x = y
      · subst hxy
        exact stubStudiosPhase_studios_mono now rest _ _ (hins hnone)
      · refine ih (stubStudioStep now s y) x hmem' ?_
        intro hex
        apply hnone
        obtain ⟨r, hr, hslug⟩ := hex
        unfold stubStudioStep at hr
        cases hfind : findStudio s.studios y with
        | some e =>
          rw [hfind] at hr
          exact ⟨r, hr, hslug⟩
        | none =>
          rw [hfind] at hr
          rcases List.mem_append.mp hr with hr | hr
          · exact ⟨r, hr, hslug⟩
          · rw [List.mem_singleton.mp hr] at hslug
            exact absurd hslug.symm hxy

theorem stubPublishersPhase_stub_mem (now : Nat) :
    ∀ (refs : List String) (s : Store) (x : String), x ∈ refs →
      ¬ pubSlugExists s.publishers x →
      stubPublisherRow now x ∈
        (stubPublishersPhase now refs s).publishers := by
  intro refs
  induction refs with
  | nil => intro s x h; exact absurd h (List.not_mem_nil _)
  | cons y rest ih =>
    intro s x hmem hnone
    have hins : ¬ pubSlugExists s.publishers x →
        stubPublisherRow now x ∈ (stubPublisherStep now s x).publishers := by
      intro hn
      unfold stubPublisherStep
      have hfind : findPublisher s.publishers x = none := by
        unfold findPublisher
        rw [List.find?_eq_none]
        intro r hr
        simp only [decide_eq_true_eq]
        exact fun hslug => hn ⟨r, hr, hslug⟩
      rw [hfind]
      exact List.mem_append_right _ (List.mem_singleton_self _)
    rcases List.mem_cons.mp hmem with rfl | hmem'
    · exact stubPublishersPhase_pubs_mono now rest _ _ (hins hnone)
    · by_cases hxy : x = y
      · subst hxy
        exact stubPublishersPhase_pubs_mono now rest _ _ (hins hnone)
      · refine ih (stubPublisherStep now s y) x hmem' ?_
        intro hex
        apply hnone
        obtain ⟨r, hr, hslug⟩ := hex
        unfold stubPublisherStep at hr
        cases hfind : findPublisher s.publishers y with
        | some e =>
          rw [hfind] at hr
          exact ⟨r, hr, hslug⟩
        | none =>
          rw [hfind] at hr
          rcases List.mem_append.mp hr with hr | hr
          · exact ⟨r, hr, hslug⟩
          · rw [List.mem_singleton.mp hr] at hslug
            exact absurd hslug.symm hxy

theorem stubDesignersPhase_stub_mem (now : Nat) :
    ∀ (refs : List String) (s : Store) (x : String), x ∈ refs →
      ¬ designerSlugExists s.designers x →
      stubDesignerRow now x ∈
        (stubDesignersPhase now refs s).designers := by
  intro refs
  induction refs with
  | nil => intro s x h; exact absurd h (List.not_mem_nil _)
  | cons y rest ih =>
    intro s x hmem hnone
    have hins : ¬ designerSlugExists s.designers x →
        stubDesignerRow now x ∈ (stubDesignerStep now s x).designers := by
      intro hn
      unfold stubDesignerStep
      have hfind : findDesigner s.designers x = none := by
        unfold findDesigner
        rw [List.find?_eq_none]
        intro r hr
        simp only [decide_eq_true_eq]
        exact fun hslug => hn ⟨r, hr, hslug⟩
      rw [hfind]
      exact List.mem_append_right _ (List.mem_singleton_self _)
    rcases List.mem_cons.mp hmem with rfl | hmem'
    · exact stubDesignersPhase_des_mono now rest _ _ (hins hnone)
    · by_cases hxy : x = y
      · subst hxy
        exact stubDesignersPhase_des_mono now rest _ _ (hins hnone)
      · refine ih (stubDesignerStep now s y) x hmem' ?_
        intro hex
        apply hnone
        obtain ⟨r, hr, hslug⟩ := hex
        unfold stubDesignerStep at hr
        cases hfind : findDesigner s.designers y with
        | some e =>
          rw [hfind] at hr
          exact ⟨r, hr, hslug⟩
        | none =>
          rw [hfind] at hr
          rcases List.mem_append.mp hr with hr | hr
          · exact ⟨r, hr, hslug⟩
          · rw [List.mem_singleton.mp hr] at hslug
            exact absurd hslug.symm hxy

/-- Every studio row after the stub phase is an old row or a stub row. -/
theorem stubStudiosPhase_studios_sub (now : Nat) :
    ∀ (refs : List String) (s : Store),
      ∀ r ∈ (stubStudiosPhase now refs s).studios,
        r ∈ s.studios ∨ ∃ x, r = stubStudioRow now x := by
  intro refs
  induction refs with
  | nil => intro s r h; exact Or.inl h
  | cons y rest ih =>
    intro s r h
    rcases ih (stubStudioStep now s y) r h with h' | h'
    · unfold stubStudioStep at h'
      cases hfind : findStudio s.studios y with
      | some e =>
        rw [hfind] at h'
        exact Or.inl h'
      | none =>
        rw [hfind] at h'
        rcases List.mem_append.mp h' with h'' | h''
        · exact Or.inl h''
        · exact Or.inr ⟨y, List.mem_singleton.mp h''⟩
    · exact Or.inr h'

/-- A corpus with a single studio document whose `games` list names a game
that has no document and no catalog row. -/
def c1Corpus : Corpus :=
  { gameFiles := []
    csv := some ""
    studioFiles := [("lib/studios/S.md",
      { frontmatter :=
          [("class", FmVal.str "studio"),
           ("games", FmVal.list ["[[Ghost-Game]]"])]
        sections := [] })]
    publisherFiles := []
    designerFiles := [] }

/-- **C1 counterexample.**  A studio's `games` list produces a
`gameDevelopers` junction row whose game slug has no row in the games
table: the engine records pending references only for studios, publishers
and designers, never for games, so the junction row dangles after a full
run. -/
theorem c1_counterexample_dangling_game :
    ("Ghost-Game", "S") ∈
      (syncAllState 0 c1Corpus emptyStore).store.gameDevelopers ∧
    (syncAllState 0 c1Corpus emptyStore).store.games = [] := by
  refine ⟨by decide, by decide⟩

/-- **C1 (amended).**  After a full sync run from an empty store, every
*studio, publisher or designer* slug referenced by any junction row or
truthy director field has a corresponding row in its entity table, and
every slug collected into a pending-reference set that still has no row
after phases 2–4 receives exactly the minimal stub row
(`sourceFile = "(referenced)"`, all content fields absent).  Game slugs
referenced from a studio's or publisher's `games` list are the exception:
no pending set records them, so such a junction row may dangle (see the
counterexample). -/
theorem c1_amended_referential_completeness (now : Nat) (c : Corpus) :
    (∀ p ∈ (syncAllState now c emptyStore).store.gameDevelopers,
      studioSlugExists (syncAllState now c emptyStore).store.studios p.2) ∧
    (∀ p ∈ (syncAllState now c emptyStore).store.gamePublishers,
      pubSlugExists (syncAllState now c emptyStore).store.publishers p.2) ∧
    (∀ p ∈ (syncAllState now c emptyStore).store.publisherStudios,
      pubSlugExists (syncAllState now c emptyStore).store.publishers p.1 ∧
      studioSlugExists (syncAllState now c emptyStore).store.studios p.2) ∧
    (∀ p ∈ (syncAllState now c emptyStore).store.relatedStudios,
      studioSlugExists (syncAllState now c emptyStore).store.studios p.1 ∧
      studioSlugExists (syncAllState now c emptyStore).store.studios p.2) ∧
    (∀ g ∈ (syncAllState now c emptyStore).store.games,
      ∀ d, g.director = some d → d ≠ "" →
        designerSlugExists
          (syncAllState now c emptyStore).store.designers d) ∧
    (∀ r ∈ (syncAllState now c emptyStore).store.studios,
      ∀ d, r.director = some d → d ≠ "" →
        designerSlugExists
          (syncAllState now c emptyStore).store.designers d) ∧
    (∀ x ∈ (syncPhases now c emptyStore).refStudios,
      ¬ studioSlugExists (syncPhases now c emptyStore).store.studios x →
      stubStudioRow now x ∈ (syncAllState now c emptyStore).store.studios) ∧
    (∀ x ∈ (syncPhases now c emptyStore).refPublishers,
      ¬ pubSlugExists (syncPhases now c emptyStore).store.publishers x →
      stubPublisherRow now x ∈
        (syncAllState now c emptyStore).store.publishers) ∧
    (∀ x ∈ (syncPhases now c emptyStore).refDesigners,
      ¬ designerSlugExists (syncPhases now c emptyStore).store.designers x →
      stubDesignerRow now x ∈
        (syncAllState now c emptyStore).store.designers) := by
  obtain ⟨h1, h2, h3, h4, h5, h6⟩ := syncPhases_refInv now c
  have hstore : (syncAllState now c emptyStore).store =
      stubDesignersPhase now (syncPhases now c emptyStore).refDesigners
        (stubPublishersPhase now (syncPhases now c emptyStore).refPublishers
          (stubStudiosPhase now (syncPhases now c emptyStore).refStudios
            (syncPhases now c emptyStore).store)) := rfl
  set st5 := syncPhases now c emptyStore with hst5
  set s1 := stubStudiosPhase now st5.refStudios st5.store with hs1
  set s2 := stubPublishersPhase now st5.refPublishers s1 with hs2
  set s3 := stubDesignersPhase now st5.refDesigners s2 with hs3
  have e_gd : s3.gameDevelopers = st5.store.gameDevelopers := by
    rw [hs3, hs2, hs1, stubDesignersPhase_gd, stubPublishersPhase_gd,
      stubStudiosPhase_gd]
  have e_gp : s3.gamePublishers = st5.store.gamePublishers := by
    rw [hs3, hs2, hs1]
    rw [(stubDesignersPhase_rest now _ _).2.2.2.1,
      (stubPublishersPhase_rest now _ _).2.2.2.1,
      (stubStudiosPhase_rest now _ _).2.2.2.1]
  have e_ps : s3.publisherStudios = st5.store.publisherStudios := by
    rw [hs3, hs2, hs1]
    rw [(stubDesignersPhase_rest now _ _).2.2.2.2.1,
      (stubPublishersPhase_rest now _ _).2.2.2.2.1,
      (stubStudiosPhase_rest now _ _).2.2.2.2.1]
  have e_rs : s3.relatedStudios = st5.store.relatedStudios := by
    rw [hs3, hs2, hs1]
    rw [(stubDesignersPhase_rest now _ _).2.2.2.2.2,
      (stubPublishersPhase_rest now _ _).2.2.2.2.2,
      (stubStudiosPhase_rest now _ _).2.2.2.2.2]
  have e_games : s3.games = st5.store.games := by
    rw [hs3, hs2, hs1]
    rw [(stubDesignersPhase_rest now _ _).1,
      (stubPublishersPhase_rest now _ _).1,
      (stubStudiosPhase_rest now _ _).1]
  have e_studios : s3.studios = s1.studios := by
    rw [hs3, hs2]
    rw [(stubDesignersPhase_rest now _ _).2.1,
      (stubPublishersPhase_rest now _ _).2.1]
  have e_pubs : s3.publishers = s2.publishers := by
    rw [hs3]
    rw [(stubDesignersPhase_rest now _ _).2.2.1]
  have e_pubs1 : s1.publishers = st5.store.publishers := by
    rw [hs1]
    rw [(stubStudiosPhase_rest now _ _).2.1]
  have e_des2 : s2.designers = st5.store.designers := by
    rw [hs2, hs1]
    rw [(stubPublishersPhase_rest now _ _).2.2.1,
      (stubStudiosPhase_rest now _ _).2.2.1]
  have hstudioFin : ∀ y, y ∈ st5.refStudios ∨
      studioSlugExists st5.store.studios y →
      studioSlugExists s3.studios y := by
    intro y hy
    rw [e_studios, hs1]
    rcases hy with hy | hy
    · exact stubStudiosPhase_complete now _ _ y hy
    · exact stubStudiosPhase_exists_mono now _ _ y hy
  have hpubFin : ∀ y, y ∈ st5.refPublishers ∨
      pubSlugExists st5.store.publishers y →
      pubSlugExists s3.publishers y := by
    intro y hy
    rw [e_pubs, hs2]
    rcases hy with hy | hy
    · exact stubPublishersPhase_complete now _ _ y hy
    · exact stubPublishersPhase_exists_mono now _ _ y (e_pubs1 ▸ hy)
  have hdesFin : ∀ y, y ∈ st5.refDesigners ∨
      designerSlugExists st5.store.designers y →
      designerSlugExists s3.designers y := by
    intro y hy
    rw [hs3]
    rcases hy with hy | hy
    · exact stubDesignersPhase_complete now _ _ y hy
    · exact stubDesignersPhase_exists_mono now _ _ y (e_des2 ▸ hy)
  rw [hstore]
  refine ⟨?_, ?_, ?_, ?_, ?_, ?_, ?_, ?_, ?_⟩
  · intro p hp
    rw [e_gd] at hp
    exact hstudioFin p.2 (h1 p hp)
  · intro p hp
    rw [e_gp] at hp
    exact hpubFin p.2 (h2 p hp)
  · intro p hp
    rw [e_ps] at hp
    obtain ⟨hpe, hse⟩ := h3 p hp
    exact ⟨hpubFin p.1 (Or.inr hpe), hstudioFin p.2 hse⟩
  · intro p hp
    rw [e_rs] at hp
    obtain ⟨hpe, hse⟩ := h4 p hp
    exact ⟨hstudioFin p.1 (Or.inr hpe), hstudioFin p.2 hse⟩
  · intro g hg d hd hne
    rw [e_games] at hg
    exact hdesFin d (h5 g hg d hd hne)
  · intro r hr d hd hne
    rw [e_studios, hs1] at hr
    rcases stubStudiosPhase_studios_sub now _ _ r hr with hold | ⟨x, rfl⟩
    · exact hdesFin d (h6 r hold d hd hne)
    · exact absurd hd (by simp [stubStudioRow])
  · intro x hx hnone
    rw [e_studios, hs1]
    exact stubStudiosPhase_stub_mem now _ _ x hx hnone
  · intro x hx hnone
    rw [e_pubs, hs2]
    exact stubPublishersPhase_stub_mem now _ _ x hx (e_pubs1 ▸ hnone)
  · intro x hx hnone
    rw [hs3]
    exact stubDesignersPhase_stub_mem now _ _ x hx (e_des2 ▸ hnone)

theorem c1_amended_witness :
    studioSlugExists (syncAllState 0 c6Corpus emptyStore).store.studios
      "StudioA" :=
  (c1_amended_referential_completeness 0 c6Corpus).1 ("G", "StudioA")
    (by decide)

/-! ## C2: idempotence

The second run against the store produced by a first full run creates and
updates nothing and reports no changes, and leaves the store unchanged
(entity tables literally; junction tables as the sets their composite
primary keys make them).  The development characterizes the first run's
tables and shows every phase of the second run is a no-op on them. -/

/-- The row a game document contributes: the full row when it validates,
the stub otherwise. -/
def docGameRow (now : Nat) (f : String × ParsedMarkdown) : GameRow :=
  match gameFrontmatterSchema f.2.frontmatter with
  | some fm => gameRowOf now (docSlug f) f.1 fm f.2.sections
  | none => stubGameRow now (docSlug f) f.1

theorem docGameRow_slug (now : Nat) (f : String × ParsedMarkdown) :
    (docGameRow now f).slug = docSlug f := by
  unfold docGameRow
  cases gameFrontmatterSchema f.2.frontmatter <;> rfl

/-- `find?` by slug returns the unique row carrying it. -/
theorem find?_slug_unique {α : Type} (slugOf : α → String) :
    ∀ (rows : List α) (slug : String) (r : α),
      (rows.map slugOf).Nodup → r ∈ rows → slugOf r = slug →
      rows.find? (fun x => slugOf x = slug) = some r := by
  intro rows
  induction rows with
  | nil => intro slug r _ hr; exact absurd hr (List.not_mem_nil _)
  | cons a rest ih =>
    intro slug r hnd hr hs
    rw [List.map_cons, List.nodup_cons] at hnd
    by_cases ha : slugOf a = slug
    · rw [List.find?_cons_of_pos _ (by simpa using ha)]
      rcases List.mem_cons.mp hr with rfl | hr'
      · rfl
      · exfalso
        apply hnd.1
        have hmem : slugOf r ∈ List.map slugOf rest :=
          List.mem_map_of_mem slugOf hr'
        rw [hs, ← ha] at hmem
        exact hmem
    · rw [List.find?_cons_of_neg _ (by simpa using ha)]
      rcases List.mem_cons.mp hr with rfl | hr'
      · exact absurd hs ha
      · exact ih slug r hnd.2 hr' hs

/-- Fold-level: the game loop from a state whose games table misses every
document slug simply appends one row per document. -/
theorem gamePhase_games_from (now : Nat) :
    ∀ (files : List (String × ParsedMarkdown)) (st : SyncState),
      (files.map docSlug).Nodup →
      (∀ f ∈ files, ¬ gameSlugExists st.store.games (docSlug f)) →
      (files.foldl (syncGameFile now) st).store.games
        = st.store.games ++ files.map (docGameRow now) := by
  intro files
  induction files with
  | nil => intro st _ _; simp
  | cons f rest ih =>
    intro st hnd hdisj
    rw [List.map_cons, List.nodup_cons] at hnd
    obtain ⟨path, pm⟩ := f
    have hfind : findGame st.store.games (slugFromPath path) = none := by
      unfold findGame
      rw [List.find?_eq_none]
      intro r hr
      simp only [decide_eq_true_eq]
      exact fun hslug =>
        hdisj (path, pm) (List.mem_cons_self _ _) ⟨r, hr, hslug⟩
    have hstep : (syncGameFile now st (path, pm)).store.games
        = st.store.games ++ [docGameRow now (path, pm)] := by
      cases hv : gameFrontmatterSchema pm.frontmatter with
      | none =>
        simp only [syncGameFile, syncStubGame, hv, hfind, docGameRow, docSlug]
      | some fm =>
        simp only [syncGameFile, hv, hfind, docGameRow, docSlug]
    rw [List.foldl_cons, ih _ hnd.2 ?_, hstep, List.map_cons]
    · rw [List.append_assoc]
      rfl
    · intro g hg hex
      obtain ⟨r, hr, hslug⟩ := hex
      rw [hstep] at hr
      rcases List.mem_append.mp hr with hr | hr
      · exact hdisj g (List.mem_cons_of_mem _ hg) ⟨r, hr, hslug⟩
      · rw [List.mem_singleton.mp hr] at hslug
        rw [docGameRow_slug] at hslug
        exact hnd.1 (hslug ▸ List.mem_map_of_mem docSlug hg)

/-- Fold-level component preservation of the game loop. -/
theorem gamePhase_rest (now : Nat) :
    ∀ (files : List (String × ParsedMarkdown)) (st : SyncState),
      (files.foldl (syncGameFile now) st).store.studios
        = st.store.studios ∧
      (files.foldl (syncGameFile now) st).store.publishers
        = st.store.publishers ∧
      (files.foldl (syncGameFile now) st).store.designers
        = st.store.designers ∧
      (files.foldl (syncGameFile now) st).store.publisherStudios
        = st.store.publisherStudios ∧
      (files.foldl (syncGameFile now) st).store.relatedStudios
        = st.store.relatedStudios := by
  intro files
  induction files with
  | nil => intro st; exact ⟨rfl, rfl, rfl, rfl, rfl⟩
  | cons f rest ih =>
    intro st
    obtain ⟨path, pm⟩ := f
    obtain ⟨a1, a2, a3, a4, a5⟩ := ih (syncGameFile now st (path, pm))
    rw [List.foldl_cons]
    exact ⟨a1.trans (syncGameFile_studios now st path pm),
      a2.trans (syncGameFile_publishers now st path pm),
      a3.trans (syncGameFile_designers now st path pm),
      a4.trans (syncGameFile_ps now st path pm),
      a5.trans (syncGameFile_rs now st path pm)⟩

/-- The two full rows a document produces at different timestamps have no
comparable change. -/
theorem gameChanges_same_doc (t1 t2 : Nat) (slug path : String)
    (fm : GameFrontmatter) (secs : List (String × String)) :
    gameChanges slug (gameRowOf t1 slug path fm secs)
      (gameRowOf t2 slug path fm secs) = [] := by
  simp [gameChanges, mkChange, gameRowOf]

/-- Second-run game step: when the store already holds the exact row the
document produces (up to timestamp), the step writes nothing and keeps
the created/updated counters and the change list. -/
theorem run2_syncGameFile (t1 now : Nat) (st : SyncState)
    (path : String) (pm : ParsedMarkdown)
    (hnd : (st.store.games.map GameRow.slug).Nodup)
    (hhave : docGameRow t1 (path, pm) ∈ st.store.games) :
    (syncGameFile now st (path, pm)).store.games = st.store.games ∧
    (syncGameFile now st (path, pm)).report.created = st.report.created ∧
    (syncGameFile now st (path, pm)).report.updated = st.report.updated ∧
    (syncGameFile now st (path, pm)).report.changes = st.report.changes := by
  have hfind : findGame st.store.games (slugFromPath path)
      = some (docGameRow t1 (path, pm)) := by
    unfold findGame
    exact find?_slug_unique (fun r => r.slug) st.store.games
      (slugFromPath path) _ hnd hhave (docGameRow_slug t1 (path, pm))
  cases hv : gameFrontmatterSchema pm.frontmatter with
  | none =>
    rw [docGameRow] at hfind
    rw [hv] at hfind
    simp only [syncGameFile, syncStubGame, hv, hfind]
    simp
  | some fm =>
    rw [docGameRow] at hfind
    rw [hv] at hfind
    have hch : gameChanges (slugFromPath path)
        (gameRowOf t1 (docSlug (path, pm)) (path, pm).1 fm
          (path, pm).2.sections)
        (gameRowOf now (slugFromPath path) path fm pm.sections) = [] :=
      gameChanges_same_doc t1 now (slugFromPath path) path fm pm.sections
    simp only [syncGameFile, hv, hfind, hch]
    simp

/-- Second-run game phase: the games table and the created/updated/change
accounting are untouched. -/
theorem run2_gamePhase (t1 now : Nat) :
    ∀ (files : List (String × ParsedMarkdown)) (st : SyncState),
      (st.store.games.map GameRow.slug).Nodup →
      (∀ f ∈ files, docGameRow t1 f ∈ st.store.games) →
      (files.foldl (syncGameFile now) st).store.games
        = st.store.games ∧
      (files.foldl (syncGameFile now) st).report.created
        = st.report.created ∧
      (files.foldl (syncGameFile now) st).report.updated
        = st.report.updated ∧
      (files.foldl (syncGameFile now) st).report.changes
        = st.report.changes := by
  intro files
  induction files with
  | nil => intro st _ _; exact ⟨rfl, rfl, rfl, rfl⟩
  | cons f rest ih =>
    intro st hnd hhave
    obtain ⟨path, pm⟩ := f
    obtain ⟨g1, c1, u1, ch1⟩ := run2_syncGameFile t1 now st path pm hnd
      (hhave (path, pm) (List.mem_cons_self _ _))
    rw [List.foldl_cons]
    obtain ⟨g2, c2, u2, ch2⟩ := ih (syncGameFile now st (path, pm))
      (by rw [g1]; exact hnd)
      (fun g hg => by rw [g1]; exact hhave g (List.mem_cons_of_mem _ hg))
    exact ⟨g2.trans g1, c2.trans c1, u2.trans u1, ch2.trans ch1⟩

theorem syncCsvGame_games_mono (now : Nat) (st : SyncState)
    (g : ParsedCsvGame) (r : GameRow) (h : r ∈ st.store.games) :
    r ∈ (syncCsvGame now st g).store.games := by
  unfold syncCsvGame
  cases findGame st.store.games g.slug with
  | some _ => exact h
  | none => exact List.mem_append_left _ h

theorem csvPhase_games_mono (now : Nat) :
    ∀ (gs : List ParsedCsvGame) (st : SyncState) (r : GameRow),
      r ∈ st.store.games →
      r ∈ (gs.foldl (syncCsvGame now) st).store.games := by
  intro gs
  induction gs with
  | nil => intro st r h; exact h
  | cons g rest ih =>
    intro st r h
    exact ih _ r (syncCsvGame_games_mono now st g r h)

/-- After the catalog phase, every catalog slug has a games row. -/
theorem csvPhase_exists_after (now : Nat) :
    ∀ (gs : List ParsedCsvGame) (st : SyncState), ∀ e ∈ gs,
      gameSlugExists ((gs.foldl (syncCsvGame now) st).store.games)
        e.slug := by
  intro gs
  induction gs with
  | nil => intro st e h; exact absurd h (List.not_mem_nil _)
  | cons g rest ih =>
    intro st e h
    rcases List.mem_cons.mp h with rfl | h'
    · have hstep : gameSlugExists (syncCsvGame now st e).store.games
          e.slug := by
        unfold syncCsvGame
        cases hfind : findGame st.store.games e.slug with
        | some r =>
          have hmem := List.mem_of_find?_eq_some hfind
          have hslug : r.slug = e.slug := by
            have := List.find?_some hfind
            simpa using this
          exact ⟨r, hmem, hslug⟩
        | none =>
          exact ⟨_, List.mem_append_right _ (List.mem_singleton_self _), rfl⟩
      obtain ⟨r, hr, hslug⟩ := hstep
      exact ⟨r, csvPhase_games_mono now rest _ r hr, hslug⟩
    · exact ih (syncCsvGame now st g) e h'

/-- A second catalog pass over a store that already holds every catalog
slug is the identity. -/
theorem csvPhase_noop (now : Nat) :
    ∀ (gs : List ParsedCsvGame) (st : SyncState),
      (∀ e ∈ gs, gameSlugExists st.store.games e.slug) →
      gs.foldl (syncCsvGame now) st = st := by
  intro gs
  induction gs with
  | nil => intro st _; rfl
  | cons g rest ih =>
    intro st h
    have hstep : syncCsvGame now st g = st := by
      obtain ⟨r, hr, hslug⟩ := h g (List.mem_cons_self _ _)
      unfold syncCsvGame
      cases hfind : findGame st.store.games g.slug with
      | some _ => rfl
      | none =>
        exfalso
        unfold findGame at hfind
        rw [List.find?_eq_none] at hfind
        exact absurd hslug (by simpa using hfind r hr)
    rw [List.foldl_cons, hstep,
      ih st (fun e he => h e (List.mem_cons_of_mem _ he))]

/-- The catalog phase keeps game slugs duplicate-free. -/
theorem csvPhase_games_nodup (now : Nat) :
    ∀ (gs : List ParsedCsvGame) (st : SyncState),
      (st.store.games.map GameRow.slug).Nodup →
      (((gs.foldl (syncCsvGame now) st).store.games).map
        GameRow.slug).Nodup := by
  intro gs
  induction gs with
  | nil => intro st h; exact h
  | cons g rest ih =>
    intro st h
    refine ih _ ?_
    unfold syncCsvGame
    cases hfind : findGame st.store.games g.slug with
    | some _ => exact h
    | none =>
      dsimp only
      rw [List.map_append]
      rw [List.nodup_append]
      refine ⟨h, List.nodup_singleton _, ?_⟩
      intro x hx hx2
      have hxg : x = g.slug := by simpa using hx2
      unfold findGame at hfind
      rw [List.find?_eq_none] at hfind
      rcases List.mem_map.mp hx with ⟨r, hr, rfl⟩
      exact absurd hxg (by simpa using hfind r hr)

/-! ### Entity rows of the studio / publisher / designer phases -/

/-- The studio row a document contributes (validation failure included:
the row is still full). -/
def docStudioRow (now : Nat) (f : String × ParsedMarkdown) : StudioRow :=
  studioRowOf now (docSlug f) f.1
    (studioFrontmatterSchema f.2.frontmatter) f.2.sections

theorem docStudioRow_slug (now : Nat) (f : String × ParsedMarkdown) :
    (docStudioRow now f).slug = docSlug f := rfl

def docPublisherRow (now : Nat) (f : String × ParsedMarkdown) :
    PublisherRow :=
  publisherRowOf now (docSlug f) f.1 f.2.sections

def docDesignerRow (now : Nat) (f : String × ParsedMarkdown) :
    DesignerRow :=
  designerRowOf now (docSlug f) f.1 f.2.sections

theorem studioChanges_same_doc (t1 t2 : Nat) (slug path : String)
    (fmOpt : Option StudioFrontmatter) (secs : List (String × String)) :
    studioChanges slug (studioRowOf t1 slug path fmOpt secs)
      (studioRowOf t2 slug path fmOpt secs) = [] := by
  simp [studioChanges, mkChange, studioRowOf]

theorem publisherChanges_same_doc (t1 t2 : Nat) (slug path : String)
    (secs : List (String × String)) :
    publisherChanges slug (publisherRowOf t1 slug path secs)
      (publisherRowOf t2 slug path secs) = [] := by
  simp [publisherChanges, mkChange, publisherRowOf]

theorem designerChanges_same_doc (t1 t2 : Nat) (slug path : String)
    (secs : List (String × String)) :
    designerChanges slug (designerRowOf t1 slug path secs)
      (designerRowOf t2 slug path secs) = [] := by
  simp [designerChanges, mkChange, designerRowOf]

/-- The studio loop from a state missing every document slug appends one
row per document. -/
theorem studioPhase_studios_from (now : Nat) :
    ∀ (files : List (String × ParsedMarkdown)) (st : SyncState),
      (files.map docSlug).Nodup →
      (∀ f ∈ files, ¬ studioSlugExists st.store.studios (docSlug f)) →
      (files.foldl (syncStudioFile now) st).store.studios
        = st.store.studios ++ files.map (docStudioRow now) := by
  intro files
  induction files with
  | nil => intro st _ _; simp
  | cons f rest ih =>
    intro st hnd hdisj
    rw [List.map_cons, List.nodup_cons] at hnd
    obtain ⟨path, pm⟩ := f
    have hfind : findStudio st.store.studios (slugFromPath path) = none := by
      unfold findStudio
      rw [List.find?_eq_none]
      intro r hr
      simp only [decide_eq_true_eq]
      exact fun hslug =>
        hdisj (path, pm) (List.mem_cons_self _ _) ⟨r, hr, hslug⟩
    have hstep : (syncStudioFile now st (path, pm)).store.studios
        = st.store.studios ++ [docStudioRow now (path, pm)] := by
      simp only [syncStudioFile, hfind, docStudioRow, docSlug]
    rw [List.foldl_cons, ih _ hnd.2 ?_, hstep, List.map_cons]
    · rw [List.append_assoc]
      rfl
    · intro g hg hex
      obtain ⟨r, hr, hslug⟩ := hex
      rw [hstep] at hr
      rcases List.mem_append.mp hr with hr | hr
      · exact hdisj g (List.mem_cons_of_mem _ hg) ⟨r, hr, hslug⟩
      · rw [List.mem_singleton.mp hr] at hslug
        rw [docStudioRow_slug] at hslug
        exact hnd.1 (hslug ▸ List.mem_map_of_mem docSlug hg)

/-- Second-run studio step: with the document's row already stored, the
studios table and created/updated/changes are untouched. -/
theorem run2_syncStudioFile (t1 now : Nat) (st : SyncState)
    (path : String) (pm : ParsedMarkdown)
    (hnd : (st.store.studios.map StudioRow.slug).Nodup)
    (hhave : docStudioRow t1 (path, pm) ∈ st.store.studios) :
    (syncStudioFile now st (path, pm)).store.studios
      = st.store.studios ∧
    (syncStudioFile now st (path, pm)).report.created = st.report.created ∧
    (syncStudioFile now st (path, pm)).report.updated = st.report.updated ∧
    (syncStudioFile now st (path, pm)).report.changes
      = st.report.changes := by
  have hfind : findStudio st.store.studios (slugFromPath path)
      = some (docStudioRow t1 (path, pm)) := by
    unfold findStudio
    exact find?_slug_unique (fun r => r.slug) st.store.studios
      (slugFromPath path) _ hnd hhave (docStudioRow_slug t1 (path, pm))
  have hch : studioChanges (slugFromPath path) (docStudioRow t1 (path, pm))
      (studioRowOf now (slugFromPath path) path
        (studioFrontmatterSchema pm.frontmatter) pm.sections) = [] :=
    studioChanges_same_doc t1 now (slugFromPath path) path
      (studioFrontmatterSchema pm.frontmatter) pm.sections
  simp only [syncStudioFile, hfind, hch]
  simp

theorem run2_studioPhase (t1 now : Nat) :
    ∀ (files : List (String × ParsedMarkdown)) (st : SyncState),
      (st.store.studios.map StudioRow.slug).Nodup →
      (∀ f ∈ files, docStudioRow t1 f ∈ st.store.studios) →
      (files.foldl (syncStudioFile now) st).store.studios
        = st.store.studios ∧
      (files.foldl (syncStudioFile now) st).report.created
        = st.report.created ∧
      (files.foldl (syncStudioFile now) st).report.updated
        = st.report.updated ∧
      (files.foldl (syncStudioFile now) st).report.changes
        = st.report.changes := by
  intro files
  induction files with
  | nil => intro st _ _; exact ⟨rfl, rfl, rfl, rfl⟩
  | cons f rest ih =>
    intro st hnd hhave
    obtain ⟨path, pm⟩ := f
    obtain ⟨g1, c1, u1, ch1⟩ := run2_syncStudioFile t1 now st path pm hnd
      (hhave (path, pm) (List.mem_cons_self _ _))
    rw [List.foldl_cons]
    obtain ⟨g2, c2, u2, ch2⟩ := ih (syncStudioFile now st (path, pm))
      (by rw [g1]; exact hnd)
      (fun g hg => by rw [g1]; exact hhave g (List.mem_cons_of_mem _ hg))
    exact ⟨g2.trans g1, c2.trans c1, u2.trans u1, ch2.trans ch1⟩

/-- Fold-level component preservation of the studio loop. -/
theorem studioPhase_rest (now : Nat) :
    ∀ (files : List (String × ParsedMarkdown)) (st : SyncState),
      (files.foldl (syncStudioFile now) st).store.games
        = st.store.games ∧
      (files.foldl (syncStudioFile now) st).store.publishers
        = st.store.publishers ∧
      (files.foldl (syncStudioFile now) st).store.designers
        = st.store.designers ∧
      (files.foldl (syncStudioFile now) st).store.gamePublishers
        = st.store.gamePublishers ∧
      (files.foldl (syncStudioFile now) st).store.publisherStudios
        = st.store.publisherStudios := by
  intro files
  induction files with
  | nil => intro st; exact ⟨rfl, rfl, rfl, rfl, rfl⟩
  | cons f rest ih =>
    intro st
    obtain ⟨path, pm⟩ := f
    obtain ⟨a1, a2, a3, a4, a5⟩ := ih (syncStudioFile now st (path, pm))
    obtain ⟨b1, b2, b3, b4, b5, _⟩ := syncStudioFile_rest now st path pm
    rw [List.foldl_cons]
    exact ⟨a1.trans b1, a2.trans b2, a3.trans b3, a4.trans b4,
      a5.trans b5⟩

/-- The publisher loop from a state missing every document slug appends
one row per document. -/
theorem pubPhase_pubs_from (now : Nat) :
    ∀ (files : List (String × ParsedMarkdown)) (st : SyncState),
      (files.map docSlug).Nodup →
      (∀ f ∈ files, ¬ pubSlugExists st.store.publishers (docSlug f)) →
      (files.foldl (syncPublisherFile now) st).store.publishers
        = st.store.publishers ++ files.map (docPublisherRow now) := by
  intro files
  induction files with
  | nil => intro st _ _; simp
  | cons f rest ih =>
    intro st hnd hdisj
    rw [List.map_cons, List.nodup_cons] at hnd
    obtain ⟨path, pm⟩ := f
    have hfind : findPublisher st.store.publishers (slugFromPath path)
        = none := by
      unfold findPublisher
      rw [List.find?_eq_none]
      intro r hr
      simp only [decide_eq_true_eq]
      exact fun hslug =>
        hdisj (path, pm) (List.mem_cons_self _ _) ⟨r, hr, hslug⟩
    have hstep : (syncPublisherFile now st (path, pm)).store.publishers
        = st.store.publishers ++ [docPublisherRow now (path, pm)] := by
      simp only [syncPublisherFile, hfind, docPublisherRow, docSlug]
    rw [List.foldl_cons, ih _ hnd.2 ?_, hstep, List.map_cons]
    · rw [List.append_assoc]
      rfl
    · intro g hg hex
      obtain ⟨r, hr, hslug⟩ := hex
      rw [hstep] at hr
      rcases List.mem_append.mp hr with hr | hr
      · exact hdisj g (List.mem_cons_of_mem _ hg) ⟨r, hr, hslug⟩
      · rw [List.mem_singleton.mp hr] at hslug
        have hslug2 : docSlug (path, pm) = docSlug g := hslug
        exact hnd.1 (hslug2 ▸ List.mem_map_of_mem docSlug hg)

theorem run2_syncPublisherFile (t1 now : Nat) (st : SyncState)
    (path : String) (pm : ParsedMarkdown)
    (hnd : (st.store.publishers.map PublisherRow.slug).Nodup)
    (hhave : docPublisherRow t1 (path, pm) ∈ st.store.publishers) :
    (syncPublisherFile now st (path, pm)).store.publishers
      = st.store.publishers ∧
    (syncPublisherFile now st (path, pm)).report.created
      = st.report.created ∧
    (syncPublisherFile now st (path, pm)).report.updated
      = st.report.updated ∧
    (syncPublisherFile now st (path, pm)).report.changes
      = st.report.changes := by
  have hfind : findPublisher st.store.publishers (slugFromPath path)
      = some (docPublisherRow t1 (path, pm)) := by
    unfold findPublisher
    exact find?_slug_unique (fun r => r.slug) st.store.publishers
      (slugFromPath path) _ hnd hhave rfl
  have hch : publisherChanges (slugFromPath path)
      (docPublisherRow t1 (path, pm))
      (publisherRowOf now (slugFromPath path) path pm.sections) = [] :=
    publisherChanges_same_doc t1 now (slugFromPath path) path pm.sections
  simp only [syncPublisherFile, hfind, hch]
  simp

theorem run2_pubPhase (t1 now : Nat) :
    ∀ (files : List (String × ParsedMarkdown)) (st : SyncState),
      (st.store.publishers.map PublisherRow.slug).Nodup →
      (∀ f ∈ files, docPublisherRow t1 f ∈ st.store.publishers) →
      (files.foldl (syncPublisherFile now) st).store.publishers
        = st.store.publishers ∧
      (files.foldl (syncPublisherFile now) st).report.created
        = st.report.created ∧
      (files.foldl (syncPublisherFile now) st).report.updated
        = st.report.updated ∧
      (files.foldl (syncPublisherFile now) st).report.changes
        = st.report.changes := by
  intro files
  induction files with
  | nil => intro st _ _; exact ⟨rfl, rfl, rfl, rfl⟩
  | cons f rest ih =>
    intro st hnd hhave
    obtain ⟨path, pm⟩ := f
    obtain ⟨g1, c1, u1, ch1⟩ := run2_syncPublisherFile t1 now st path pm hnd
      (hhave (path, pm) (List.mem_cons_self _ _))
    rw [List.foldl_cons]
    obtain ⟨g2, c2, u2, ch2⟩ := ih (syncPublisherFile now st (path, pm))
      (by rw [g1]; exact hnd)
      (fun g hg => by rw [g1]; exact hhave g (List.mem_cons_of_mem _ hg))
    exact ⟨g2.trans g1, c2.trans c1, u2.trans u1, ch2.trans ch1⟩

theorem pubPhase_rest (now : Nat) :
    ∀ (files : List (String × ParsedMarkdown)) (st : SyncState),
      (files.foldl (syncPublisherFile now) st).store.games
        = st.store.games ∧
      (files.foldl (syncPublisherFile now) st).store.studios
        = st.store.studios ∧
      (files.foldl (syncPublisherFile now) st).store.designers
        = st.store.designers ∧
      (files.foldl (syncPublisherFile now) st).store.relatedStudios
        = st.store.relatedStudios := by
  intro files
  induction files with
  | nil => intro st; exact ⟨rfl, rfl, rfl, rfl⟩
  | cons f rest ih =>
    intro st
    obtain ⟨path, pm⟩ := f
    obtain ⟨a1, a2, a3, a4⟩ := ih (syncPublisherFile now st (path, pm))
    obtain ⟨b1, b2, b3, _, b5, _, _⟩ := syncPublisherFile_rest now st path pm
    rw [List.foldl_cons]
    exact ⟨a1.trans b1, a2.trans b2, a3.trans b3, a4.trans b5⟩

/-- The designer loop from a state missing every document slug appends
one row per document. -/
theorem designerPhase_des_from (now : Nat) :
    ∀ (files : List (String × ParsedMarkdown)) (st : SyncState),
      (files.map docSlug).Nodup →
      (∀ f ∈ files, ¬ designerSlugExists st.store.designers (docSlug f)) →
      (files.foldl (syncDesignerFile now) st).store.designers
        = st.store.designers ++ files.map (docDesignerRow now) := by
  intro files
  induction files with
  | nil => intro st _ _; simp
  | cons f rest ih =>
    intro st hnd hdisj
    rw [List.map_cons, List.nodup_cons] at hnd
    obtain ⟨path, pm⟩ := f
    have hfind : findDesigner st.store.designers (slugFromPath path)
        = none := by
      unfold findDesigner
      rw [List.find?_eq_none]
      intro r hr
      simp only [decide_eq_true_eq]
      exact fun hslug =>
        hdisj (path, pm) (List.mem_cons_self _ _) ⟨r, hr, hslug⟩
    have hstep : (syncDesignerFile now st (path, pm)).store.designers
        = st.store.designers ++ [docDesignerRow now (path, pm)] := by
      simp only [syncDesignerFile, hfind, docDesignerRow, docSlug]
    rw [List.foldl_cons, ih _ hnd.2 ?_, hstep, List.map_cons]
    · rw [List.append_assoc]
      rfl
    · intro g hg hex
      obtain ⟨r, hr, hslug⟩ := hex
      rw [hstep] at hr
      rcases List.mem_append.mp hr with hr | hr
      · exact hdisj g (List.mem_cons_of_mem _ hg) ⟨r, hr, hslug⟩
      · rw [List.mem_singleton.mp hr] at hslug
        have hslug2 : docSlug (path, pm) = docSlug g := hslug
        exact hnd.1 (hslug2 ▸ List.mem_map_of_mem docSlug hg)

theorem run2_syncDesignerFile (t1 now : Nat) (st : SyncState)
    (path : String) (pm : ParsedMarkdown)
    (hnd : (st.store.designers.map DesignerRow.slug).Nodup)
    (hhave : docDesignerRow t1 (path, pm) ∈ st.store.designers) :
    (syncDesignerFile now st (path, pm)).store.designers
      = st.store.designers ∧
    (syncDesignerFile now st (path, pm)).report.created
      = st.report.created ∧
    (syncDesignerFile now st (path, pm)).report.updated
      = st.report.updated ∧
    (syncDesignerFile now st (path, pm)).report.changes
      = st.report.changes := by
  have hfind : findDesigner st.store.designers (slugFromPath path)
      = some (docDesignerRow t1 (path, pm)) := by
    unfold findDesigner
    exact find?_slug_unique (fun r => r.slug) st.store.designers
      (slugFromPath path) _ hnd hhave rfl
  have hch : designerChanges (slugFromPath path)
      (docDesignerRow t1 (path, pm))
      (designerRowOf now (slugFromPath path) path pm.sections) = [] :=
    designerChanges_same_doc t1 now (slugFromPath path) path pm.sections
  simp only [syncDesignerFile, hfind, hch]
  simp

theorem run2_designerPhase (t1 now : Nat) :
    ∀ (files : List (String × ParsedMarkdown)) (st : SyncState),
      (st.store.designers.map DesignerRow.slug).Nodup →
      (∀ f ∈ files, docDesignerRow t1 f ∈ st.store.designers) →
      (files.foldl (syncDesignerFile now) st).store.designers
        = st.store.designers ∧
      (files.foldl (syncDesignerFile now) st).report.created
        = st.report.created ∧
      (files.foldl (syncDesignerFile now) st).report.updated
        = st.report.updated ∧
      (files.foldl (syncDesignerFile now) st).report.changes
        = st.report.changes := by
  intro files
  induction files with
  | nil => intro st _ _; exact ⟨rfl, rfl, rfl, rfl⟩
  | cons f rest ih =>
    intro st hnd hhave
    obtain ⟨path, pm⟩ := f
    obtain ⟨g1, c1, u1, ch1⟩ := run2_syncDesignerFile t1 now st path pm hnd
      (hhave (path, pm) (List.mem_cons_self _ _))
    rw [List.foldl_cons]
    obtain ⟨g2, c2, u2, ch2⟩ := ih (syncDesignerFile now st (path, pm))
      (by rw [g1]; exact hnd)
      (fun g hg => by rw [g1]; exact hhave g (List.mem_cons_of_mem _ hg))
    exact ⟨g2.trans g1, c2.trans c1, u2.trans u1, ch2.trans ch1⟩

theorem designerPhase_rest (now : Nat) :
    ∀ (files : List (String × ParsedMarkdown)) (st : SyncState),
      (files.foldl (syncDesignerFile now) st).store.games
        = st.store.games ∧
      (files.foldl (syncDesignerFile now) st).store.studios
        = st.store.studios ∧
      (files.foldl (syncDesignerFile now) st).store.publishers
        = st.store.publishers ∧
      (files.foldl (syncDesignerFile now) st).store.gamePublishers
        = st.store.gamePublishers ∧
      (files.foldl (syncDesignerFile now) st).store.publisherStudios
        = st.store.publisherStudios ∧
      (files.foldl (syncDesignerFile now) st).store.relatedStudios
        = st.store.relatedStudios := by
  intro files
  induction files with
  | nil => intro st; exact ⟨rfl, rfl, rfl, rfl, rfl, rfl⟩
  | cons f rest ih =>
    intro st
    obtain ⟨path, pm⟩ := f
    obtain ⟨a1, a2, a3, a4, a5, a6⟩ := ih (syncDesignerFile now st (path, pm))
    obtain ⟨b1, b2, b3, _, b5, b6, b7, _, _, _⟩ :=
      syncDesignerFile_rest now st path pm
    rw [List.foldl_cons]
    exact ⟨a1.trans b1, a2.trans b2, a3.trans b3, a4.trans b5,
      a5.trans b6, a6.trans b7⟩

/-! ### Stub phases: no-op on full stores, slug uniqueness -/

theorem stubStudiosPhase_noop (now : Nat) :
    ∀ (refs : List String) (s : Store),
      (∀ x ∈ refs, studioSlugExists s.studios x) →
      stubStudiosPhase now refs s = s := by
  intro refs
  induction refs with
  | nil => intro s _; rfl
  | cons x rest ih =>
    intro s h
    have hstep : stubStudioStep now s x = s := by
      obtain ⟨r, hr, hslug⟩ := h x (List.mem_cons_self _ _)
      unfold stubStudioStep
      cases hfind : findStudio s.studios x with
      | some _ => rfl
      | none =>
        exfalso
        unfold findStudio at hfind
        rw [List.find?_eq_none] at hfind
        exact absurd hslug (by simpa using hfind r hr)
    unfold stubStudiosPhase
    rw [List.foldl_cons, hstep]
    have := ih s (fun y hy => h y (List.mem_cons_of_mem _ hy))
    unfold stubStudiosPhase at this
    exact this

theorem stubPublishersPhase_noop (now : Nat) :
    ∀ (refs : List String) (s : Store),
      (∀ x ∈ refs, pubSlugExists s.publishers x) →
      stubPublishersPhase now refs s = s := by
  intro refs
  induction refs with
  | nil => intro s _; rfl
  | cons x rest ih =>
    intro s h
    have hstep : stubPublisherStep now s x = s := by
      obtain ⟨r, hr, hslug⟩ := h x (List.mem_cons_self _ _)
      unfold stubPublisherStep
      cases hfind : findPublisher s.publishers x with
      | some _ => rfl
      | none =>
        exfalso
        unfold findPublisher at hfind
        rw [List.find?_eq_none] at hfind
        exact absurd hslug (by simpa using hfind r hr)
    unfold stubPublishersPhase
    rw [List.foldl_cons, hstep]
    have := ih s (fun y hy => h y (List.mem_cons_of_mem _ hy))
    unfold stubPublishersPhase at this
    exact this

theorem stubDesignersPhase_noop (now : Nat) :
    ∀ (refs : List String) (s : Store),
      (∀ x ∈ refs, designerSlugExists s.designers x) →
      stubDesignersPhase now refs s = s := by
  intro refs
  induction refs with
  | nil => intro s _; rfl
  | cons x rest ih =>
    intro s h
    have hstep : stubDesignerStep now s x = s := by
      obtain ⟨r, hr, hslug⟩ := h x (List.mem_cons_self _ _)
      unfold stubDesignerStep
      cases hfind : findDesigner s.designers x with
      | some _ => rfl
      | none =>
        exfalso
        unfold findDesigner at hfind
        rw [List.find?_eq_none] at hfind
        exact absurd hslug (by simpa using hfind r hr)
    unfold stubDesignersPhase
    rw [List.foldl_cons, hstep]
    have := ih s (fun y hy => h y (List.mem_cons_of_mem _ hy))
    unfold stubDesignersPhase at this
    exact this

theorem stubStudiosPhase_nodup (now : Nat) :
    ∀ (refs : List String) (s : Store),
      (s.studios.map StudioRow.slug).Nodup →
      ((stubStudiosPhase now refs s).studios.map StudioRow.slug).Nodup := by
  intro refs
  induction refs with
  | nil => intro s h; exact h
  | cons x rest ih =>
    intro s h
    refine ih _ ?_
    unfold stubStudioStep
    cases hfind : findStudio s.studios x with
    | some _ => exact h
    | none =>
      dsimp only
      rw [List.map_append, List.nodup_append]
      refine ⟨h, List.nodup_singleton _, ?_⟩
      intro y hy hy2
      have hyx : y = x := by simpa [stubStudioRow] using hy2
      unfold findStudio at hfind
      rw [List.find?_eq_none] at hfind
      rcases List.mem_map.mp hy with ⟨r, hr, rfl⟩
      exact absurd hyx (by simpa using hfind r hr)

theorem stubPublishersPhase_nodup (now : Nat) :
    ∀ (refs : List String) (s : Store),
      (s.publishers.map PublisherRow.slug).Nodup →
      ((stubPublishersPhase now refs s).publishers.map
        PublisherRow.slug).Nodup := by
  intro refs
  induction refs with
  | nil => intro s h; exact h
  | cons x rest ih =>
    intro s h
    refine ih _ ?_
    unfold stubPublisherStep
    cases hfind : findPublisher s.publishers x with
    | some _ => exact h
    | none =>
      dsimp only
      rw [List.map_append, List.nodup_append]
      refine ⟨h, List.nodup_singleton _, ?_⟩
      intro y hy hy2
      have hyx : y = x := by simpa [stubPublisherRow] using hy2
      unfold findPublisher at hfind
      rw [List.find?_eq_none] at hfind
      rcases List.mem_map.mp hy with ⟨r, hr, rfl⟩
      exact absurd hyx (by simpa using hfind r hr)

theorem stubDesignersPhase_nodup (now : Nat) :
    ∀ (refs : List String) (s : Store),
      (s.designers.map DesignerRow.slug).Nodup →
      ((stubDesignersPhase now refs s).designers.map
        DesignerRow.slug).Nodup := by
  intro refs
  induction refs with
  | nil => intro s h; exact h
  | cons x rest ih =>
    intro s h
    refine ih _ ?_
    unfold stubDesignerStep
    cases hfind : findDesigner s.designers x with
    | some _ => exact h
    | none =>
      dsimp only
      rw [List.map_append, List.nodup_append]
      refine ⟨h, List.nodup_singleton _, ?_⟩
      intro y hy hy2
      have hyx : y = x := by simpa [stubDesignerRow] using hy2
      unfold findDesigner at hfind
      rw [List.find?_eq_none] at hfind
      rcases List.mem_map.mp hy with ⟨r, hr, rfl⟩
      exact absurd hyx (by simpa using hfind r hr)

/-! ### The pending-reference sets depend only on the corpus -/

def gameRefS (refs : List String) (f : String × ParsedMarkdown) :
    List String :=
  match gameFrontmatterSchema f.2.frontmatter with
  | some fm => fm.developer.foldl setAdd refs
  | none => refs

def gameRefP (refs : List String) (f : String × ParsedMarkdown) :
    List String :=
  match gameFrontmatterSchema f.2.frontmatter with
  | some fm => fm.publisher.foldl setAdd refs
  | none => refs

def gameRefD (refs : List String) (f : String × ParsedMarkdown) :
    List String :=
  match gameFrontmatterSchema f.2.frontmatter with
  | some fm =>
    match fm.director with
    | some d => if d ≠ "" then setAdd refs d else refs
    | none => refs
  | none => refs

def studioRefS (refs : List String) (f : String × ParsedMarkdown) :
    List String :=
  match studioFrontmatterSchema f.2.frontmatter with
  | some fm =>
    if fm.studios ≠ [] then fm.studios.foldl setAdd refs else refs
  | none => refs

def studioRefD (refs : List String) (f : String × ParsedMarkdown) :
    List String :=
  match studioFrontmatterSchema f.2.frontmatter with
  | some fm =>
    match fm.director with
    | some d => if d ≠ "" then setAdd refs d else refs
    | none => refs
  | none => refs

def pubRefS (refs : List String) (f : String × ParsedMarkdown) :
    List String :=
  match publisherFrontmatterSchema f.2.frontmatter with
  | some fm =>
    if fm.studios ≠ [] then fm.studios.foldl setAdd refs else refs
  | none => refs

theorem gamePhase_refs (now : Nat) :
    ∀ (files : List (String × ParsedMarkdown)) (st : SyncState),
      (files.foldl (syncGameFile now) st).refStudios
        = files.foldl gameRefS st.refStudios ∧
      (files.foldl (syncGameFile now) st).refPublishers
        = files.foldl gameRefP st.refPublishers ∧
      (files.foldl (syncGameFile now) st).refDesigners
        = files.foldl gameRefD st.refDesigners := by
  intro files
  induction files with
  | nil => intro st; exact ⟨rfl, rfl, rfl⟩
  | cons f rest ih =>
    intro st
    obtain ⟨path, pm⟩ := f
    obtain ⟨a1, a2, a3⟩ := ih (syncGameFile now st (path, pm))
    rw [List.foldl_cons, List.foldl_cons, List.foldl_cons, List.foldl_cons]
    refine ⟨?_, ?_, ?_⟩
    · rw [a1, syncGameFile_refStudios]
      rfl
    · rw [a2, syncGameFile_refPublishers]
      rfl
    · rw [a3, syncGameFile_refDesigners]
      rfl

theorem csvPhase_refs (now : Nat) :
    ∀ (gs : List ParsedCsvGame) (st : SyncState),
      (gs.foldl (syncCsvGame now) st).refStudios = st.refStudios ∧
      (gs.foldl (syncCsvGame now) st).refPublishers = st.refPublishers ∧
      (gs.foldl (syncCsvGame now) st).refDesigners = st.refDesigners := by
  intro gs
  induction gs with
  | nil => intro st; exact ⟨rfl, rfl, rfl⟩
  | cons g rest ih =>
    intro st
    obtain ⟨a1, a2, a3⟩ := ih (syncCsvGame now st g)
    obtain ⟨_, _, _, _, _, _, b7, b8, b9⟩ := syncCsvGame_store_rest now st g
    rw [List.foldl_cons]
    exact ⟨a1.trans b7, a2.trans b8, a3.trans b9⟩

theorem studioPhase_refs (now : Nat) :
    ∀ (files : List (String × ParsedMarkdown)) (st : SyncState),
      (files.foldl (syncStudioFile now) st).refStudios
        = files.foldl studioRefS st.refStudios ∧
      (files.foldl (syncStudioFile now) st).refPublishers
        = st.refPublishers ∧
      (files.foldl (syncStudioFile now) st).refDesigners
        = files.foldl studioRefD st.refDesigners := by
  intro files
  induction files with
  | nil => intro st; exact ⟨rfl, rfl, rfl⟩
  | cons f rest ih =>
    intro st
    obtain ⟨path, pm⟩ := f
    obtain ⟨a1, a2, a3⟩ := ih (syncStudioFile now st (path, pm))
    rw [List.foldl_cons, List.foldl_cons, List.foldl_cons]
    refine ⟨?_, ?_, ?_⟩
    · rw [a1, syncStudioFile_refStudios]
      rfl
    · rw [a2]
      exact (syncStudioFile_rest now st path pm).2.2.2.2.2
    · rw [a3, syncStudioFile_refDesigners]
      rfl

theorem pubPhase_refs (now : Nat) :
    ∀ (files : List (String × ParsedMarkdown)) (st : SyncState),
      (files.foldl (syncPublisherFile now) st).refStudios
        = files.foldl pubRefS st.refStudios ∧
      (files.foldl (syncPublisherFile now) st).refPublishers
        = st.refPublishers ∧
      (files.foldl (syncPublisherFile now) st).refDesigners
        = st.refDesigners := by
  intro files
  induction files with
  | nil => intro st; exact ⟨rfl, rfl, rfl⟩
  | cons f rest ih =>
    intro st
    obtain ⟨path, pm⟩ := f
    obtain ⟨a1, a2, a3⟩ := ih (syncPublisherFile now st (path, pm))
    obtain ⟨_, _, _, _, _, b6, b7⟩ := syncPublisherFile_rest now st path pm
    rw [List.foldl_cons, List.foldl_cons]
    refine ⟨?_, a2.trans b6, a3.trans b7⟩
    rw [a1, syncPublisherFile_refStudios]
    rfl

theorem designerPhase_refs (now : Nat) :
    ∀ (files : List (String × ParsedMarkdown)) (st : SyncState),
      (files.foldl (syncDesignerFile now) st).refStudios
        = st.refStudios ∧
      (files.foldl (syncDesignerFile now) st).refPublishers
        = st.refPublishers ∧
      (files.foldl (syncDesignerFile now) st).refDesigners
        = st.refDesigners := by
  intro files
  induction files with
  | nil => intro st; exact ⟨rfl, rfl, rfl⟩
  | cons f rest ih =>
    intro st
    obtain ⟨path, pm⟩ := f
    obtain ⟨a1, a2, a3⟩ := ih (syncDesignerFile now st (path, pm))
    obtain ⟨_, _, _, _, _, _, _, b8, b9, b10⟩ :=
      syncDesignerFile_rest now st path pm
    rw [List.foldl_cons]
    exact ⟨a1.trans b8, a2.trans b9, a3.trans b10⟩

/-- The pending sets as pure functions of the corpus. -/
def collectRefStudios (c : Corpus) : List String :=
  c.publisherFiles.foldl pubRefS
    (c.studioFiles.foldl studioRefS (c.gameFiles.foldl gameRefS []))

def collectRefPublishers (c : Corpus) : List String :=
  c.gameFiles.foldl gameRefP []

def collectRefDesigners (c : Corpus) : List String :=
  c.studioFiles.foldl studioRefD (c.gameFiles.foldl gameRefD [])

/-- The pending-reference sets after phases 2–4 do not depend on the
timestamp or the initial store. -/
theorem syncPhases_refs (now : Nat) (c : Corpus) (store0 : Store) :
    (syncPhases now c store0).refStudios = collectRefStudios c ∧
    (syncPhases now c store0).refPublishers = collectRefPublishers c ∧
    (syncPhases now c store0).refDesigners = collectRefDesigners c := by
  unfold syncPhases collectRefStudios collectRefPublishers
    collectRefDesigners
  obtain ⟨g1, g2, g3⟩ := gamePhase_refs now c.gameFiles (initState c store0)
  obtain ⟨v1, v2, v3⟩ := csvPhase_refs now (csvGamesOf c) _
  obtain ⟨s1, s2, s3⟩ := studioPhase_refs now c.studioFiles _
  obtain ⟨p1, p2, p3⟩ := pubPhase_refs now c.publisherFiles _
  obtain ⟨d1, d2, d3⟩ := designerPhase_refs now c.designerFiles _
  refine ⟨?_, ?_, ?_⟩
  · rw [d1, p1, s1, v1, g1]
    rfl
  · rw [d2, p2, s2, v2, g2]
    rfl
  · rw [d3, p3, s3, v3, g3]
    rfl

/-! ### Per-document junction contributions -/

/-- `gameDevelopers` rows a game document re-inserts. -/
def gdDoc (f : String × ParsedMarkdown) : List (String × String) :=
  match gameFrontmatterSchema f.2.frontmatter with
  | some fm => fm.developer.map (fun s => (docSlug f, s))
  | none => []

/-- `gamePublishers` rows a game document re-inserts. -/
def gpDoc (f : String × ParsedMarkdown) : List (String × String) :=
  match gameFrontmatterSchema f.2.frontmatter with
  | some fm => fm.publisher.map (fun s => (docSlug f, s))
  | none => []

/-- `gameDevelopers` rows a studio document offers to insert (reverse
direction, from its `games` list). -/
def sgDoc (f : String × ParsedMarkdown) : List (String × String) :=
  match studioFrontmatterSchema f.2.frontmatter with
  | some fm => fm.games.map (fun g => (g, docSlug f))
  | none => []

/-- `gamePublishers` rows a publisher document offers to insert. -/
def pgDoc (f : String × ParsedMarkdown) : List (String × String) :=
  match publisherFrontmatterSchema f.2.frontmatter with
  | some fm => fm.games.map (fun g => (g, docSlug f))
  | none => []

/-- `relatedStudios` rows a studio document re-inserts. -/
def rsDoc (f : String × ParsedMarkdown) : List (String × String) :=
  match studioFrontmatterSchema f.2.frontmatter with
  | some fm =>
    if fm.studios ≠ [] then fm.studios.map (fun r => (docSlug f, r))
    else []
  | none => []

/-- `publisherStudios` rows a publisher document re-inserts. -/
def psDoc (f : String × ParsedMarkdown) : List (String × String) :=
  match publisherFrontmatterSchema f.2.frontmatter with
  | some fm =>
    if fm.studios ≠ [] then fm.studios.map (fun s => (docSlug f, s))
    else []
  | none => []

/-- Slugs of game documents whose front matter validates: the game phase
deletes exactly these slugs' junction rows before re-inserting. -/
def validGameSlugs (files : List (String × ParsedMarkdown)) : List String :=
  files.filterMap (fun f =>
    match gameFrontmatterSchema f.2.frontmatter with
    | some _ => some (docSlug f)
    | none => none)

/-- Slugs of studio documents that replace their `relatedStudios` rows. -/
def activeStudioSlugs (files : List (String × ParsedMarkdown)) :
    List String :=
  files.filterMap (fun f =>
    match studioFrontmatterSchema f.2.frontmatter with
    | some fm => if fm.studios ≠ [] then some (docSlug f) else none
    | none => none)

/-- Slugs of publisher documents that replace their `publisherStudios`
rows. -/
def activePubSlugs (files : List (String × ParsedMarkdown)) :
    List String :=
  files.filterMap (fun f =>
    match publisherFrontmatterSchema f.2.frontmatter with
    | some fm => if fm.studios ≠ [] then some (docSlug f) else none
    | none => none)

theorem gdDoc_pair (path : String) (pm : ParsedMarkdown) :
    gdDoc (path, pm)
      = match gameFrontmatterSchema pm.frontmatter with
        | some fm => fm.developer.map (fun s => (slugFromPath path, s))
        | none => [] := rfl

theorem gpDoc_pair (path : String) (pm : ParsedMarkdown) :
    gpDoc (path, pm)
      = match gameFrontmatterSchema pm.frontmatter with
        | some fm => fm.publisher.map (fun s => (slugFromPath path, s))
        | none => [] := rfl

theorem sgDoc_pair (path : String) (pm : ParsedMarkdown) :
    sgDoc (path, pm)
      = match studioFrontmatterSchema pm.frontmatter with
        | some fm => fm.games.map (fun g => (g, slugFromPath path))
        | none => [] := rfl

theorem pgDoc_pair (path : String) (pm : ParsedMarkdown) :
    pgDoc (path, pm)
      = match publisherFrontmatterSchema pm.frontmatter with
        | some fm => fm.games.map (fun g => (g, slugFromPath path))
        | none => [] := rfl

theorem rsDoc_pair (path : String) (pm : ParsedMarkdown) :
    rsDoc (path, pm)
      = match studioFrontmatterSchema pm.frontmatter with
        | some fm =>
          if fm.studios ≠ [] then
            fm.studios.map (fun r => (slugFromPath path, r))
          else []
        | none => [] := rfl

theorem psDoc_pair (path : String) (pm : ParsedMarkdown) :
    psDoc (path, pm)
      = match publisherFrontmatterSchema pm.frontmatter with
        | some fm =>
          if fm.studios ≠ [] then
            fm.studios.map (fun s => (slugFromPath path, s))
          else []
        | none => [] := rfl

theorem validGameSlugs_cons (path : String) (pm : ParsedMarkdown)
    (rest : List (String × ParsedMarkdown)) :
    validGameSlugs ((path, pm) :: rest)
      = match gameFrontmatterSchema pm.frontmatter with
        | some _ => slugFromPath path :: validGameSlugs rest
        | none => validGameSlugs rest := by
  cases h : gameFrontmatterSchema pm.frontmatter <;>
    simp [validGameSlugs, List.filterMap_cons, h, docSlug]

theorem activeStudioSlugs_cons (path : String) (pm : ParsedMarkdown)
    (rest : List (String × ParsedMarkdown)) :
    activeStudioSlugs ((path, pm) :: rest)
      = match studioFrontmatterSchema pm.frontmatter with
        | some fm =>
          if fm.studios ≠ [] then
            slugFromPath path :: activeStudioSlugs rest
          else activeStudioSlugs rest
        | none => activeStudioSlugs rest := by
  cases h : studioFrontmatterSchema pm.frontmatter with
  | none => simp [activeStudioSlugs, List.filterMap_cons, h]
  | some fm =>
    by_cases hs : fm.studios = [] <;>
      simp [activeStudioSlugs, List.filterMap_cons, h, hs, docSlug]

theorem activePubSlugs_cons (path : String) (pm : ParsedMarkdown)
    (rest : List (String × ParsedMarkdown)) :
    activePubSlugs ((path, pm) :: rest)
      = match publisherFrontmatterSchema pm.frontmatter with
        | some fm =>
          if fm.studios ≠ [] then
            slugFromPath path :: activePubSlugs rest
          else activePubSlugs rest
        | none => activePubSlugs rest := by
  cases h : publisherFrontmatterSchema pm.frontmatter with
  | none => simp [activePubSlugs, List.filterMap_cons, h]
  | some fm =>
    by_cases hs : fm.studios = [] <;>
      simp [activePubSlugs, List.filterMap_cons, h, hs, docSlug]

theorem validGameSlugs_sub :
    ∀ (files : List (String × ParsedMarkdown)) (x : String),
      x ∈ validGameSlugs files → x ∈ files.map docSlug := by
  intro files x hx
  rcases List.mem_filterMap.mp hx with ⟨f, hf, heq⟩
  have hx2 : x = docSlug f := by
    cases h : gameFrontmatterSchema f.2.frontmatter with
    | none => rw [h] at heq; cases heq
    | some fm => rw [h] at heq; exact (Option.some.inj heq).symm
  exact hx2 ▸ List.mem_map_of_mem docSlug hf

theorem activeStudioSlugs_sub :
    ∀ (files : List (String × ParsedMarkdown)) (x : String),
      x ∈ activeStudioSlugs files → x ∈ files.map docSlug := by
  intro files x hx
  rcases List.mem_filterMap.mp hx with ⟨f, hf, heq⟩
  have hx2 : x = docSlug f := by
    cases h : studioFrontmatterSchema f.2.frontmatter with
    | none => rw [h] at heq; cases heq
    | some fm =>
      rw [h] at heq
      dsimp only at heq
      by_cases hs : fm.studios ≠ []
      · rw [if_pos hs] at heq
        exact (Option.some.inj heq).symm
      · rw [if_neg hs] at heq
        cases heq
  exact hx2 ▸ List.mem_map_of_mem docSlug hf

theorem activePubSlugs_sub :
    ∀ (files : List (String × ParsedMarkdown)) (x : String),
      x ∈ activePubSlugs files → x ∈ files.map docSlug := by
  intro files x hx
  rcases List.mem_filterMap.mp hx with ⟨f, hf, heq⟩
  have hx2 : x = docSlug f := by
    cases h : publisherFrontmatterSchema f.2.frontmatter with
    | none => rw [h] at heq; cases heq
    | some fm =>
      rw [h] at heq
      dsimp only at heq
      by_cases hs : fm.studios ≠ []
      · rw [if_pos hs] at heq
        exact (Option.some.inj heq).symm
      · rw [if_neg hs] at heq
        cases heq
  exact hx2 ▸ List.mem_map_of_mem docSlug hf

/-- The full game phase on `gameDevelopers`: prior rows of validly-parsed
document slugs are removed and each document's rows are appended. -/
theorem gamePhase_gd_char (now : Nat) :
    ∀ (files : List (String × ParsedMarkdown)) (st : SyncState),
      (files.map docSlug).Nodup →
      (files.foldl (syncGameFile now) st).store.gameDevelopers
        = st.store.gameDevelopers.filter
            (fun p => p.1 ∉ validGameSlugs files)
          ++ files.flatMap gdDoc := by
  intro files
  induction files with
  | nil =>
    intro st _
    have hid : st.store.gameDevelopers.filter
        (fun p => p.1 ∉ validGameSlugs []) = st.store.gameDevelopers := by
      rw [List.filter_eq_self]
      intro x _
      simp [validGameSlugs]
    rw [List.flatMap_nil, List.append_nil]
    exact hid.symm
  | cons f rest ih =>
    intro st hnd
    rw [List.map_cons, List.nodup_cons] at hnd
    obtain ⟨path, pm⟩ := f
    rw [List.foldl_cons, ih _ hnd.2, syncGameFile_gd, List.flatMap_cons,
      gdDoc_pair, validGameSlugs_cons]
    cases hv : gameFrontmatterSchema pm.frontmatter with
    | none =>
      dsimp only
      rw [List.nil_append]
    | some fm =>
      dsimp only
      have hslugnot : slugFromPath path ∉ validGameSlugs rest := fun hmem =>
        hnd.1 (validGameSlugs_sub rest _ hmem)
      have hkeep : (fm.developer.map
            (fun s => (slugFromPath path, s))).filter
            (fun p => p.1 ∉ validGameSlugs rest)
          = fm.developer.map (fun s => (slugFromPath path, s)) := by
        rw [List.filter_eq_self]
        intro q hq
        rcases List.mem_map.mp hq with ⟨s, _, rfl⟩
        simpa using hslugnot
      rw [List.filter_append, hkeep, List.filter_filter]
      have hpred : ∀ x ∈ st.store.gameDevelopers,
          (decide (x.1 ∉ validGameSlugs rest)
            && decide (x.1 ≠ slugFromPath path))
          = decide (x.1 ∉ slugFromPath path :: validGameSlugs rest) := by
        intro x _
        by_cases h1 : x.1 = slugFromPath path
        · simp [h1]
        · by_cases h2 : x.1 ∈ validGameSlugs rest <;>
            simp [h1, h2, List.mem_cons]
      rw [List.filter_congr hpred, List.append_assoc]

/-- The full game phase on `gamePublishers`. -/
theorem gamePhase_gp_char (now : Nat) :
    ∀ (files : List (String × ParsedMarkdown)) (st : SyncState),
      (files.map docSlug).Nodup →
      (files.foldl (syncGameFile now) st).store.gamePublishers
        = st.store.gamePublishers.filter
            (fun p => p.1 ∉ validGameSlugs files)
          ++ files.flatMap gpDoc := by
  intro files
  induction files with
  | nil =>
    intro st _
    have hid : st.store.gamePublishers.filter
        (fun p => p.1 ∉ validGameSlugs []) = st.store.gamePublishers := by
      rw [List.filter_eq_self]
      intro x _
      simp [validGameSlugs]
    rw [List.flatMap_nil, List.append_nil]
    exact hid.symm
  | cons f rest ih =>
    intro st hnd
    rw [List.map_cons, List.nodup_cons] at hnd
    obtain ⟨path, pm⟩ := f
    rw [List.foldl_cons, ih _ hnd.2, syncGameFile_gp, List.flatMap_cons,
      gpDoc_pair, validGameSlugs_cons]
    cases hv : gameFrontmatterSchema pm.frontmatter with
    | none =>
      dsimp only
      rw [List.nil_append]
    | some fm =>
      dsimp only
      have hslugnot : slugFromPath path ∉ validGameSlugs rest := fun hmem =>
        hnd.1 (validGameSlugs_sub rest _ hmem)
      have hkeep : (fm.publisher.map
            (fun s => (slugFromPath path, s))).filter
            (fun p => p.1 ∉ validGameSlugs rest)
          = fm.publisher.map (fun s => (slugFromPath path, s)) := by
        rw [List.filter_eq_self]
        intro q hq
        rcases List.mem_map.mp hq with ⟨s, _, rfl⟩
        simpa using hslugnot
      rw [List.filter_append, hkeep, List.filter_filter]
      have hpred : ∀ x ∈ st.store.gamePublishers,
          (decide (x.1 ∉ validGameSlugs rest)
            && decide (x.1 ≠ slugFromPath path))
          = decide (x.1 ∉ slugFromPath path :: validGameSlugs rest) := by
        intro x _
        by_cases h1 : x.1 = slugFromPath path
        · simp [h1]
        · by_cases h2 : x.1 ∈ validGameSlugs rest <;>
            simp [h1, h2, List.mem_cons]
      rw [List.filter_congr hpred, List.append_assoc]

/-- The full studio phase on `relatedStudios`: every replacing document
clears its own slug's rows and appends its current list. -/
theorem studioPhase_rs_char (now : Nat) :
    ∀ (files : List (String × ParsedMarkdown)) (st : SyncState),
      (files.map docSlug).Nodup →
      (files.foldl (syncStudioFile now) st).store.relatedStudios
        = st.store.relatedStudios.filter
            (fun p => p.1 ∉ activeStudioSlugs files)
          ++ files.flatMap rsDoc := by
  intro files
  induction files with
  | nil =>
    intro st _
    have hid : st.store.relatedStudios.filter
        (fun p => p.1 ∉ activeStudioSlugs []) = st.store.relatedStudios := by
      rw [List.filter_eq_self]
      intro x _
      simp [activeStudioSlugs]
    rw [List.flatMap_nil, List.append_nil]
    exact hid.symm
  | cons f rest ih =>
    intro st hnd
    rw [List.map_cons, List.nodup_cons] at hnd
    obtain ⟨path, pm⟩ := f
    rw [List.foldl_cons, ih _ hnd.2, syncStudioFile_rs, List.flatMap_cons,
      rsDoc_pair, activeStudioSlugs_cons]
    cases hv : studioFrontmatterSchema pm.frontmatter with
    | none =>
      dsimp only
      rw [List.nil_append]
    | some fm =>
      dsimp only
      by_cases hs : fm.studios ≠ []
      · simp only [if_pos hs]
        have hslugnot : slugFromPath path ∉ activeStudioSlugs rest :=
          fun hmem => hnd.1 (activeStudioSlugs_sub rest _ hmem)
        have hkeep : (fm.studios.map
              (fun r => (slugFromPath path, r))).filter
              (fun p => p.1 ∉ activeStudioSlugs rest)
            = fm.studios.map (fun r => (slugFromPath path, r)) := by
          rw [List.filter_eq_self]
          intro q hq
          rcases List.mem_map.mp hq with ⟨r, _, rfl⟩
          simpa using hslugnot
        rw [List.filter_append, hkeep, List.filter_filter]
        have hpred : ∀ x ∈ st.store.relatedStudios,
            (decide (x.1 ∉ activeStudioSlugs rest)
              && decide (x.1 ≠ slugFromPath path))
            = decide (x.1 ∉ slugFromPath path :: activeStudioSlugs rest) := by
          intro x _
          by_cases h1 : x.1 = slugFromPath path
          · simp [h1]
          · by_cases h2 : x.1 ∈ activeStudioSlugs rest <;>
              simp [h1, h2, List.mem_cons]
        rw [List.filter_congr hpred, List.append_assoc]
      · simp only [if_neg hs]
        rw [List.nil_append]

/-- The full publisher phase on `publisherStudios`. -/
theorem pubPhase_ps_char (now : Nat) :
    ∀ (files : List (String × ParsedMarkdown)) (st : SyncState),
      (files.map docSlug).Nodup →
      (files.foldl (syncPublisherFile now) st).store.publisherStudios
        = st.store.publisherStudios.filter
            (fun p => p.1 ∉ activePubSlugs files)
          ++ files.flatMap psDoc := by
  intro files
  induction files with
  | nil =>
    intro st _
    have hid : st.store.publisherStudios.filter
        (fun p => p.1 ∉ activePubSlugs []) = st.store.publisherStudios := by
      rw [List.filter_eq_self]
      intro x _
      simp [activePubSlugs]
    rw [List.flatMap_nil, List.append_nil]
    exact hid.symm
  | cons f rest ih =>
    intro st hnd
    rw [List.map_cons, List.nodup_cons] at hnd
    obtain ⟨path, pm⟩ := f
    rw [List.foldl_cons, ih _ hnd.2, syncPublisherFile_ps,
      List.flatMap_cons, psDoc_pair, activePubSlugs_cons]
    cases hv : publisherFrontmatterSchema pm.frontmatter with
    | none =>
      dsimp only
      rw [List.nil_append]
    | some fm =>
      dsimp only
      by_cases hs : fm.studios ≠ []
      · simp only [if_pos hs]
        have hslugnot : slugFromPath path ∉ activePubSlugs rest :=
          fun hmem => hnd.1 (activePubSlugs_sub rest _ hmem)
        have hkeep : (fm.studios.map
              (fun s => (slugFromPath path, s))).filter
              (fun p => p.1 ∉ activePubSlugs rest)
            = fm.studios.map (fun s => (slugFromPath path, s)) := by
          rw [List.filter_eq_self]
          intro q hq
          rcases List.mem_map.mp hq with ⟨s, _, rfl⟩
          simpa using hslugnot
        rw [List.filter_append, hkeep, List.filter_filter]
        have hpred : ∀ x ∈ st.store.publisherStudios,
            (decide (x.1 ∉ activePubSlugs rest)
              && decide (x.1 ≠ slugFromPath path))
            = decide (x.1 ∉ slugFromPath path :: activePubSlugs rest) := by
          intro x _
          by_cases h1 : x.1 = slugFromPath path
          · simp [h1]
          · by_cases h2 : x.1 ∈ activePubSlugs rest <;>
              simp [h1, h2, List.mem_cons]
        rw [List.filter_congr hpred, List.append_assoc]
      · simp only [if_neg hs]
        rw [List.nil_append]

/-- Every re-inserted `relatedStudios` row belongs to a replacing
document. -/
theorem rsDoc_all_active :
    ∀ (files : List (String × ParsedMarkdown)) (q : String × String),
      q ∈ files.flatMap rsDoc → q.1 ∈ activeStudioSlugs files := by
  intro files q hq
  rcases List.mem_flatMap.mp hq with ⟨f, hf, hqf⟩
  unfold rsDoc at hqf
  cases h : studioFrontmatterSchema f.2.frontmatter with
  | none =>
    rw [h] at hqf
    exact absurd hqf (List.not_mem_nil _)
  | some fm =>
    rw [h] at hqf
    dsimp only at hqf
    by_cases hs : fm.studios ≠ []
    · rw [if_pos hs] at hqf
      rcases List.mem_map.mp hqf with ⟨r, hr, rfl⟩
      refine List.mem_filterMap.mpr ⟨f, hf, ?_⟩
      dsimp only
      rw [h]
      dsimp only
      rw [if_pos hs]
    · rw [if_neg hs] at hqf
      exact absurd hqf (List.not_mem_nil _)

theorem psDoc_all_active :
    ∀ (files : List (String × ParsedMarkdown)) (q : String × String),
      q ∈ files.flatMap psDoc → q.1 ∈ activePubSlugs files := by
  intro files q hq
  rcases List.mem_flatMap.mp hq with ⟨f, hf, hqf⟩
  unfold psDoc at hqf
  cases h : publisherFrontmatterSchema f.2.frontmatter with
  | none =>
    rw [h] at hqf
    exact absurd hqf (List.not_mem_nil _)
  | some fm =>
    rw [h] at hqf
    dsimp only at hqf
    by_cases hs : fm.studios ≠ []
    · rw [if_pos hs] at hqf
      rcases List.mem_map.mp hqf with ⟨s, hs2, rfl⟩
      refine List.mem_filterMap.mpr ⟨f, hf, ?_⟩
      dsimp only
      rw [h]
      dsimp only
      rw [if_pos hs]
    · rw [if_neg hs] at hqf
      exact absurd hqf (List.not_mem_nil _)

theorem rsDoc_filter_nil (files : List (String × ParsedMarkdown)) :
    (files.flatMap rsDoc).filter
        (fun p => p.1 ∉ activeStudioSlugs files) = [] := by
  rw [List.filter_eq_nil_iff]
  intro q hq h
  rw [decide_eq_true_eq] at h
  exact h (rsDoc_all_active files q hq)

theorem psDoc_filter_nil (files : List (String × ParsedMarkdown)) :
    (files.flatMap psDoc).filter
        (fun p => p.1 ∉ activePubSlugs files) = [] := by
  rw [List.filter_eq_nil_iff]
  intro q hq h
  rw [decide_eq_true_eq] at h
  exact h (psDoc_all_active files q hq)

/-! ### Membership through the checked reverse inserts -/

theorem addStudioGamePairs_mem (slug : String) :
    ∀ (games : List String) (gd : List (String × String))
      (q : String × String),
      q ∈ addStudioGamePairs slug gd games ↔
        q ∈ gd ∨ ∃ g ∈ games, q = (g, slug) := by
  intro games
  induction games with
  | nil =>
    intro gd q
    simp [addStudioGamePairs]
  | cons g rest ih =>
    intro gd q
    have hstep :
        ∀ (acc : List (String × String)),
          (q ∈ (if acc.any (fun p => p.1 = g ∧ p.2 = slug) then acc
            else acc ++ [(g, slug)])) ↔ q ∈ acc ∨ q = (g, slug) := by
      intro acc
      by_cases hany : acc.any (fun p => p.1 = g ∧ p.2 = slug)
      · rw [if_pos hany]
        simp only [List.any_eq_true, decide_eq_true_eq] at hany
        obtain ⟨⟨a, b⟩, hp, h1, h2⟩ := hany
        dsimp only at h1 h2
        subst h1
        subst h2
        constructor
        · exact Or.inl
        · rintro (h | rfl)
          · exact h
          · exact hp
      · rw [if_neg hany]
        rw [List.mem_append, List.mem_singleton]
    have hfold : addStudioGamePairs slug gd (g :: rest)
        = addStudioGamePairs slug
            (if gd.any (fun p => p.1 = g ∧ p.2 = slug) then gd
              else gd ++ [(g, slug)]) rest := by
      unfold addStudioGamePairs
      rw [List.foldl_cons]
    rw [hfold, ih, hstep]
    constructor
    · rintro ((h | rfl) | ⟨g', hg', hq⟩)
      · exact Or.inl h
      · exact Or.inr ⟨g, List.mem_cons_self _ _, rfl⟩
      · exact Or.inr ⟨g', List.mem_cons_of_mem _ hg', hq⟩
    · rintro (h | ⟨g', hg', hq⟩)
      · exact Or.inl (Or.inl h)
      · rcases List.mem_cons.mp hg' with rfl | hg'
        · exact Or.inl (Or.inr hq)
        · exact Or.inr ⟨g', hg', hq⟩

theorem addPublisherGamePairs_mem (slug : String) :
    ∀ (games : List String) (gp : List (String × String))
      (q : String × String),
      q ∈ addPublisherGamePairs slug gp games ↔
        q ∈ gp ∨ ∃ g ∈ games, q = (g, slug) := by
  intro games
  induction games with
  | nil =>
    intro gp q
    simp [addPublisherGamePairs]
  | cons g rest ih =>
    intro gp q
    have hstep :
        ∀ (acc : List (String × String)),
          (q ∈ (if acc.any (fun p => p.1 = g ∧ p.2 = slug) then acc
            else acc ++ [(g, slug)])) ↔ q ∈ acc ∨ q = (g, slug) := by
      intro acc
      by_cases hany : acc.any (fun p => p.1 = g ∧ p.2 = slug)
      · rw [if_pos hany]
        simp only [List.any_eq_true, decide_eq_true_eq] at hany
        obtain ⟨⟨a, b⟩, hp, h1, h2⟩ := hany
        dsimp only at h1 h2
        subst h1
        subst h2
        constructor
        · exact Or.inl
        · rintro (h | rfl)
          · exact h
          · exact hp
      · rw [if_neg hany]
        rw [List.mem_append, List.mem_singleton]
    have hfold : addPublisherGamePairs slug gp (g :: rest)
        = addPublisherGamePairs slug
            (if gp.any (fun p => p.1 = g ∧ p.2 = slug) then gp
              else gp ++ [(g, slug)]) rest := by
      unfold addPublisherGamePairs
      rw [List.foldl_cons]
    rw [hfold, ih, hstep]
    constructor
    · rintro ((h | rfl) | ⟨g', hg', hq⟩)
      · exact Or.inl h
      · exact Or.inr ⟨g, List.mem_cons_self _ _, rfl⟩
      · exact Or.inr ⟨g', List.mem_cons_of_mem _ hg', hq⟩
    · rintro (h | ⟨g', hg', hq⟩)
      · exact Or.inl (Or.inl h)
      · rcases List.mem_cons.mp hg' with rfl | hg'
        · exact Or.inl (Or.inr hq)
        · exact Or.inr ⟨g', hg', hq⟩

theorem syncStudioFile_gd_mem (now : Nat) (st : SyncState)
    (path : String) (pm : ParsedMarkdown) (q : String × String) :
    q ∈ (syncStudioFile now st (path, pm)).store.gameDevelopers ↔
      q ∈ st.store.gameDevelopers ∨ q ∈ sgDoc (path, pm) := by
  rw [syncStudioFile_gd, sgDoc_pair]
  cases hv : studioFrontmatterSchema pm.frontmatter with
  | none =>
    dsimp only
    simp
  | some fm =>
    dsimp only
    rw [addStudioGamePairs_mem]
    constructor
    · rintro (h | ⟨g, hg, rfl⟩)
      · exact Or.inl h
      · exact Or.inr (List.mem_map_of_mem _ hg)
    · rintro (h | h)
      · exact Or.inl h
      · rcases List.mem_map.mp h with ⟨g, hg, rfl⟩
        exact Or.inr ⟨g, hg, rfl⟩

theorem studioPhase_gd_mem (now : Nat) :
    ∀ (files : List (String × ParsedMarkdown)) (st : SyncState)
      (q : String × String),
      q ∈ (files.foldl (syncStudioFile now) st).store.gameDevelopers ↔
        q ∈ st.store.gameDevelopers ∨ q ∈ files.flatMap sgDoc := by
  intro files
  induction files with
  | nil =>
    intro st q
    simp
  | cons f rest ih =>
    intro st q
    obtain ⟨path, pm⟩ := f
    rw [List.foldl_cons, ih, syncStudioFile_gd_mem, List.flatMap_cons,
      List.mem_append]
    tauto

theorem syncPublisherFile_gp_mem (now : Nat) (st : SyncState)
    (path : String) (pm : ParsedMarkdown) (q : String × String) :
    q ∈ (syncPublisherFile now st (path, pm)).store.gamePublishers ↔
      q ∈ st.store.gamePublishers ∨ q ∈ pgDoc (path, pm) := by
  rw [syncPublisherFile_gp, pgDoc_pair]
  cases hv : publisherFrontmatterSchema pm.frontmatter with
  | none =>
    dsimp only
    simp
  | some fm =>
    dsimp only
    rw [addPublisherGamePairs_mem]
    constructor
    · rintro (h | ⟨g, hg, rfl⟩)
      · exact Or.inl h
      · exact Or.inr (List.mem_map_of_mem _ hg)
    · rintro (h | h)
      · exact Or.inl h
      · rcases List.mem_map.mp h with ⟨g, hg, rfl⟩
        exact Or.inr ⟨g, hg, rfl⟩

theorem pubPhase_gp_mem (now : Nat) :
    ∀ (files : List (String × ParsedMarkdown)) (st : SyncState)
      (q : String × String),
      q ∈ (files.foldl (syncPublisherFile now) st).store.gamePublishers ↔
        q ∈ st.store.gamePublishers ∨ q ∈ files.flatMap pgDoc := by
  intro files
  induction files with
  | nil =>
    intro st q
    simp
  | cons f rest ih =>
    intro st q
    obtain ⟨path, pm⟩ := f
    rw [List.foldl_cons, ih, syncPublisherFile_gp_mem, List.flatMap_cons,
      List.mem_append]
    tauto

/-- The catalog phase leaves every store component except `games`
untouched. -/
theorem csvPhase_rest (now : Nat) :
    ∀ (gs : List ParsedCsvGame) (st : SyncState),
      (gs.foldl (syncCsvGame now) st).store.studios = st.store.studios ∧
      (gs.foldl (syncCsvGame now) st).store.publishers
        = st.store.publishers ∧
      (gs.foldl (syncCsvGame now) st).store.designers
        = st.store.designers ∧
      (gs.foldl (syncCsvGame now) st).store.gamePublishers
        = st.store.gamePublishers ∧
      (gs.foldl (syncCsvGame now) st).store.publisherStudios
        = st.store.publisherStudios ∧
      (gs.foldl (syncCsvGame now) st).store.relatedStudios
        = st.store.relatedStudios := by
  intro gs
  induction gs with
  | nil => intro st; exact ⟨rfl, rfl, rfl, rfl, rfl, rfl⟩
  | cons g rest ih =>
    intro st
    obtain ⟨a1, a2, a3, a4, a5, a6⟩ := ih (syncCsvGame now st g)
    obtain ⟨b1, b2, b3, b4, b5, b6, _, _, _⟩ :=
      syncCsvGame_store_rest now st g
    rw [List.foldl_cons]
    exact ⟨a1.trans b1, a2.trans b2, a3.trans b3, a4.trans b4,
      a5.trans b5, a6.trans b6⟩

/-! ### Named intermediate states of one full run -/

/-- State after phase 2 (game documents). -/
def st1R (t : Nat) (c : Corpus) (s0 : Store) : SyncState :=
  c.gameFiles.foldl (syncGameFile t) (initState c s0)

/-- State after phase 2.5 (CSV catalog). -/
def st2R (t : Nat) (c : Corpus) (s0 : Store) : SyncState :=
  (csvGamesOf c).foldl (syncCsvGame t) (st1R t c s0)

/-- State after phase 3 (studio documents). -/
def st3R (t : Nat) (c : Corpus) (s0 : Store) : SyncState :=
  c.studioFiles.foldl (syncStudioFile t) (st2R t c s0)

/-- State after phase 4 (publisher documents). -/
def st4R (t : Nat) (c : Corpus) (s0 : Store) : SyncState :=
  c.publisherFiles.foldl (syncPublisherFile t) (st3R t c s0)

/-- State after phase 4.5 (designer documents). -/
def st5R (t : Nat) (c : Corpus) (s0 : Store) : SyncState :=
  c.designerFiles.foldl (syncDesignerFile t) (st4R t c s0)

/-- Phase 5 applied to a phase-2–4 result. -/
def stubbedStore (t : Nat) (st : SyncState) : Store :=
  stubDesignersPhase t st.refDesigners
    (stubPublishersPhase t st.refPublishers
      (stubStudiosPhase t st.refStudios st.store))

theorem syncAllState_store (t : Nat) (c : Corpus) (s0 : Store) :
    (syncAllState t c s0).store = stubbedStore t (st5R t c s0) := rfl

theorem syncAllState_report (t : Nat) (c : Corpus) (s0 : Store) :
    (syncAllState t c s0).report = (st5R t c s0).report := rfl

theorem st5R_refs (t : Nat) (c : Corpus) (s0 : Store) :
    (st5R t c s0).refStudios = collectRefStudios c ∧
    (st5R t c s0).refPublishers = collectRefPublishers c ∧
    (st5R t c s0).refDesigners = collectRefDesigners c :=
  syncPhases_refs t c s0

theorem map_slug_docGameRow (now : Nat) :
    ∀ (files : List (String × ParsedMarkdown)),
      (files.map (docGameRow now)).map GameRow.slug
        = files.map docSlug := by
  intro files
  induction files with
  | nil => rfl
  | cons f rest ih => simp [ih, docGameRow_slug]

theorem map_slug_docStudioRow (now : Nat) :
    ∀ (files : List (String × ParsedMarkdown)),
      (files.map (docStudioRow now)).map StudioRow.slug
        = files.map docSlug := by
  intro files
  induction files with
  | nil => rfl
  | cons f rest ih => simp [ih, docStudioRow_slug]

theorem map_slug_docPublisherRow (now : Nat) :
    ∀ (files : List (String × ParsedMarkdown)),
      (files.map (docPublisherRow now)).map PublisherRow.slug
        = files.map docSlug := by
  intro files
  induction files with
  | nil => rfl
  | cons f rest ih => simp [ih]; rfl

theorem map_slug_docDesignerRow (now : Nat) :
    ∀ (files : List (String × ParsedMarkdown)),
      (files.map (docDesignerRow now)).map DesignerRow.slug
        = files.map docSlug := by
  intro files
  induction files with
  | nil => rfl
  | cons f rest ih => simp [ih]; rfl

/-! ### Stub-phase composition: component views -/

theorem stubbedStore_games (t : Nat) (st : SyncState) :
    (stubbedStore t st).games = st.store.games := by
  unfold stubbedStore
  rw [(stubDesignersPhase_rest t _ _).1, (stubPublishersPhase_rest t _ _).1,
    (stubStudiosPhase_rest t _ _).1]

theorem stubbedStore_gd (t : Nat) (st : SyncState) :
    (stubbedStore t st).gameDevelopers = st.store.gameDevelopers := by
  unfold stubbedStore
  rw [stubDesignersPhase_gd, stubPublishersPhase_gd, stubStudiosPhase_gd]

theorem stubbedStore_gp (t : Nat) (st : SyncState) :
    (stubbedStore t st).gamePublishers = st.store.gamePublishers := by
  unfold stubbedStore
  rw [(stubDesignersPhase_rest t _ _).2.2.2.1,
    (stubPublishersPhase_rest t _ _).2.2.2.1,
    (stubStudiosPhase_rest t _ _).2.2.2.1]

theorem stubbedStore_ps (t : Nat) (st : SyncState) :
    (stubbedStore t st).publisherStudios = st.store.publisherStudios := by
  unfold stubbedStore
  rw [(stubDesignersPhase_rest t _ _).2.2.2.2.1,
    (stubPublishersPhase_rest t _ _).2.2.2.2.1,
    (stubStudiosPhase_rest t _ _).2.2.2.2.1]

theorem stubbedStore_rs (t : Nat) (st : SyncState) :
    (stubbedStore t st).relatedStudios = st.store.relatedStudios := by
  unfold stubbedStore
  rw [(stubDesignersPhase_rest t _ _).2.2.2.2.2,
    (stubPublishersPhase_rest t _ _).2.2.2.2.2,
    (stubStudiosPhase_rest t _ _).2.2.2.2.2]

theorem stubbedStore_studios (t : Nat) (st : SyncState) :
    (stubbedStore t st).studios
      = (stubStudiosPhase t st.refStudios st.store).studios := by
  unfold stubbedStore
  rw [(stubDesignersPhase_rest t _ _).2.1,
    (stubPublishersPhase_rest t _ _).2.1]

theorem stubbedStore_pubs (t : Nat) (st : SyncState) :
    (stubbedStore t st).publishers
      = (stubPublishersPhase t st.refPublishers
          (stubStudiosPhase t st.refStudios st.store)).publishers := by
  unfold stubbedStore
  rw [(stubDesignersPhase_rest t _ _).2.2.1]

/-! ### Component flow through phases 2–4 -/

theorem st5R_games_eq (t : Nat) (c : Corpus) (s0 : Store) :
    (st5R t c s0).store.games = (st2R t c s0).store.games := by
  have h3 := (studioPhase_rest t c.studioFiles (st2R t c s0)).1
  have h4 := (pubPhase_rest t c.publisherFiles (st3R t c s0)).1
  have h5 := (designerPhase_rest t c.designerFiles (st4R t c s0)).1
  exact h5.trans (h4.trans h3)

theorem st2R_studios_eq (t : Nat) (c : Corpus) (s0 : Store) :
    (st2R t c s0).store.studios = s0.studios := by
  have h1 := (gamePhase_rest t c.gameFiles (initState c s0)).1
  have h2 := (csvPhase_rest t (csvGamesOf c) (st1R t c s0)).1
  exact h2.trans h1

theorem st5R_studios_eq (t : Nat) (c : Corpus) (s0 : Store) :
    (st5R t c s0).store.studios = (st3R t c s0).store.studios := by
  have h4 := (pubPhase_rest t c.publisherFiles (st3R t c s0)).2.1
  have h5 := (designerPhase_rest t c.designerFiles (st4R t c s0)).2.1
  exact h5.trans h4

theorem st3R_pubs_eq (t : Nat) (c : Corpus) (s0 : Store) :
    (st3R t c s0).store.publishers = s0.publishers := by
  have h1 := (gamePhase_rest t c.gameFiles (initState c s0)).2.1
  have h2 := (csvPhase_rest t (csvGamesOf c) (st1R t c s0)).2.1
  have h3 := (studioPhase_rest t c.studioFiles (st2R t c s0)).2.1
  exact h3.trans (h2.trans h1)

theorem st5R_pubs_eq (t : Nat) (c : Corpus) (s0 : Store) :
    (st5R t c s0).store.publishers = (st4R t c s0).store.publishers :=
  (designerPhase_rest t c.designerFiles (st4R t c s0)).2.2.1

theorem st4R_designers_eq (t : Nat) (c : Corpus) (s0 : Store) :
    (st4R t c s0).store.designers = s0.designers := by
  have h1 := (gamePhase_rest t c.gameFiles (initState c s0)).2.2.1
  have h2 := (csvPhase_rest t (csvGamesOf c) (st1R t c s0)).2.2.1
  have h3 := (studioPhase_rest t c.studioFiles (st2R t c s0)).2.2.1
  have h4 := (pubPhase_rest t c.publisherFiles (st3R t c s0)).2.2.1
  exact h4.trans (h3.trans (h2.trans h1))

theorem st2R_gd_eq (t : Nat) (c : Corpus) (s0 : Store) :
    (st2R t c s0).store.gameDevelopers
      = (st1R t c s0).store.gameDevelopers :=
  csvPhase_gd t (csvGamesOf c) (st1R t c s0)

theorem st5R_gd_eq (t : Nat) (c : Corpus) (s0 : Store) :
    (st5R t c s0).store.gameDevelopers
      = (st3R t c s0).store.gameDevelopers := by
  have h4 := pubPhase_gd t c.publisherFiles (st3R t c s0)
  have h5 := designerPhase_gd t c.designerFiles (st4R t c s0)
  exact h5.trans h4

theorem st3R_gp_eq (t : Nat) (c : Corpus) (s0 : Store) :
    (st3R t c s0).store.gamePublishers
      = (st1R t c s0).store.gamePublishers := by
  have h2 := (csvPhase_rest t (csvGamesOf c) (st1R t c s0)).2.2.2.1
  have h3 := (studioPhase_rest t c.studioFiles (st2R t c s0)).2.2.2.1
  exact h3.trans h2

theorem st5R_gp_eq (t : Nat) (c : Corpus) (s0 : Store) :
    (st5R t c s0).store.gamePublishers
      = (st4R t c s0).store.gamePublishers :=
  (designerPhase_rest t c.designerFiles (st4R t c s0)).2.2.2.1

theorem st2R_rs_eq (t : Nat) (c : Corpus) (s0 : Store) :
    (st2R t c s0).store.relatedStudios = s0.relatedStudios := by
  have h1 := (gamePhase_rest t c.gameFiles (initState c s0)).2.2.2.2
  have h2 := (csvPhase_rest t (csvGamesOf c) (st1R t c s0)).2.2.2.2.2
  exact h2.trans h1

theorem st5R_rs_eq (t : Nat) (c : Corpus) (s0 : Store) :
    (st5R t c s0).store.relatedStudios
      = (st3R t c s0).store.relatedStudios := by
  have h4 := (pubPhase_rest t c.publisherFiles (st3R t c s0)).2.2.2
  have h5 := (designerPhase_rest t c.designerFiles (st4R t c s0)).2.2.2.2.2
  exact h5.trans h4

theorem st3R_ps_eq (t : Nat) (c : Corpus) (s0 : Store) :
    (st3R t c s0).store.publisherStudios = s0.publisherStudios := by
  have h1 := (gamePhase_rest t c.gameFiles (initState c s0)).2.2.2.1
  have h2 := (csvPhase_rest t (csvGamesOf c) (st1R t c s0)).2.2.2.2.1
  have h3 := (studioPhase_rest t c.studioFiles (st2R t c s0)).2.2.2.2
  exact h3.trans (h2.trans h1)

theorem st5R_ps_eq (t : Nat) (c : Corpus) (s0 : Store) :
    (st5R t c s0).store.publisherStudios
      = (st4R t c s0).store.publisherStudios :=
  (designerPhase_rest t c.designerFiles (st4R t c s0)).2.2.2.2.1

/-! ### What the first run (from an empty store) leaves behind -/

theorem run1_games (t1 : Nat) (c : Corpus)
    (HndG : (c.gameFiles.map docSlug).Nodup) :
    (((syncAllState t1 c emptyStore).store.games).map GameRow.slug).Nodup ∧
    (∀ f ∈ c.gameFiles,
      docGameRow t1 f ∈ (syncAllState t1 c emptyStore).store.games) ∧
    (∀ e ∈ csvGamesOf c,
      gameSlugExists (syncAllState t1 c emptyStore).store.games
        e.slug) := by
  have h1 : (st1R t1 c emptyStore).store.games
      = c.gameFiles.map (docGameRow t1) := by
    have hdisj : ∀ f ∈ c.gameFiles,
        ¬ gameSlugExists (initState c emptyStore).store.games
          (docSlug f) := by
      intro f _ hex
      obtain ⟨r, hr, _⟩ := hex
      exact absurd hr (List.not_mem_nil _)
    have h := gamePhase_games_from t1 c.gameFiles (initState c emptyStore)
      HndG hdisj
    rw [show (initState c emptyStore).store.games = [] from rfl,
      List.nil_append] at h
    exact h
  have hnd1 : ((st1R t1 c emptyStore).store.games.map
      GameRow.slug).Nodup := by
    rw [h1, map_slug_docGameRow]
    exact HndG
  have hnd2 : ((st2R t1 c emptyStore).store.games.map
      GameRow.slug).Nodup :=
    csvPhase_games_nodup t1 (csvGamesOf c) (st1R t1 c emptyStore) hnd1
  have hmem2 : ∀ f ∈ c.gameFiles,
      docGameRow t1 f ∈ (st2R t1 c emptyStore).store.games := by
    intro f hf
    exact csvPhase_games_mono t1 (csvGamesOf c) (st1R t1 c emptyStore) _
      (by rw [h1]; exact List.mem_map_of_mem _ hf)
  have hcsv2 : ∀ e ∈ csvGamesOf c,
      gameSlugExists (st2R t1 c emptyStore).store.games e.slug :=
    csvPhase_exists_after t1 (csvGamesOf c) (st1R t1 c emptyStore)
  have hfin : (syncAllState t1 c emptyStore).store.games
      = (st2R t1 c emptyStore).store.games := by
    rw [syncAllState_store, stubbedStore_games, st5R_games_eq]
  refine ⟨?_, ?_, ?_⟩
  · rw [hfin]
    exact hnd2
  · intro f hf
    rw [hfin]
    exact hmem2 f hf
  · intro e he
    rw [hfin]
    exact hcsv2 e he

theorem run1_studios (t1 : Nat) (c : Corpus)
    (HndS : (c.studioFiles.map docSlug).Nodup) :
    (((syncAllState t1 c emptyStore).store.studios).map
      StudioRow.slug).Nodup ∧
    (∀ f ∈ c.studioFiles,
      docStudioRow t1 f ∈ (syncAllState t1 c emptyStore).store.studios) ∧
    (∀ x ∈ collectRefStudios c,
      studioSlugExists (syncAllState t1 c emptyStore).store.studios
        x) := by
  have h3 : (st3R t1 c emptyStore).store.studios
      = c.studioFiles.map (docStudioRow t1) := by
    have hdisj : ∀ f ∈ c.studioFiles,
        ¬ studioSlugExists (st2R t1 c emptyStore).store.studios
          (docSlug f) := by
      intro f _ hex
      obtain ⟨r, hr, _⟩ := hex
      rw [st2R_studios_eq t1 c emptyStore] at hr
      exact absurd hr (List.not_mem_nil _)
    have h := studioPhase_studios_from t1 c.studioFiles
      (st2R t1 c emptyStore) HndS hdisj
    rw [st2R_studios_eq t1 c emptyStore,
      show emptyStore.studios = [] from rfl, List.nil_append] at h
    exact h
  have hview : (syncAllState t1 c emptyStore).store.studios
      = (stubStudiosPhase t1 (st5R t1 c emptyStore).refStudios
          (st5R t1 c emptyStore).store).studios := by
    rw [syncAllState_store, stubbedStore_studios]
  have h5 : (st5R t1 c emptyStore).store.studios
      = c.studioFiles.map (docStudioRow t1) :=
    (st5R_studios_eq t1 c emptyStore).trans h3
  refine ⟨?_, ?_, ?_⟩
  · rw [hview]
    apply stubStudiosPhase_nodup
    rw [h5, map_slug_docStudioRow]
    exact HndS
  · intro f hf
    rw [hview]
    apply stubStudiosPhase_studios_mono
    rw [h5]
    exact List.mem_map_of_mem _ hf
  · intro x hx
    rw [hview]
    apply stubStudiosPhase_complete
    rw [(st5R_refs t1 c emptyStore).1]
    exact hx

theorem run1_pubs (t1 : Nat) (c : Corpus)
    (HndP : (c.publisherFiles.map docSlug).Nodup) :
    (((syncAllState t1 c emptyStore).store.publishers).map
      PublisherRow.slug).Nodup ∧
    (∀ f ∈ c.publisherFiles,
      docPublisherRow t1 f
        ∈ (syncAllState t1 c emptyStore).store.publishers) ∧
    (∀ x ∈ collectRefPublishers c,
      pubSlugExists (syncAllState t1 c emptyStore).store.publishers
        x) := by
  have h4 : (st4R t1 c emptyStore).store.publishers
      = c.publisherFiles.map (docPublisherRow t1) := by
    have hdisj : ∀ f ∈ c.publisherFiles,
        ¬ pubSlugExists (st3R t1 c emptyStore).store.publishers
          (docSlug f) := by
      intro f _ hex
      obtain ⟨r, hr, _⟩ := hex
      rw [st3R_pubs_eq t1 c emptyStore] at hr
      exact absurd hr (List.not_mem_nil _)
    have h := pubPhase_pubs_from t1 c.publisherFiles
      (st3R t1 c emptyStore) HndP hdisj
    rw [st3R_pubs_eq t1 c emptyStore,
      show emptyStore.publishers = [] from rfl, List.nil_append] at h
    exact h
  have hview : (syncAllState t1 c emptyStore).store.publishers
      = (stubPublishersPhase t1 (st5R t1 c emptyStore).refPublishers
          (stubStudiosPhase t1 (st5R t1 c emptyStore).refStudios
            (st5R t1 c emptyStore).store)).publishers := by
    rw [syncAllState_store, stubbedStore_pubs]
  have hinner : (stubStudiosPhase t1 (st5R t1 c emptyStore).refStudios
      (st5R t1 c emptyStore).store).publishers
      = c.publisherFiles.map (docPublisherRow t1) := by
    rw [(stubStudiosPhase_rest t1 _ _).2.1, st5R_pubs_eq t1 c emptyStore,
      h4]
  refine ⟨?_, ?_, ?_⟩
  · rw [hview]
    apply stubPublishersPhase_nodup
    rw [hinner, map_slug_docPublisherRow]
    exact HndP
  · intro f hf
    rw [hview]
    apply stubPublishersPhase_pubs_mono
    rw [hinner]
    exact List.mem_map_of_mem _ hf
  · intro x hx
    rw [hview]
    apply stubPublishersPhase_complete
    rw [(st5R_refs t1 c emptyStore).2.1]
    exact hx

theorem run1_designers (t1 : Nat) (c : Corpus)
    (HndD : (c.designerFiles.map docSlug).Nodup) :
    (((syncAllState t1 c emptyStore).store.designers).map
      DesignerRow.slug).Nodup ∧
    (∀ f ∈ c.designerFiles,
      docDesignerRow t1 f
        ∈ (syncAllState t1 c emptyStore).store.designers) ∧
    (∀ x ∈ collectRefDesigners c,
      designerSlugExists (syncAllState t1 c emptyStore).store.designers
        x) := by
  have h5 : (st5R t1 c emptyStore).store.designers
      = c.designerFiles.map (docDesignerRow t1) := by
    have hdisj : ∀ f ∈ c.designerFiles,
        ¬ designerSlugExists (st4R t1 c emptyStore).store.designers
          (docSlug f) := by
      intro f _ hex
      obtain ⟨r, hr, _⟩ := hex
      rw [st4R_designers_eq t1 c emptyStore] at hr
      exact absurd hr (List.not_mem_nil _)
    have h := designerPhase_des_from t1 c.designerFiles
      (st4R t1 c emptyStore) HndD hdisj
    rw [st4R_designers_eq t1 c emptyStore,
      show emptyStore.designers = [] from rfl, List.nil_append] at h
    exact h
  have hview : (syncAllState t1 c emptyStore).store.designers
      = (stubDesignersPhase t1 (st5R t1 c emptyStore).refDesigners
          (stubPublishersPhase t1 (st5R t1 c emptyStore).refPublishers
            (stubStudiosPhase t1 (st5R t1 c emptyStore).refStudios
              (st5R t1 c emptyStore).store))).designers := by
    rw [syncAllState_store]
    rfl
  have hinner : (stubPublishersPhase t1
      (st5R t1 c emptyStore).refPublishers
      (stubStudiosPhase t1 (st5R t1 c emptyStore).refStudios
        (st5R t1 c emptyStore).store)).designers
      = c.designerFiles.map (docDesignerRow t1) := by
    rw [(stubPublishersPhase_rest t1 _ _).2.2.1,
      (stubStudiosPhase_rest t1 _ _).2.2.1, h5]
  refine ⟨?_, ?_, ?_⟩
  · rw [hview]
    apply stubDesignersPhase_nodup
    rw [hinner, map_slug_docDesignerRow]
    exact HndD
  · intro f hf
    rw [hview]
    apply stubDesignersPhase_des_mono
    rw [hinner]
    exact List.mem_map_of_mem _ hf
  · intro x hx
    rw [hview]
    apply stubDesignersPhase_complete
    rw [(st5R_refs t1 c emptyStore).2.2]
    exact hx

theorem run1_junctions (t1 : Nat) (c : Corpus)
    (HndG : (c.gameFiles.map docSlug).Nodup)
    (HndS : (c.studioFiles.map docSlug).Nodup)
    (HndP : (c.publisherFiles.map docSlug).Nodup) :
    (∀ q : String × String,
      q ∈ (syncAllState t1 c emptyStore).store.gameDevelopers ↔
        q ∈ c.gameFiles.flatMap gdDoc ∨
          q ∈ c.studioFiles.flatMap sgDoc) ∧
    (∀ q : String × String,
      q ∈ (syncAllState t1 c emptyStore).store.gamePublishers ↔
        q ∈ c.gameFiles.flatMap gpDoc ∨
          q ∈ c.publisherFiles.flatMap pgDoc) ∧
    (syncAllState t1 c emptyStore).store.relatedStudios
      = c.studioFiles.flatMap rsDoc ∧
    (syncAllState t1 c emptyStore).store.publisherStudios
      = c.publisherFiles.flatMap psDoc := by
  have hgd1 : (st1R t1 c emptyStore).store.gameDevelopers
      = c.gameFiles.flatMap gdDoc := by
    have h := gamePhase_gd_char t1 c.gameFiles (initState c emptyStore)
      HndG
    rw [show (initState c emptyStore).store.gameDevelopers = [] from rfl,
      List.filter_nil, List.nil_append] at h
    exact h
  have hgp1 : (st1R t1 c emptyStore).store.gamePublishers
      = c.gameFiles.flatMap gpDoc := by
    have h := gamePhase_gp_char t1 c.gameFiles (initState c emptyStore)
      HndG
    rw [show (initState c emptyStore).store.gamePublishers = [] from rfl,
      List.filter_nil, List.nil_append] at h
    exact h
  have hgd3 : ∀ q : String × String,
      q ∈ (st3R t1 c emptyStore).store.gameDevelopers ↔
        q ∈ c.gameFiles.flatMap gdDoc ∨
          q ∈ c.studioFiles.flatMap sgDoc := by
    intro q
    have h := studioPhase_gd_mem t1 c.studioFiles (st2R t1 c emptyStore) q
    rw [st2R_gd_eq t1 c emptyStore, hgd1] at h
    exact h
  have hgp4 : ∀ q : String × String,
      q ∈ (st4R t1 c emptyStore).store.gamePublishers ↔
        q ∈ c.gameFiles.flatMap gpDoc ∨
          q ∈ c.publisherFiles.flatMap pgDoc := by
    intro q
    have h := pubPhase_gp_mem t1 c.publisherFiles (st3R t1 c emptyStore) q
    rw [st3R_gp_eq t1 c emptyStore, hgp1] at h
    exact h
  have hrs3 : (st3R t1 c emptyStore).store.relatedStudios
      = c.studioFiles.flatMap rsDoc := by
    have h := studioPhase_rs_char t1 c.studioFiles (st2R t1 c emptyStore)
      HndS
    rw [st2R_rs_eq t1 c emptyStore,
      show emptyStore.relatedStudios = [] from rfl,
      List.filter_nil, List.nil_append] at h
    exact h
  have hps4 : (st4R t1 c emptyStore).store.publisherStudios
      = c.publisherFiles.flatMap psDoc := by
    have h := pubPhase_ps_char t1 c.publisherFiles (st3R t1 c emptyStore)
      HndP
    rw [st3R_ps_eq t1 c emptyStore,
      show emptyStore.publisherStudios = [] from rfl,
      List.filter_nil, List.nil_append] at h
    exact h
  refine ⟨?_, ?_, ?_, ?_⟩
  · intro q
    rw [syncAllState_store, stubbedStore_gd, st5R_gd_eq t1 c emptyStore]
    exact hgd3 q
  · intro q
    rw [syncAllState_store, stubbedStore_gp, st5R_gp_eq t1 c emptyStore]
    exact hgp4 q
  · rw [syncAllState_store, stubbedStore_rs, st5R_rs_eq t1 c emptyStore]
    exact hrs3
  · rw [syncAllState_store, stubbedStore_ps, st5R_ps_eq t1 c emptyStore]
    exact hps4

/-! ### C2: a second run over the same corpus is a no-op -/

/-- Store equality as SQL sees it: entity tables and the two
single-owner junction tables row-for-row, and the two junction tables
fed from both directions (whose composite primary keys make them sets)
up to membership. -/
def storeEquiv (s t : Store) : Prop :=
  s.games = t.games ∧ s.studios = t.studios ∧
  s.publishers = t.publishers ∧ s.designers = t.designers ∧
  (∀ q : String × String, q ∈ s.gameDevelopers ↔ q ∈ t.gameDevelopers) ∧
  (∀ q : String × String, q ∈ s.gamePublishers ↔ q ∈ t.gamePublishers) ∧
  s.publisherStudios = t.publisherStudios ∧
  s.relatedStudios = t.relatedStudios

/-- **C2.**  Running `syncAll` a second time over the fixed corpus,
against the store the first run built from empty, creates zero rows,
updates zero rows and reports an empty change list, and leaves the store
unchanged (entity tables literally, the two doubly-fed junction tables as
the row sets their composite primary keys make them).  The `Nodup`
hypotheses state that the glob of each document kind yields distinct
slugs, which the real filesystem guarantees for distinct file names. -/
theorem c2_second_run_idempotent (t1 t2 : Nat) (c : Corpus)
    (HndG : (c.gameFiles.map docSlug).Nodup)
    (HndS : (c.studioFiles.map docSlug).Nodup)
    (HndP : (c.publisherFiles.map docSlug).Nodup)
    (HndD : (c.designerFiles.map docSlug).Nodup) :
    (syncAll t2 c (syncAll t1 c emptyStore).1).2.created = 0 ∧
    (syncAll t2 c (syncAll t1 c emptyStore).1).2.updated = 0 ∧
    (syncAll t2 c (syncAll t1 c emptyStore).1).2.changes = [] ∧
    storeEquiv (syncAll t2 c (syncAll t1 c emptyStore).1).1
      (syncAll t1 c emptyStore).1 := by
  obtain ⟨A1, A2, A3⟩ := run1_games t1 c HndG
  obtain ⟨D1, D2, D3⟩ := run1_studios t1 c HndS
  obtain ⟨G1, G2, G3⟩ := run1_pubs t1 c HndP
  obtain ⟨J1, J2, J3⟩ := run1_designers t1 c HndD
  obtain ⟨M, N, O, P⟩ := run1_junctions t1 c HndG HndS HndP
  -- run 2, phase 2 (game docs): table and accounting untouched
  obtain ⟨g2games, g2created, g2updated, g2changes⟩ :=
    run2_gamePhase t1 t2 c.gameFiles
      (initState c (syncAllState t1 c emptyStore).store) A1 A2
  have hG1 : (st1R t2 c (syncAllState t1 c emptyStore).store).store.games
      = (syncAllState t1 c emptyStore).store.games := g2games
  -- run 2, CSV phase: full no-op
  have hcsv : st2R t2 c (syncAllState t1 c emptyStore).store
      = st1R t2 c (syncAllState t1 c emptyStore).store := by
    show (csvGamesOf c).foldl (syncCsvGame t2)
        (st1R t2 c (syncAllState t1 c emptyStore).store)
      = st1R t2 c (syncAllState t1 c emptyStore).store
    apply csvPhase_noop
    intro e he
    rw [hG1]
    exact A3 e he
  -- run 2, phase 3 (studio docs)
  obtain ⟨s3studios, s3created, s3updated, s3changes⟩ :=
    run2_studioPhase t1 t2 c.studioFiles
      (st2R t2 c (syncAllState t1 c emptyStore).store)
      (by rw [st2R_studios_eq t2 c (syncAllState t1 c emptyStore).store]
          exact D1)
      (fun f hf => by
        rw [st2R_studios_eq t2 c (syncAllState t1 c emptyStore).store]
        exact D2 f hf)
  have hS3stu : (st3R t2 c
        (syncAllState t1 c emptyStore).store).store.studios
      = (syncAllState t1 c emptyStore).store.studios :=
    s3studios.trans
      (st2R_studios_eq t2 c (syncAllState t1 c emptyStore).store)
  -- run 2, phase 4 (publisher docs)
  obtain ⟨p4pubs, p4created, p4updated, p4changes⟩ :=
    run2_pubPhase t1 t2 c.publisherFiles
      (st3R t2 c (syncAllState t1 c emptyStore).store)
      (by rw [st3R_pubs_eq t2 c (syncAllState t1 c emptyStore).store]
          exact G1)
      (fun f hf => by
        rw [st3R_pubs_eq t2 c (syncAllState t1 c emptyStore).store]
        exact G2 f hf)
  have hP4 : (st4R t2 c
        (syncAllState t1 c emptyStore).store).store.publishers
      = (syncAllState t1 c emptyStore).store.publishers :=
    p4pubs.trans (st3R_pubs_eq t2 c (syncAllState t1 c emptyStore).store)
  -- run 2, phase 4.5 (designer docs)
  obtain ⟨d5des, d5created, d5updated, d5changes⟩ :=
    run2_designerPhase t1 t2 c.designerFiles
      (st4R t2 c (syncAllState t1 c emptyStore).store)
      (by rw [st4R_designers_eq t2 c (syncAllState t1 c emptyStore).store]
          exact J1)
      (fun f hf => by
        rw [st4R_designers_eq t2 c (syncAllState t1 c emptyStore).store]
        exact J2 f hf)
  have hD5 : (st5R t2 c
        (syncAllState t1 c emptyStore).store).store.designers
      = (syncAllState t1 c emptyStore).store.designers :=
    d5des.trans
      (st4R_designers_eq t2 c (syncAllState t1 c emptyStore).store)
  -- run-2 store components after phases 2–4
  have hSgames : (st5R t2 c
        (syncAllState t1 c emptyStore).store).store.games
      = (syncAllState t1 c emptyStore).store.games :=
    (st5R_games_eq t2 c (syncAllState t1 c emptyStore).store).trans
      (by rw [hcsv]; exact hG1)
  have hSstudios : (st5R t2 c
        (syncAllState t1 c emptyStore).store).store.studios
      = (syncAllState t1 c emptyStore).store.studios :=
    (st5R_studios_eq t2 c (syncAllState t1 c emptyStore).store).trans
      hS3stu
  have hSpubs : (st5R t2 c
        (syncAllState t1 c emptyStore).store).store.publishers
      = (syncAllState t1 c emptyStore).store.publishers :=
    (st5R_pubs_eq t2 c (syncAllState t1 c emptyStore).store).trans hP4
  -- relatedStudios: the second replacement reproduces the first
  have hrs2 : (st2R t2 c
        (syncAllState t1 c emptyStore).store).store.relatedStudios
      = c.studioFiles.flatMap rsDoc :=
    (st2R_rs_eq t2 c (syncAllState t1 c emptyStore).store).trans O
  have hrs3 : (st3R t2 c
        (syncAllState t1 c emptyStore).store).store.relatedStudios
      = c.studioFiles.flatMap rsDoc := by
    have h := studioPhase_rs_char t2 c.studioFiles
      (st2R t2 c (syncAllState t1 c emptyStore).store) HndS
    rw [hrs2, rsDoc_filter_nil, List.nil_append] at h
    exact h
  have hSrs : (st5R t2 c
        (syncAllState t1 c emptyStore).store).store.relatedStudios
      = (syncAllState t1 c emptyStore).store.relatedStudios :=
    (st5R_rs_eq t2 c (syncAllState t1 c emptyStore).store).trans
      (hrs3.trans O.symm)
  -- publisherStudios likewise
  have hps3 : (st3R t2 c
        (syncAllState t1 c emptyStore).store).store.publisherStudios
      = c.publisherFiles.flatMap psDoc :=
    (st3R_ps_eq t2 c (syncAllState t1 c emptyStore).store).trans P
  have hps4 : (st4R t2 c
        (syncAllState t1 c emptyStore).store).store.publisherStudios
      = c.publisherFiles.flatMap psDoc := by
    have h := pubPhase_ps_char t2 c.publisherFiles
      (st3R t2 c (syncAllState t1 c emptyStore).store) HndP
    rw [hps3, psDoc_filter_nil, List.nil_append] at h
    exact h
  have hSps : (st5R t2 c
        (syncAllState t1 c emptyStore).store).store.publisherStudios
      = (syncAllState t1 c emptyStore).store.publisherStudios :=
    (st5R_ps_eq t2 c (syncAllState t1 c emptyStore).store).trans
      (hps4.trans P.symm)
  -- gameDevelopers up to membership
  have hgd2 : (st2R t2 c
        (syncAllState t1 c emptyStore).store).store.gameDevelopers
      = ((syncAllState t1 c emptyStore).store.gameDevelopers.filter
          (fun p => p.1 ∉ validGameSlugs c.gameFiles))
        ++ c.gameFiles.flatMap gdDoc := by
    rw [st2R_gd_eq t2 c (syncAllState t1 c emptyStore).store]
    exact gamePhase_gd_char t2 c.gameFiles
      (initState c (syncAllState t1 c emptyStore).store) HndG
  have hgdS : ∀ q : String × String,
      q ∈ (st5R t2 c
          (syncAllState t1 c emptyStore).store).store.gameDevelopers ↔
        q ∈ (syncAllState t1 c emptyStore).store.gameDevelopers := by
    intro q
    rw [st5R_gd_eq t2 c (syncAllState t1 c emptyStore).store]
    have h3 : q ∈ (st3R t2 c
          (syncAllState t1 c emptyStore).store).store.gameDevelopers ↔
        q ∈ (st2R t2 c
          (syncAllState t1 c emptyStore).store).store.gameDevelopers ∨
          q ∈ c.studioFiles.flatMap sgDoc :=
      studioPhase_gd_mem t2 c.studioFiles
        (st2R t2 c (syncAllState t1 c emptyStore).store) q
    rw [h3, hgd2, M q]
    constructor
    · rintro (h | h)
      · rcases List.mem_append.mp h with h | h
        · exact (M q).mp (List.mem_filter.mp h).1
        · exact Or.inl h
      · exact Or.inr h
    · rintro (h | h)
      · exact Or.inl (List.mem_append_right _ h)
      · exact Or.inr h
  -- gamePublishers up to membership
  have hgp3 : (st3R t2 c
        (syncAllState t1 c emptyStore).store).store.gamePublishers
      = ((syncAllState t1 c emptyStore).store.gamePublishers.filter
          (fun p => p.1 ∉ validGameSlugs c.gameFiles))
        ++ c.gameFiles.flatMap gpDoc := by
    rw [st3R_gp_eq t2 c (syncAllState t1 c emptyStore).store]
    exact gamePhase_gp_char t2 c.gameFiles
      (initState c (syncAllState t1 c emptyStore).store) HndG
  have hgpS : ∀ q : String × String,
      q ∈ (st5R t2 c
          (syncAllState t1 c emptyStore).store).store.gamePublishers ↔
        q ∈ (syncAllState t1 c emptyStore).store.gamePublishers := by
    intro q
    rw [st5R_gp_eq t2 c (syncAllState t1 c emptyStore).store]
    have h4 : q ∈ (st4R t2 c
          (syncAllState t1 c emptyStore).store).store.gamePublishers ↔
        q ∈ (st3R t2 c
          (syncAllState t1 c emptyStore).store).store.gamePublishers ∨
          q ∈ c.publisherFiles.flatMap pgDoc :=
      pubPhase_gp_mem t2 c.publisherFiles
        (st3R t2 c (syncAllState t1 c emptyStore).store) q
    rw [h4, hgp3, N q]
    constructor
    · rintro (h | h)
      · rcases List.mem_append.mp h with h | h
        · exact (N q).mp (List.mem_filter.mp h).1
        · exact Or.inl h
      · exact Or.inr h
    · rintro (h | h)
      · exact Or.inl (List.mem_append_right _ h)
      · exact Or.inr h
  -- run-2 accounting: created/updated/changes never move
  have hc1 : (st1R t2 c
      (syncAllState t1 c emptyStore).store).report.created = 0 := g2created
  have hc2 : (st2R t2 c
      (syncAllState t1 c emptyStore).store).report.created = 0 := by
    rw [hcsv]; exact hc1
  have hc3 : (st3R t2 c
      (syncAllState t1 c emptyStore).store).report.created = 0 :=
    s3created.trans hc2
  have hc4 : (st4R t2 c
      (syncAllState t1 c emptyStore).store).report.created = 0 :=
    p4created.trans hc3
  have hc5 : (st5R t2 c
      (syncAllState t1 c emptyStore).store).report.created = 0 :=
    d5created.trans hc4
  have hu1 : (st1R t2 c
      (syncAllState t1 c emptyStore).store).report.updated = 0 := g2updated
  have hu2 : (st2R t2 c
      (syncAllState t1 c emptyStore).store).report.updated = 0 := by
    rw [hcsv]; exact hu1
  have hu3 : (st3R t2 c
      (syncAllState t1 c emptyStore).store).report.updated = 0 :=
    s3updated.trans hu2
  have hu4 : (st4R t2 c
      (syncAllState t1 c emptyStore).store).report.updated = 0 :=
    p4updated.trans hu3
  have hu5 : (st5R t2 c
      (syncAllState t1 c emptyStore).store).report.updated = 0 :=
    d5updated.trans hu4
  have hh1 : (st1R t2 c
      (syncAllState t1 c emptyStore).store).report.changes = [] := g2changes
  have hh2 : (st2R t2 c
      (syncAllState t1 c emptyStore).store).report.changes = [] := by
    rw [hcsv]; exact hh1
  have hh3 : (st3R t2 c
      (syncAllState t1 c emptyStore).store).report.changes = [] :=
    s3changes.trans hh2
  have hh4 : (st4R t2 c
      (syncAllState t1 c emptyStore).store).report.changes = [] :=
    p4changes.trans hh3
  have hh5 : (st5R t2 c
      (syncAllState t1 c emptyStore).store).report.changes = [] :=
    d5changes.trans hh4
  -- run-2 stub phases: every pending slug already has its row
  have hnoop1 : stubStudiosPhase t2
      (st5R t2 c (syncAllState t1 c emptyStore).store).refStudios
      (st5R t2 c (syncAllState t1 c emptyStore).store).store
      = (st5R t2 c (syncAllState t1 c emptyStore).store).store := by
    apply stubStudiosPhase_noop
    intro x hx
    rw [(st5R_refs t2 c (syncAllState t1 c emptyStore).store).1] at hx
    rw [hSstudios]
    exact D3 x hx
  have hnoop2 : stubPublishersPhase t2
      (st5R t2 c (syncAllState t1 c emptyStore).store).refPublishers
      (st5R t2 c (syncAllState t1 c emptyStore).store).store
      = (st5R t2 c (syncAllState t1 c emptyStore).store).store := by
    apply stubPublishersPhase_noop
    intro x hx
    rw [(st5R_refs t2 c (syncAllState t1 c emptyStore).store).2.1] at hx
    rw [hSpubs]
    exact G3 x hx
  have hnoop3 : stubDesignersPhase t2
      (st5R t2 c (syncAllState t1 c emptyStore).store).refDesigners
      (st5R t2 c (syncAllState t1 c emptyStore).store).store
      = (st5R t2 c (syncAllState t1 c emptyStore).store).store := by
    apply stubDesignersPhase_noop
    intro x hx
    rw [(st5R_refs t2 c (syncAllState t1 c emptyStore).store).2.2] at hx
    rw [hD5]
    exact J3 x hx
  have hstore2 : (syncAllState t2 c
        (syncAllState t1 c emptyStore).store).store
      = (st5R t2 c (syncAllState t1 c emptyStore).store).store := by
    rw [syncAllState_store]
    unfold stubbedStore
    rw [hnoop1, hnoop2, hnoop3]
  -- assemble
  have hrep2 : (syncAll t2 c (syncAll t1 c emptyStore).1).2
      = (st5R t2 c (syncAllState t1 c emptyStore).store).report :=
    syncAllState_report t2 c (syncAllState t1 c emptyStore).store
  have hsto2 : (syncAll t2 c (syncAll t1 c emptyStore).1).1
      = (st5R t2 c (syncAllState t1 c emptyStore).store).store := hstore2
  refine ⟨?_, ?_, ?_, ?_⟩
  · rw [hrep2]
    exact hc5
  · rw [hrep2]
    exact hu5
  · rw [hrep2]
    exact hh5
  · rw [hsto2]
    exact ⟨hSgames, hSstudios, hSpubs, hD5, hgdS, hgpS, hSps, hSrs⟩

/-- A two-document corpus exercising both junction directions. -/
def c2GamePm : ParsedMarkdown :=
  { frontmatter :=
      [("class", FmVal.str "game"),
       ("developer", FmVal.list ["[[StudioA]]"]),
       ("publisher", FmVal.list ["[[PubX]]"])]
    sections := [("gameplay", "fun")] }

def c2StudioPm : ParsedMarkdown :=
  { frontmatter :=
      [("class", FmVal.str "studio"),
       ("games", FmVal.list ["[[G]]"])]
    sections := [("overview", "hi")] }

def c2Corpus : Corpus :=
  { gameFiles := [("lib/games/G.md", c2GamePm)]
    csv := none
    studioFiles := [("lib/studios/StudioA.md", c2StudioPm)]
    publisherFiles := []
    designerFiles := [] }

theorem c2_witness :
    (syncAll 7 c2Corpus (syncAll 3 c2Corpus emptyStore).1).2.created = 0 ∧
    (syncAll 7 c2Corpus (syncAll 3 c2Corpus emptyStore).1).2.updated = 0 ∧
    (syncAll 7 c2Corpus (syncAll 3 c2Corpus emptyStore).1).2.changes
      = [] ∧
    storeEquiv (syncAll 7 c2Corpus (syncAll 3 c2Corpus emptyStore).1).1
      (syncAll 3 c2Corpus emptyStore).1 :=
  c2_second_run_idempotent 3 7 c2Corpus (by decide) (by decide)
    (by decide) (by decide)

end GameJournal
